import Mathlib

/-!
# BirdNet Auto Battler: a shallow embedding of `autobattler.js`

The simulation state of the script (the globals `player`, `ai`, `round`,
`shopBirds`, `phase` and the two saved boards) becomes an explicit record that
every operation takes and returns.  JavaScript numbers are integers here.

* `Math.random()` is an explicit stream of draws.  A draw is the numerator `k`
  of the fraction `k / 2^53`, so `Math.floor(Math.random() * n)` is
  `k * n / 2^53` in exact arithmetic.
* The player's click in the reward modal is an explicit stream of picks.
* An uncaught `TypeError` does not undo the mutations made before it, so every
  operation returns the state it leaves behind together with a completion tag.
* Rendering (`render`, `createBirdCard`, arrows, timers) only reads the
  simulation state and is left out.  `createBirdCard` back-fills `maxHealth`
  only on a card that has none, which no generated unit is.
-/

namespace AutoBattler

/-! ## Constants and the unit catalog -/

def STARTING_HEALTH : Int := 30
def STARTING_CURRENCY : Int := 1
def SHOP_SIZE : Nat := 6
def MAX_BOARD_SIZE : Nat := 5

/-- The table `RARITY_COST`; `none` is a missing key. -/
def RARITY_COST (rarity : String) : Option Int :=
  if rarity = "common" then some 1
  else if rarity = "uncommon" then some 2
  else if rarity = "rare" then some 3
  else if rarity = "extremely rare" then some 4
  else none

/-- The table `BIRD_TIERS`: rarity and weight, in source order. -/
def BIRD_TIERS : List (String × Nat) :=
  [("common", 6), ("uncommon", 3), ("rare", 1)]

/-- An entry of `allBirds`: `{ id, name, scientificName, rarity, attack, health }`. -/
structure Template where
  id : String
  name : String
  scientificName : String
  rarity : String
  attack : Int
  health : Int
deriving DecidableEq, Repr

/-- A unit on a board or in a shop: a template copy with `maxHealth`, and the
optional fields `tier` (set by the AI upgrade) and `freeReward` (set on a
merge reward; absent reads as false). -/
structure Bird where
  id : String
  name : String
  scientificName : String
  rarity : String
  attack : Int
  health : Int
  maxHealth : Int
  tier : Option Int
  freeReward : Bool
deriving DecidableEq, Repr

/-- The catalog assigned by `loadBirds`. -/
def allBirds : List Template :=
  [ ⟨"sparrow", "House Sparrow", "Passer domesticus", "common", 2, 5⟩,
    ⟨"robin", "European Robin", "Erithacus rubecula", "common", 1, 6⟩,
    ⟨"blackbird", "Common Blackbird", "Turdus merula", "common", 2, 7⟩,
    ⟨"jay", "Eurasian Jay", "Garrulus glandarius", "uncommon", 3, 8⟩,
    ⟨"woodpecker", "Great Spotted Woodpecker", "Dendrocopos major", "uncommon", 4, 7⟩,
    ⟨"owl", "Barn Owl", "Tyto alba", "rare", 6, 10⟩,
    ⟨"eagle", "Golden Eagle", "Aquila chrysaetos", "rare", 7, 12⟩ ]

/-- The object literal `{ ...base, maxHealth: base.health }`. -/
def Template.instantiate (base : Template) : Bird :=
  { id := base.id, name := base.name, scientificName := base.scientificName,
    rarity := base.rarity, attack := base.attack, health := base.health,
    maxHealth := base.health, tier := none, freeReward := false }

/-! ## Randomness and completion -/

/-- The stream of `Math.random()` results still to come. -/
abbrev Rng := Nat → Nat

/-- Denominator of a draw: `Math.random()` is `k / 2^53` with `k < 2^53`. -/
def RANDOM_DEN : Nat := 2 ^ 53

/-- Numerator of the next `Math.random()`. -/
def rngHead (rng : Rng) : Nat := rng 0 % RANDOM_DEN

/-- The stream after one `Math.random()`. -/
def rngTail (rng : Rng) : Rng := fun n => rng (n + 1)

/-- The value `Math.floor(Math.random() * n)` for the draw numerator `k`. -/
def floorRandom (k n : Nat) : Nat := k * n / RANDOM_DEN

/-- How a call ends: it returns, or an uncaught `TypeError` leaves it. -/
inductive Completion where
  | normal
  | fault
deriving DecidableEq, Repr

/-- The stream of reward-modal clicks: which of the three cards is chosen. -/
abbrev Picks := Nat → Fin 3

/-! ## Game state -/

inductive Phase where
  | shop
  | battle
deriving DecidableEq, Repr

/-- The global `player` (its `hand` is never read). -/
structure Player where
  health : Int
  currency : Int
  board : List Bird
deriving DecidableEq, Repr

/-- The global `ai`. -/
structure AI where
  health : Int
  board : List Bird
  shop : List Bird
  currency : Int
deriving DecidableEq, Repr

/-- All simulation globals.  `message` is the last text given to `showMessage`
and `endShopDisabled` is `endShopBtn.disabled`. -/
structure GameState where
  player : Player
  ai : AI
  round : Int
  shopBirds : List Bird
  phase : Phase
  playerSavedBoard : List Bird
  aiSavedBoard : List Bird
  message : String
  endShopDisabled : Bool
deriving DecidableEq, Repr

/-- What a call leaves behind: the globals, the unread draws, and how it ended. -/
structure Run where
  state : GameState
  rng : Rng
  completion : Completion

/-! ## Generators -/

/-- The function `getRandomBird`; `none` is the `TypeError` of reading
`base.health` when `birds[...]` is `undefined`. -/
def getRandomBird (rarity : String) (rng : Rng) : Option Bird × Rng :=
  let birds := allBirds.filter (fun b => b.rarity = rarity)
  let base := birds[floorRandom (rngHead rng) birds.length]?
  (base.map Template.instantiate, rngTail rng)

/-- The loop of `getRandomShopBird` over the remaining tiers, with `r` scaled
by `RANDOM_DEN`; `none` means the loop ran off the table. -/
def walkTiers : List (String × Nat) → Nat → Option String
  | [], _ => none
  | (rarity, weight) :: rest, r =>
    if r < weight * RANDOM_DEN then some rarity
    else walkTiers rest (r - weight * RANDOM_DEN)

/-- The function `getRandomShopBird`. -/
def getRandomShopBird (rng : Rng) : Option Bird × Rng :=
  let totalWeight := BIRD_TIERS.foldl (fun sum t => sum + t.2) 0
  let r := rngHead rng * totalWeight
  match walkTiers BIRD_TIERS r with
  | some rarity => getRandomBird rarity (rngTail rng)
  | none => getRandomBird "common" (rngTail rng)

/-- The loop of `generateShop`: `n` more pushes onto `target`. -/
def generateShopLoop : Nat → List Bird → Rng → List Bird × Rng × Completion
  | 0, target, rng => (target, rng, Completion.normal)
  | n + 1, target, rng =>
    match getRandomShopBird rng with
    | (some bird, rng1) => generateShopLoop n (target ++ [bird]) rng1
    | (none, rng1) => (target, rng1, Completion.fault)

/-- The function `generateShop`: the old content is dropped first. -/
def generateShop (rng : Rng) : List Bird × Rng × Completion :=
  generateShopLoop SHOP_SIZE [] rng

/-- The function `getNextRarity`. -/
def getNextRarity (current : String) : String :=
  if current = "common" then "uncommon"
  else if current = "uncommon" then "rare"
  else if current = "rare" then "extremely rare"
  else "extremely rare"

/-- The function `getRandomBirdOfRarity`; `none` is `null`.  A draw is read
only when the pool is not empty, and the index is then always in range. -/
def getRandomBirdOfRarity (rarity : String) (rng : Rng) : Option Bird × Rng :=
  let birds := allBirds.filter (fun b => b.rarity = rarity)
  if birds.length = 0 then (none, rng)
  else
    let base := birds[floorRandom (rngHead rng) birds.length]?
    (base.map Template.instantiate, rngTail rng)

/-! ## Merge resolution (`combineTriples`) -/

/-- An entry of `tripleRewards`. -/
structure Reward where
  options : List (Option Bird)
  isPlayer : Bool
deriving DecidableEq, Repr

/-- The local state of the scan in `combineTriples`: the board being edited in
place, `tripleRewards`, the unread draws, and whether `base.rarity` threw. -/
structure Scan where
  board : List Bird
  rewards : List Reward
  rng : Rng
  fault : Bool

/-- The keys of `counts` in enumeration order, each with the length of its
array.  Keys are enumerated in order of first insertion (ids are names, not
array indices), and the lengths are those of the board before any removal. -/
def countsOf (board : List Bird) : List (String × Nat) :=
  let keys := board.foldl (fun ks b => if b.id ∈ ks then ks else ks ++ [b.id]) []
  keys.map (fun key => (key, (board.filter (fun b => b.id = key)).length))

/-- One pass through the body of `while (birds.length >= 3)` for `key`. -/
def mergeOnce (isPlayer : Bool) (key : String) (sc : Scan) : Scan :=
  let board := sc.board.filter (fun b => b.id ≠ key)
  match allBirds.find? (fun b => b.id = key) with
  | none => { sc with board := board, fault := true }
  | some base =>
    let nextRarity := getNextRarity base.rarity
    let o1 := getRandomBirdOfRarity nextRarity sc.rng
    let o2 := getRandomBirdOfRarity nextRarity o1.2
    let o3 := getRandomBirdOfRarity nextRarity o2.2
    { board := board,
      rewards := sc.rewards ++ [{ options := [o1.1, o2.1, o3.1], isPlayer := isPlayer }],
      rng := o3.2, fault := false }

/-- The loop `while (birds.length >= 3) { ...; birds.splice(0, 3) }`, by the
current length of `birds`. -/
def mergeWhile (isPlayer : Bool) (key : String) : Nat → Scan → Scan
  | n + 3, sc =>
    let sc1 := mergeOnce isPlayer key sc
    if sc1.fault then sc1 else mergeWhile isPlayer key n sc1
  | _, sc => sc

/-- The loop `for (let key in counts)`. -/
def scanKeys (isPlayer : Bool) : List (String × Nat) → Scan → Scan
  | [], sc => sc
  | (key, n) :: rest, sc =>
    let sc1 := mergeWhile isPlayer key n sc
    if sc1.fault then sc1 else scanKeys isPlayer rest sc1

/-- The first half of `combineTriples`: counting and the removal loops. -/
def scanTriples (board : List Bird) (isPlayer : Bool) (rng : Rng) : Scan :=
  scanKeys isPlayer (countsOf board)
    { board := board, rewards := [], rng := rng, fault := false }

/-- The recursion `handleReward(idx)` over the rewards from `idx` on.  For the
player the modal builds a card for every option first, which throws on a
`null` option; the AI throws when it writes to a `null` choice. -/
def handleReward (picks : Picks) : List Reward → Nat → GameState → Rng → Run
  | [], _, s, rng => { state := s, rng := rng, completion := Completion.normal }
  | reward :: rest, idx, s, rng =>
    if reward.isPlayer then
      if reward.options.all Option.isSome then
        match (reward.options[(picks idx).val]?).join with
        | some chosen =>
          handleReward picks rest (idx + 1)
            { s with shopBirds := { chosen with freeReward := true } :: s.shopBirds } rng
        | none => { state := s, rng := rng, completion := Completion.fault }
      else { state := s, rng := rng, completion := Completion.fault }
    else
      match (reward.options[floorRandom (rngHead rng) reward.options.length]?).join with
      | some chosen =>
        handleReward picks rest (idx + 1)
          { s with ai := { s.ai with shop := { chosen with freeReward := true } :: s.ai.shop } }
          (rngTail rng)
      | none => { state := s, rng := rngTail rng, completion := Completion.fault }

/-- The function `combineTriples(board, isPlayer)`.  It is only called as
`combineTriples(player.board, true)` and `combineTriples(ai.board, false)`, so
the board edited in place is selected by `isPlayer`. -/
def combineTriples (s : GameState) (isPlayer : Bool) (picks : Picks) (rng : Rng) : Run :=
  let sc := scanTriples (if isPlayer then s.player.board else s.ai.board) isPlayer rng
  let s1 : GameState :=
    if isPlayer then { s with player := { s.player with board := sc.board } }
    else { s with ai := { s.ai with board := sc.board } }
  if sc.fault then { state := s1, rng := sc.rng, completion := Completion.fault }
  else handleReward picks sc.rewards 0 s1 sc.rng

/-! ## Shop phase (`buyBird`) -/

/-- The expression `RARITY_COST[bird.rarity] || 1`. -/
def rarityCost (rarity : String) : Int :=
  match RARITY_COST rarity with
  | some c => if c = 0 then 1 else c
  | none => 1

/-- The player's price: `bird.freeReward ? 0 : (RARITY_COST[bird.rarity] || 1)`. -/
def buyCost (bird : Bird) : Int :=
  if bird.freeReward then 0 else rarityCost bird.rarity

/-- The read `shopBirds[idx]`; `none` is `undefined`. -/
def offerAt (shop : List Bird) (idx : Int) : Option Bird :=
  if 0 ≤ idx then shop[idx.toNat]? else none

/-- The flag `willTriple` of `buyBird`. -/
def willTriple (board : List Bird) (bird : Bird) : Bool :=
  (board.filter (fun b => b.id = bird.id)).length = 2

/-- The three statements of `buyBird` between the guards and the merge:
pay, push a copy, splice the offer out. -/
def applyPurchase (s : GameState) (idx : Int) (bird : Bird) : GameState :=
  { s with
    player := { s.player with
      currency := s.player.currency - buyCost bird,
      board := s.player.board ++ [bird] },
    shopBirds := s.shopBirds.eraseIdx idx.toNat }

/-- The function `buyBird(idx)`. -/
def buyBird (s : GameState) (idx : Int) (picks : Picks) (rng : Rng) : Run :=
  if s.phase ≠ Phase.shop then { state := s, rng := rng, completion := Completion.normal }
  else
    match offerAt s.shopBirds idx with
    | none => { state := s, rng := rng, completion := Completion.fault }
    | some bird =>
      if s.player.currency < buyCost bird then
        { state := s, rng := rng, completion := Completion.normal }
      else if s.player.board.length ≥ MAX_BOARD_SIZE ∧ ¬ willTriple s.player.board bird then
        { state := s, rng := rng, completion := Completion.normal }
      else
        combineTriples (applyPurchase s idx bird) true picks rng

/-! ## AI draft (`aiBuyPhase`) -/

/-- The expression `x || 1` on an optional number: `undefined` and `0` give 1. -/
def orOne (t : Option Int) : Int :=
  match t with
  | some v => if v = 0 then 1 else v
  | none => 1

/-- Step 1 scan: the first shop index whose id has exactly two copies on the
board and whose cost is covered; `none` is `tripleIdx === -1`. -/
def findTripleIdx (ai : AI) : Option Nat :=
  ai.shop.findIdx? (fun bird =>
    decide ((ai.board.filter (fun b => b.id = bird.id)).length = 2
      ∧ ai.currency ≥ rarityCost bird.rarity))

/-- The unit pushed by an upgrade:
`{ ...bird, attack: bird.attack + 1, health: bird.health + 2, maxHealth: newMax, tier: newTier }`. -/
def upgraded (bird : Bird) (newTier : Int) : Bird :=
  { bird with
    attack := bird.attack + 1, health := bird.health + 2,
    maxHealth := bird.maxHealth + 2, tier := some newTier }

/-- The body of `if (tripleIdx !== -1)`.  The tier is read from the board
after the copies have been filtered out. -/
def upgradeTriple (ai : AI) (tripleIdx : Nat) (bird : Bird) : AI :=
  let cost := rarityCost bird.rarity
  let board := ai.board.filter (fun b => b.id ≠ bird.id)
  let newTier := orOne ((board.find? (fun b => b.id = bird.id)).bind (fun b => b.tier)) + 1
  { ai with
    currency := ai.currency - cost,
    board := board ++ [upgraded bird newTier],
    shop := ai.shop.eraseIdx tripleIdx }

/-- The table `rarityOrder`; `none` is a missing key. -/
def rarityOrder (rarity : String) : Option Int :=
  if rarity = "rare" then some 3
  else if rarity = "uncommon" then some 2
  else if rarity = "common" then some 1
  else none

/-- The comparison `a > b` on table reads: false when either is `undefined`. -/
def jsGt : Option Int → Option Int → Bool
  | some a, some b => decide (a > b)
  | _, _ => false

/-- An entry of `affordable`: `{ b, i, cost }`. -/
structure Offer where
  b : Bird
  i : Nat
  cost : Int
deriving DecidableEq, Repr

/-- The list `affordable`. -/
def affordable (ai : AI) : List Offer :=
  (ai.shop.enum.map (fun p => ({ b := p.2, i := p.1, cost := rarityCost p.2.rarity } : Offer))).filter
    (fun x => decide (x.cost ≤ ai.currency))

/-- The reduction computing `rarest`, started from `null`. -/
def rarestOf (offers : List Offer) : Option Offer :=
  offers.foldl (fun best x =>
    match best with
    | none => some x
    | some bst =>
      if jsGt (rarityOrder x.b.rarity) (rarityOrder bst.b.rarity) then some x else some bst) none

/-- The list `candidates`: `===` on two table reads. -/
def candidatesOf (offers : List Offer) (rarest : Offer) : List Offer :=
  offers.filter (fun x => decide (rarityOrder x.b.rarity = rarityOrder rarest.b.rarity))

/-- The value `Math.max(...xs)` of a non-empty list (`none` for the empty one). -/
def mathMax : List Int → Option Int
  | [] => none
  | a :: as => some (as.foldl max a)

/-- The index `bestIdx`; `none` is the `TypeError` of `bestBird.i` on
`undefined`. -/
def bestIdxOf (rarest : Offer) (candidates : List Offer) : Option Nat :=
  if candidates.length > 1 then
    match mathMax (candidates.map (fun x => x.b.attack)) with
    | none => none
    | some maxAtk => (candidates.find? (fun x => decide (x.b.attack = maxAtk))).map (fun x => x.i)
  else some rarest.i

/-- The purchase of step 2, from `let bird = ai.shop[bestIdx]` on. -/
def buyRarest (ai : AI) (bestIdx : Nat) (bird : Bird) : AI :=
  let cost := rarityCost bird.rarity
  let sameBirds := ai.board.filter (fun b => b.id = bird.id)
  let board :=
    if sameBirds.length = 2 then
      ai.board.filter (fun b => b.id ≠ bird.id)
        ++ [upgraded bird (orOne (sameBirds[0]?.bind (fun b => b.tier)) + 1)]
    else ai.board ++ [bird]
  { ai with currency := ai.currency - cost, board := board, shop := ai.shop.eraseIdx bestIdx }

/-- What one test-and-body of the `while` loop does. -/
inductive AiStep where
  | next (ai : AI)
  | exit
  | fault
deriving DecidableEq, Repr

/-- One iteration of the `while` loop of `aiBuyPhase`, guard included. -/
def aiBuyStep (ai : AI) : AiStep :=
  if ai.currency > 0 ∧ ai.board.length < MAX_BOARD_SIZE ∧ ai.shop.length > 0 then
    match findTripleIdx ai with
    | some tripleIdx =>
      match ai.shop[tripleIdx]? with
      | some bird => AiStep.next (upgradeTriple ai tripleIdx bird)
      | none => AiStep.fault
    | none =>
      let offers := affordable ai
      if offers.length = 0 then AiStep.exit
      else
        match rarestOf offers with
        | none => AiStep.fault
        | some rarest =>
          match bestIdxOf rarest (candidatesOf offers rarest) with
          | none => AiStep.fault
          | some bestIdx =>
            match ai.shop[bestIdx]? with
            | some bird => AiStep.next (buyRarest ai bestIdx bird)
            | none => AiStep.fault
  else AiStep.exit

/-- The `while` loop run for at most `fuel` iterations. -/
def aiBuyLoop : Nat → AI → AI × Completion
  | 0, ai => (ai, Completion.normal)
  | fuel + 1, ai =>
    match aiBuyStep ai with
    | AiStep.next ai1 => aiBuyLoop fuel ai1
    | AiStep.exit => (ai, Completion.normal)
    | AiStep.fault => (ai, Completion.fault)

/-- The function `aiBuyPhase`.  Every iteration that does not leave the loop
removes one offer, so `ai.shop.length` iterations are enough. -/
def aiBuyPhase (ai : AI) : AI × Completion :=
  aiBuyLoop ai.shop.length ai

/-! ## Battle (`battleRound`) -/

inductive Side where
  | player
  | ai
deriving DecidableEq, Repr

/-- The inner function `attack(attackerBoard, defenderBoard, ...)`: the two
boards after the exchange.  A fault is the `TypeError` on an `undefined`
defender. -/
def attack (attackerBoard defenderBoard : List Bird) (rng : Rng) :
    List Bird × List Bird × Rng × Completion :=
  match attackerBoard with
  | [] => (attackerBoard, defenderBoard, rng, Completion.normal)
  | attacker :: rest =>
    if defenderBoard.length = 0 then (attackerBoard, defenderBoard, rng, Completion.normal)
    else
      let defenderIdx := floorRandom (rngHead rng) defenderBoard.length
      match defenderBoard[defenderIdx]? with
      | none => (attackerBoard, defenderBoard, rngTail rng, Completion.fault)
      | some defender =>
        let defender1 := { defender with health := defender.health - attacker.attack }
        let attacker1 := { attacker with health := attacker.health - defender1.attack }
        let removeAttacker := decide (attacker1.health ≤ 0)
        let removeDefender := decide (defender1.health ≤ 0)
        let attackerBoard1 := attacker1 :: rest
        let defenderBoard1 := defenderBoard.set defenderIdx defender1
        if removeAttacker && removeDefender then
          if defenderIdx > 0 then
            let d := defenderBoard1.eraseIdx defenderIdx
            let a := attackerBoard1.eraseIdx 0
            (a, d, rngTail rng, Completion.normal)
          else
            let a := attackerBoard1.eraseIdx 0
            let d := defenderBoard1.eraseIdx defenderIdx
            (a, d, rngTail rng, Completion.normal)
        else if removeDefender then
          (attackerBoard1, defenderBoard1.eraseIdx defenderIdx, rngTail rng, Completion.normal)
        else if removeAttacker then
          (attackerBoard1.eraseIdx 0, defenderBoard1, rngTail rng, Completion.normal)
        else (attackerBoard1, defenderBoard1, rngTail rng, Completion.normal)

/-- The two boards right after the two damage statements of `attack`
(`defender.health -= attacker.attack; attacker.health -= defender.attack`),
before any removal, for the chosen `defenderIdx`. -/
def damageBoards (attackerBoard defenderBoard : List Bird) (defenderIdx : Nat) :
    List Bird × List Bird :=
  match attackerBoard, defenderBoard[defenderIdx]? with
  | attacker :: rest, some defender =>
    let defender1 := { defender with health := defender.health - attacker.attack }
    let attacker1 := { attacker with health := attacker.health - defender1.attack }
    (attacker1 :: rest, defenderBoard.set defenderIdx defender1)
  | _, _ => (attackerBoard, defenderBoard)

/-- The battle in progress: the globals (`pBoard` and `aBoard` alias
`player.board` and `ai.board`), whose turn it is, and the unread draws. -/
structure Battle where
  state : GameState
  playerTurn : Side
  rng : Rng

/-- What one call of `doBattleStep` does. -/
inductive BattleStep where
  | resolved
  | next (b : Battle)
  | fault (b : Battle)

/-- One call of the inner function `doBattleStep`; `resolved` is the branch
that schedules `checkGameEnd`. -/
def doBattleStep (b : Battle) : BattleStep :=
  let pBoard := b.state.player.board
  let aBoard := b.state.ai.board
  if pBoard.length = 0 ∨ aBoard.length = 0 then BattleStep.resolved
  else
    match b.playerTurn with
    | Side.player =>
      match attack pBoard aBoard b.rng with
      | (p, a, rng, c) =>
        let b1 : Battle :=
          { state := { b.state with player := { b.state.player with board := p },
                                    ai := { b.state.ai with board := a } },
            playerTurn := Side.ai, rng := rng }
        if c = Completion.normal then BattleStep.next b1
        else BattleStep.fault { b1 with playerTurn := Side.player }
    | Side.ai =>
      match attack aBoard pBoard b.rng with
      | (a, p, rng, c) =>
        let b1 : Battle :=
          { state := { b.state with player := { b.state.player with board := p },
                                    ai := { b.state.ai with board := a } },
            playerTurn := Side.player, rng := rng }
        if c = Completion.normal then BattleStep.next b1
        else BattleStep.fault { b1 with playerTurn := Side.ai }

/-- The start of `battleRound`: the first attacker is `Math.random() < 0.5`. -/
def battleStart (s : GameState) (rng : Rng) : Battle :=
  { state := s,
    playerTurn := if rngHead rng * 2 < RANDOM_DEN then Side.player else Side.ai,
    rng := rngTail rng }

/-- The chain of timer callbacks `doBattleStep`, run for at most `fuel` calls:
the battle at the moment `checkGameEnd` is scheduled.  `none` means that the
fuel ran out first or that a call threw. -/
def battleLoop : Nat → Battle → Option Battle
  | 0, _ => none
  | fuel + 1, b =>
    match doBattleStep b with
    | BattleStep.resolved => some b
    | BattleStep.next b1 => battleLoop fuel b1
    | BattleStep.fault _ => none

/-! ## Round outcome (`checkGameEnd`, `startShopPhase`) -/

/-- The reduction `board.reduce((sum, b) => sum + b.attack, 0)`. -/
def totalAtk (board : List Bird) : Int :=
  board.foldl (fun sum b => sum + b.attack) 0

/-- The first `if / else if` of `checkGameEnd`: leftover board damage. -/
def overflowDamage (s : GameState) : GameState :=
  if s.player.board.length > 0 ∧ s.ai.board.length = 0 then
    { s with ai := { s.ai with health := s.ai.health - totalAtk s.player.board } }
  else if s.ai.board.length > 0 ∧ s.player.board.length = 0 then
    { s with player := { s.player with health := s.player.health - totalAtk s.ai.board } }
  else s

/-- The statements of `startShopPhase` after the two awaited merges: the AI
gets a new shop, the player's currency, and buys; then the player gets a new
shop and the shop phase opens. -/
def refreshShops (s : GameState) (rng : Rng) : Run :=
  match generateShop rng with
  | (aiShop, rng3, c3) =>
    let s3 : GameState := { s with ai := { s.ai with shop := aiShop } }
    if c3 = Completion.fault then { state := s3, rng := rng3, completion := Completion.fault }
    else
      let ai4 : AI := { s3.ai with currency := s3.player.currency }
      match aiBuyPhase ai4 with
      | (ai5, c5) =>
        let s5 : GameState := { s3 with ai := ai5 }
        if c5 = Completion.fault then
          { state := s5, rng := rng3, completion := Completion.fault }
        else
          match generateShop rng3 with
          | (shop, rng6, c6) =>
            if c6 = Completion.fault then
              { state := { s5 with shopBirds := shop }, rng := rng6,
                completion := Completion.fault }
            else
              { state := { s5 with shopBirds := shop, phase := Phase.shop,
                                   endShopDisabled := false },
                rng := rng6, completion := Completion.normal }

/-- The function `startShopPhase`. -/
def startShopPhase (s : GameState) (picks : Picks) (rng : Rng) : Run :=
  let r1 := combineTriples s true picks rng
  if r1.completion = Completion.fault then r1
  else
    let r2 := combineTriples r1.state false picks r1.rng
    if r2.completion = Completion.fault then r2
    else refreshShops r2.state r2.rng

/-- The assignments of `checkGameEnd` between the terminal tests and the call
of `startShopPhase`: the round counter goes up, both currencies are set to it,
and both boards are restored from the snapshot. -/
def advanceRound (s : GameState) : GameState :=
  { s with
    round := s.round + 1,
    player := { s.player with currency := s.round + 1, board := s.playerSavedBoard },
    ai := { s.ai with currency := s.round + 1, board := s.aiSavedBoard } }

/-- The statements of `checkGameEnd` after the terminal tests: the next round.
`startShopPhase()` is not awaited, so `showMessage` runs whatever it does. -/
def nextRound (s : GameState) (picks : Picks) (rng : Rng) : Run :=
  let round := s.round + 1
  let s1 : GameState :=
    { s with
      round := round,
      player := { s.player with currency := round, board := s.playerSavedBoard },
      ai := { s.ai with currency := round, board := s.aiSavedBoard } }
  let r := startShopPhase s1 picks rng
  { r with state := { r.state with message := "Next round!" } }

/-- The function `checkGameEnd`. -/
def checkGameEnd (s : GameState) (picks : Picks) (rng : Rng) : Run :=
  let s1 := overflowDamage s
  if s1.player.health ≤ 0 ∧ s1.ai.health ≤ 0 then
    { state := { s1 with message := "Draw! Both players lost all health.",
                         endShopDisabled := true },
      rng := rng, completion := Completion.normal }
  else if s1.player.health ≤ 0 then
    { state := { s1 with message := "You lost!", endShopDisabled := true },
      rng := rng, completion := Completion.normal }
  else if s1.ai.health ≤ 0 then
    { state := { s1 with message := "You win!", endShopDisabled := true },
      rng := rng, completion := Completion.normal }
  else nextRound s1 picks rng

/-- The function `battleRound` followed by the `checkGameEnd` it schedules,
with at most `fuel` calls of `doBattleStep`. -/
def battleRound (fuel : Nat) (s : GameState) (picks : Picks) (rng : Rng) : Option Run :=
  (battleLoop fuel (battleStart s rng)).map (fun b => checkGameEnd b.state picks b.rng)

/-- The handler `endShopBtn.onclick` up to `startBattle()`: the snapshot. -/
def endShop (s : GameState) : GameState :=
  if s.phase ≠ Phase.shop then s
  else
    { s with
      playerSavedBoard := s.player.board,
      aiSavedBoard := s.ai.board,
      phase := Phase.battle,
      endShopDisabled := true }

/-! ## Example data -/

/-- Catalog units as they come out of the generators. -/
def sparrow : Bird := (⟨"sparrow", "House Sparrow", "Passer domesticus", "common", 2, 5⟩ : Template).instantiate
def jay : Bird := (⟨"jay", "Eurasian Jay", "Garrulus glandarius", "uncommon", 3, 8⟩ : Template).instantiate
def owl : Bird := (⟨"owl", "Barn Owl", "Tyto alba", "rare", 6, 10⟩ : Template).instantiate
def robin : Bird := (⟨"robin", "European Robin", "Erithacus rubecula", "common", 1, 6⟩ : Template).instantiate

/-- An example shop-phase state: round 1, one coin, a sparrow on the board. -/
def exampleState : GameState :=
  { player := { health := 30, currency := 1, board := [sparrow] },
    ai := { health := 30, board := [], shop := [], currency := 1 },
    round := 1, shopBirds := [sparrow, jay, owl], phase := Phase.shop,
    playerSavedBoard := [], aiSavedBoard := [], message := "", endShopDisabled := false }

/-! ## Purchase sequences -/

/-- One click on a shop card, with the reward picks and the draws that the
call consumes. -/
structure Click where
  idx : Int
  picks : Picks
  rng : Rng

/-- The globals after a sequence of `buyBird` calls, each started on the state
the previous one left. -/
def buyMany (s : GameState) : List Click → GameState
  | [] => s
  | c :: rest => buyMany (buyBird s c.idx c.picks c.rng).state rest

/-- What the call `buyBird(idx)` pays: the offer's cost when the call passes
its guards (the purchase succeeds), nothing when it returns early. -/
def costPaid (s : GameState) (idx : Int) : Int :=
  if s.phase ≠ Phase.shop then 0
  else
    match offerAt s.shopBirds idx with
    | none => 0
    | some bird =>
      if s.player.currency < buyCost bird then 0
      else if s.player.board.length ≥ MAX_BOARD_SIZE ∧ ¬ willTriple s.player.board bird then 0
      else buyCost bird

/-- The sum of the costs of the purchases of a sequence that succeed. -/
def paidTotal (s : GameState) : List Click → Int
  | [] => 0
  | c :: rest => costPaid s c.idx + paidTotal (buyBird s c.idx c.picks c.rng).state rest

/-- The total price of a shop list at the AI's prices
(`RARITY_COST[bird.rarity] || 1` for every offer). -/
def shopCost (shop : List Bird) : Int :=
  (shop.map (fun b => rarityCost b.rarity)).sum

/-- Two clicks on the first shop card. -/
def exampleClicks : List Click :=
  [{ idx := 0, picks := fun _ => 0, rng := fun _ => 0 },
   { idx := 0, picks := fun _ => 0, rng := fun _ => 0 }]

/-- An AI with three coins, a robin on the board and three offers. -/
def exampleAi : AI :=
  { health := 30, board := [robin], shop := [sparrow, jay, owl], currency := 3 }

/-! ## Predicates used in the statements -/

/-- A reward with exactly three candidates, each an actual unit of the given
rarity. -/
def Reward.allOfRarity (reward : Reward) (rarity : String) : Prop :=
  reward.options.length = 3 ∧ ∀ o ∈ reward.options, ∃ b : Bird, o = some b ∧ b.rarity = rarity

/-- Every unit of the roster is an instance of a catalog template. -/
def fromCatalog (board : List Bird) : Prop :=
  ∀ b ∈ board, ∃ t ∈ allBirds, t.id = b.id

/-- The spec's order of the rarities in the draft, rare > uncommon > common,
written from the spec's words and not from the code's table: `rarer a b` says
that `a` stands strictly above `b` in that order. -/
def rarer (a b : String) : Prop :=
  (a = "rare" ∧ (b = "uncommon" ∨ b = "common")) ∨ (a = "uncommon" ∧ b = "common")

/-- The selection rule of step 2 in the spec's words: offer `i` is affordable,
no affordable offer is rarer than it (rare > uncommon > common), and no
affordable offer of the same rarity has a higher attack. -/
def isBestOffer (ai : AI) (i : Nat) : Prop :=
  ∃ bird, ai.shop[i]? = some bird ∧ rarityCost bird.rarity ≤ ai.currency
    ∧ (∀ other ∈ ai.shop, rarityCost other.rarity ≤ ai.currency →
        ¬ rarer other.rarity bird.rarity)
    ∧ (∀ other ∈ ai.shop, rarityCost other.rarity ≤ ai.currency →
        other.rarity = bird.rarity → other.attack ≤ bird.attack)

/-- The part of the globals that merge resolution, shop generation and the AI
draft never write: both health values, the round counter, the player's
currency, the saved boards and the message. -/
def sameScore (s t : GameState) : Prop :=
  t.player.health = s.player.health ∧ t.ai.health = s.ai.health ∧ t.round = s.round
    ∧ t.player.currency = s.player.currency ∧ t.playerSavedBoard = s.playerSavedBoard
    ∧ t.aiSavedBoard = s.aiSavedBoard ∧ t.message = s.message

/-- A state at the end of a battle in which the player's robin survived. -/
def exampleResolved : GameState :=
  { player := { health := 30, currency := 0, board := [robin] },
    ai := { health := 1, board := [], shop := [], currency := 0 },
    round := 3, shopBirds := [], phase := Phase.battle,
    playerSavedBoard := [robin, sparrow], aiSavedBoard := [jay], message := "",
    endShopDisabled := true }

/-- A unit with attack 5 and health 5. -/
def fiveFive : Bird :=
  { sparrow with attack := 5, health := 5, maxHealth := 5 }

/-- A battle state with one 5/5 unit on each side. -/
def exampleDuel : GameState :=
  { player := { health := 30, currency := 0, board := [fiveFive] },
    ai := { health := 30, board := [fiveFive], shop := [], currency := 0 },
    round := 1, shopBirds := [], phase := Phase.battle,
    playerSavedBoard := [fiveFive], aiSavedBoard := [fiveFive], message := "",
    endShopDisabled := true }

/-- A shop-phase state with one 5/5 unit on each side, about to end the shop. -/
def exampleBeforeBattle : GameState :=
  { exampleDuel with phase := Phase.shop, playerSavedBoard := [], aiSavedBoard := [],
                     endShopDisabled := false }

/-- A sparrow offer carrying the free-reward flag. -/
def freeSparrow : Bird :=
  { sparrow with freeReward := true }

/-- An AI with one coin, an empty roster and the flagged sparrow as its only
offer. -/
def exampleFreeAi : AI :=
  { health := 30, board := [], shop := [freeSparrow], currency := 1 }

/-- A shop-phase state whose shop holds the flagged sparrow in front of a plain
sparrow and an owl; the player has one coin and a sparrow on the roster. -/
def exampleFreeState : GameState :=
  { exampleState with shopBirds := [freeSparrow, sparrow, owl] }

/-- A jay as the AI upgrade leaves it: tier 2, attack 4, health 10. -/
def jayTier2 : Bird :=
  upgraded jay 2

/-- An AI holding an upgraded jay and a plain jay, with a third jay on offer. -/
def exampleTierAi : AI :=
  { health := 30, board := [jayTier2, jay], shop := [jay], currency := 2 }

/-- An AI with a full roster that holds two jays, a jay on offer and the coins
to pay for it. -/
def exampleFullAi : AI :=
  { health := 30, board := [jay, sparrow, jay, robin, owl], shop := [jay], currency := 2 }

/-- A shop-phase state in which the player holds two owls and can pay for the
owl on offer. -/
def exampleOwlState : GameState :=
  { exampleState with
    player := { health := 30, currency := 3, board := [owl, owl] },
    shopBirds := [owl] }

/-- An attacker board (sparrow first) and a defender board for one attack. -/
def exampleAttackers : List Bird := [sparrow, owl]

/-- The defender board of the example attack. -/
def exampleDefenders : List Bird := [robin, jay]

/-- No id occurs three or more times on the roster. -/
def noTriple (board : List Bird) : Prop :=
  ∀ key : String, (board.filter (fun b => b.id = key)).length < 3

/-- Every unit of the roster can fight: positive health and attack at least 1. -/
def alive (board : List Bird) : Prop :=
  ∀ b ∈ board, 0 < b.health ∧ 1 ≤ b.attack

/-- The health left on a roster, added up. -/
def healthSum (board : List Bird) : Nat :=
  (board.map (fun b => b.health.toNat)).sum

/-- A shop-phase state whose player roster holds four sparrows around a jay. -/
def exampleFourSparrows : GameState :=
  { exampleState with
    player := { health := 30, currency := 0,
                board := [sparrow, jay, sparrow, sparrow, sparrow] } }

/-! ## Helper lemmas: merge resolution -/

theorem offerAt_natCast (shop : List Bird) (i : Nat) : offerAt shop (i : Int) = shop[i]? := by
  simp [offerAt]

theorem mergeWhile_small (isPlayer : Bool) (key : String) (n : Nat) (sc : Scan) (h : n < 3) :
    mergeWhile isPlayer key n sc = sc := by
  match n, h with
  | 0, _ => rfl
  | 1, _ => rfl
  | 2, _ => rfl

theorem scanKeys_no_triple (isPlayer : Bool) (counts : List (String × Nat)) (sc : Scan)
    (hf : sc.fault = false) (h : ∀ p ∈ counts, p.2 < 3) : scanKeys isPlayer counts sc = sc := by
  induction counts with
  | nil => rfl
  | cons p rest ih =>
    obtain ⟨key, n⟩ := p
    have hn : n < 3 := h (key, n) (List.mem_cons_self _ _)
    simp only [scanKeys, mergeWhile_small isPlayer key n sc hn, hf]
    exact ih (fun q hq => h q (List.mem_cons_of_mem _ hq))

theorem countsOf_snd (board : List Bird) (p : String × Nat) (hp : p ∈ countsOf board) :
    p.2 = (board.filter (fun b => b.id = p.1)).length := by
  simp only [countsOf, List.mem_map] at hp
  obtain ⟨key, _, rfl⟩ := hp
  rfl

theorem handleReward_frame (picks : Picks) (rewards : List Reward) (idx : Nat) (s : GameState)
    (rng : Rng) :
    ∃ added addedAi, (handleReward picks rewards idx s rng).state =
      { s with shopBirds := added ++ s.shopBirds, ai := { s.ai with shop := addedAi ++ s.ai.shop } }
      ∧ (∀ b ∈ added, b.freeReward = true) ∧ (∀ b ∈ addedAi, b.freeReward = true) := by
  induction rewards generalizing idx s rng with
  | nil => exact ⟨[], [], by simp [handleReward], by simp, by simp⟩
  | cons reward rest ih =>
    simp only [handleReward]
    split
    · split
      · split
        · rename_i chosen _
          obtain ⟨added, addedAi, h1, h2, h3⟩ := ih (idx + 1)
            { s with shopBirds := { chosen with freeReward := true } :: s.shopBirds } rng
          refine ⟨added ++ [{ chosen with freeReward := true }], addedAi, ?_, ?_, h3⟩
          · rw [h1]; simp
          · intro b hb
            rcases List.mem_append.1 hb with hb | hb
            · exact h2 b hb
            · simp at hb; rw [hb]
        · exact ⟨[], [], by simp, by simp, by simp⟩
      · exact ⟨[], [], by simp, by simp, by simp⟩
    · split
      · rename_i chosen _
        obtain ⟨added, addedAi, h1, h2, h3⟩ := ih (idx + 1)
          { s with ai := { s.ai with shop := { chosen with freeReward := true } :: s.ai.shop } }
          (rngTail rng)
        refine ⟨added, addedAi ++ [{ chosen with freeReward := true }], ?_, h2, ?_⟩
        · rw [h1]; simp
        · intro b hb
          rcases List.mem_append.1 hb with hb | hb
          · exact h3 b hb
          · simp at hb; rw [hb]
      · exact ⟨[], [], by simp, by simp, by simp⟩

theorem mergeOnce_board (isPlayer : Bool) (key : String) (sc : Scan) :
    (mergeOnce isPlayer key sc).board = sc.board.filter (fun b => b.id ≠ key) := by
  unfold mergeOnce
  split <;> rfl

theorem mergeWhile_sublist (isPlayer : Bool) (key : String) (n : Nat) (sc : Scan) :
    (mergeWhile isPlayer key n sc).board.Sublist sc.board := by
  induction n using Nat.strong_induction_on generalizing sc with
  | _ n ih =>
    match n with
    | 0 => exact List.Sublist.refl _
    | 1 => exact List.Sublist.refl _
    | 2 => exact List.Sublist.refl _
    | m + 3 =>
      have hb : (mergeOnce isPlayer key sc).board.Sublist sc.board := by
        rw [mergeOnce_board]; exact List.filter_sublist _
      simp only [mergeWhile]
      split
      · exact hb
      · exact (ih m (by omega) _).trans hb

theorem scanKeys_sublist (isPlayer : Bool) (counts : List (String × Nat)) (sc : Scan) :
    (scanKeys isPlayer counts sc).board.Sublist sc.board := by
  induction counts generalizing sc with
  | nil => exact List.Sublist.refl _
  | cons p rest ih =>
    obtain ⟨key, n⟩ := p
    simp only [scanKeys]
    split
    · exact mergeWhile_sublist isPlayer key n sc
    · exact (ih _).trans (mergeWhile_sublist isPlayer key n sc)

theorem scanTriples_sublist (board : List Bird) (isPlayer : Bool) (rng : Rng) :
    (scanTriples board isPlayer rng).board.Sublist board :=
  scanKeys_sublist isPlayer (countsOf board) _

theorem scanTriples_no_triple (board : List Bird) (isPlayer : Bool) (rng : Rng)
    (h : ∀ key, (board.filter (fun b => b.id = key)).length < 3) :
    scanTriples board isPlayer rng = { board := board, rewards := [], rng := rng, fault := false } := by
  unfold scanTriples
  apply scanKeys_no_triple _ _ _ rfl
  intro p hp
  rw [countsOf_snd board p hp]
  exact h p.1

/-- What `combineTriples` can touch: the two boards (only by removing units)
and the two shops (only by putting free rewards in front). -/
theorem combineTriples_frame (s : GameState) (isPlayer : Bool) (picks : Picks) (rng : Rng) :
    ∃ pBoard aBoard added addedAi, (combineTriples s isPlayer picks rng).state =
      { s with player := { s.player with board := pBoard },
               ai := { s.ai with board := aBoard, shop := addedAi ++ s.ai.shop },
               shopBirds := added ++ s.shopBirds }
      ∧ pBoard.Sublist s.player.board ∧ aBoard.Sublist s.ai.board
      ∧ (∀ b ∈ added, b.freeReward = true) ∧ (∀ b ∈ addedAi, b.freeReward = true) := by
  unfold combineTriples
  cases isPlayer with
  | true =>
    simp only [if_true]
    split
    · exact ⟨(scanTriples s.player.board true rng).board, s.ai.board, [], [], by simp,
        scanTriples_sublist _ _ _, List.Sublist.refl _, by simp, by simp⟩
    · obtain ⟨added, addedAi, h1, h2, h3⟩ := handleReward_frame picks
        (scanTriples s.player.board true rng).rewards 0
        { s with player := { s.player with board := (scanTriples s.player.board true rng).board } }
        (scanTriples s.player.board true rng).rng
      exact ⟨_, s.ai.board, added, addedAi, by rw [h1], scanTriples_sublist _ _ _,
        List.Sublist.refl _, h2, h3⟩
  | false =>
    simp only [Bool.false_eq_true, if_false]
    split
    · exact ⟨s.player.board, (scanTriples s.ai.board false rng).board, [], [], by simp,
        List.Sublist.refl _, scanTriples_sublist _ _ _, by simp, by simp⟩
    · obtain ⟨added, addedAi, h1, h2, h3⟩ := handleReward_frame picks
        (scanTriples s.ai.board false rng).rewards 0
        { s with ai := { s.ai with board := (scanTriples s.ai.board false rng).board } }
        (scanTriples s.ai.board false rng).rng
      exact ⟨s.player.board, _, added, addedAi, by rw [h1], List.Sublist.refl _,
        scanTriples_sublist _ _ _, h2, h3⟩

theorem buyBird_guarded (s : GameState) (i : Nat) (bird : Bird) (picks : Picks) (rng : Rng)
    (hphase : s.phase = Phase.shop) (hbird : s.shopBirds[i]? = some bird) :
    buyBird s (i : Int) picks rng =
      if s.player.currency < buyCost bird then
        { state := s, rng := rng, completion := Completion.normal }
      else if s.player.board.length ≥ MAX_BOARD_SIZE ∧ ¬ willTriple s.player.board bird then
        { state := s, rng := rng, completion := Completion.normal }
      else combineTriples (applyPurchase s (i : Int) bird) true picks rng := by
  unfold buyBird
  rw [offerAt_natCast, hbird]
  simp [hphase]

/-! ## Purchases by the player (C1, C2) -/

/-- C1. A rejected purchase changes nothing: in the shop phase, for an in-range
offer index, when the player's currency is below the cost (0 for a free-reward
offer, otherwise the rarity-table cost), or the roster holds 5 or more units
and does not hold exactly two units with the offer's id, `buyBird` returns
normally and leaves the whole state (currency, roster and shop included)
unchanged. -/
theorem buyBird_rejection_noop (s : GameState) (i : Nat) (bird : Bird) (picks : Picks)
    (rng : Rng) (hphase : s.phase = Phase.shop) (hbird : s.shopBirds[i]? = some bird)
    (hreject : s.player.currency < (if bird.freeReward then 0 else rarityCost bird.rarity)
      ∨ (5 ≤ s.player.board.length
          ∧ (s.player.board.filter (fun b => b.id = bird.id)).length ≠ 2)) :
    (buyBird s (i : Int) picks rng).state = s
      ∧ (buyBird s (i : Int) picks rng).completion = Completion.normal
      ∧ (buyBird s (i : Int) picks rng).state.player.currency = s.player.currency
      ∧ (buyBird s (i : Int) picks rng).state.player.board = s.player.board
      ∧ (buyBird s (i : Int) picks rng).state.shopBirds = s.shopBirds := by
  rw [buyBird_guarded s i bird picks rng hphase hbird]
  rcases hreject with h | ⟨h5, h2⟩
  · have h' : s.player.currency < buyCost bird := h
    simp [h']
  · have hw : willTriple s.player.board bird = false := by simp [willTriple, h2]
    have h5' : s.player.board.length ≥ MAX_BOARD_SIZE := h5
    by_cases hc : s.player.currency < buyCost bird
    · simp [hc]
    · simp [hc, hw, h5']

/-- Instance of the rejection: with one coin the jay (cost 2) is refused. -/
theorem buyBird_rejection_noop_witness :
    exampleState.phase = Phase.shop ∧ exampleState.shopBirds[1]? = some jay
      ∧ (buyBird exampleState (1 : Nat) (fun _ => 0) (fun _ => 0)).state = exampleState :=
  ⟨rfl, rfl, (buyBird_rejection_noop exampleState 1 jay (fun _ => 0) (fun _ => 0) rfl rfl
    (Or.inl (by decide))).1⟩
/-- C2. A successful purchase: in the shop phase, for an in-range offer that is
affordable, with fewer than 5 units on the roster or exactly two units of the
offer's id, `buyBird` pays the cost, splices that one offer out of the shop
(the others keep their order), appends the unit at the end of the roster and
then runs merge resolution on that state.  The final currency is the old one
minus the cost, the final shop is the spliced shop behind the free rewards put
in front of it, and when the roster with the new unit holds no id three times
the final state is exactly the state before merge resolution: the final roster
is the old roster followed by the unit. -/
theorem buyBird_success_effect (s : GameState) (i : Nat) (bird : Bird) (picks : Picks)
    (rng : Rng) (hphase : s.phase = Phase.shop) (hbird : s.shopBirds[i]? = some bird)
    (hafford : (if bird.freeReward then 0 else rarityCost bird.rarity) ≤ s.player.currency)
    (hroom : s.player.board.length < 5
      ∨ (s.player.board.filter (fun b => b.id = bird.id)).length = 2) :
    buyBird s (i : Int) picks rng =
        combineTriples
          { s with
            player := { s.player with
              currency := s.player.currency - (if bird.freeReward then 0 else rarityCost bird.rarity),
              board := s.player.board ++ [bird] },
            shopBirds := s.shopBirds.take i ++ s.shopBirds.drop (i + 1) } true picks rng
      ∧ (buyBird s (i : Int) picks rng).state.player.currency
          = s.player.currency - (if bird.freeReward then 0 else rarityCost bird.rarity)
      ∧ (∃ added, (buyBird s (i : Int) picks rng).state.shopBirds
            = added ++ (s.shopBirds.take i ++ s.shopBirds.drop (i + 1))
          ∧ ∀ b ∈ added, b.freeReward = true)
      ∧ ((∀ key, ((s.player.board ++ [bird]).filter (fun b => b.id = key)).length < 3) →
          (buyBird s (i : Int) picks rng).completion = Completion.normal
          ∧ (buyBird s (i : Int) picks rng).state.player.board = s.player.board ++ [bird]
          ∧ (buyBird s (i : Int) picks rng).state.shopBirds
              = s.shopBirds.take i ++ s.shopBirds.drop (i + 1)
          ∧ (buyBird s (i : Int) picks rng).state =
              { s with
                player := { s.player with
                  currency := s.player.currency
                    - (if bird.freeReward then 0 else rarityCost bird.rarity),
                  board := s.player.board ++ [bird] },
                shopBirds := s.shopBirds.take i ++ s.shopBirds.drop (i + 1) }) := by
  have hc : ¬ s.player.currency < buyCost bird := by
    have : buyCost bird ≤ s.player.currency := hafford
    omega
  have hg : ¬ (s.player.board.length ≥ MAX_BOARD_SIZE ∧ ¬ willTriple s.player.board bird) := by
    rintro ⟨h5, hw⟩
    have h5' : 5 ≤ s.player.board.length := h5
    rcases hroom with h | h
    · omega
    · exact hw (by simp [willTriple, h])
  have hmid : applyPurchase s (i : Int) bird =
      { s with
        player := { s.player with
          currency := s.player.currency - (if bird.freeReward then 0 else rarityCost bird.rarity),
          board := s.player.board ++ [bird] },
        shopBirds := s.shopBirds.take i ++ s.shopBirds.drop (i + 1) } := by
    simp [applyPurchase, buyCost, List.eraseIdx_eq_take_drop_succ]
  have hrun : buyBird s (i : Int) picks rng
      = combineTriples (applyPurchase s (i : Int) bird) true picks rng := by
    rw [buyBird_guarded s i bird picks rng hphase hbird, if_neg hc, if_neg hg]
  rw [hrun, hmid]
  refine ⟨rfl, ?_, ?_, ?_⟩
  · obtain ⟨pB, aB, added, addedAi, h, -⟩ := combineTriples_frame
      { s with
        player := { s.player with
          currency := s.player.currency - (if bird.freeReward then 0 else rarityCost bird.rarity),
          board := s.player.board ++ [bird] },
        shopBirds := s.shopBirds.take i ++ s.shopBirds.drop (i + 1) } true picks rng
    rw [h]
  · obtain ⟨pB, aB, added, addedAi, h, -, -, hfree, -⟩ := combineTriples_frame
      { s with
        player := { s.player with
          currency := s.player.currency - (if bird.freeReward then 0 else rarityCost bird.rarity),
          board := s.player.board ++ [bird] },
        shopBirds := s.shopBirds.take i ++ s.shopBirds.drop (i + 1) } true picks rng
    exact ⟨added, by rw [h], hfree⟩
  · intro hno
    have hscan := scanTriples_no_triple (s.player.board ++ [bird]) true rng hno
    simp only [combineTriples, if_true, hscan, handleReward]
    simp

/-- Instance of the purchase: the sparrow (cost 1) is bought with the only coin. -/
theorem buyBird_success_effect_witness :
    (buyBird exampleState (0 : Nat) (fun _ => 0) (fun _ => 0)).state.player.currency = 1 - 1
    ∧ (buyBird exampleState (0 : Nat) (fun _ => 0) (fun _ => 0)).state.player.board
        = [sparrow] ++ [sparrow] :=
  ⟨(buyBird_success_effect exampleState 0 sparrow (fun _ => 0) (fun _ => 0) rfl rfl
      (by decide) (Or.inl (by decide))).2.1,
   ((buyBird_success_effect exampleState 0 sparrow (fun _ => 0) (fun _ => 0) rfl rfl
      (by decide) (Or.inl (by decide))).2.2.2 (by
        intro key; by_cases h : "sparrow" = key <;> simp [exampleState, sparrow, Template.instantiate, h])).2.1⟩
/-! ## Helper lemmas: one iteration of the AI draft -/

theorem mem_affordable (ai : AI) (x : Offer) :
    x ∈ affordable ai ↔
      ai.shop[x.i]? = some x.b ∧ x.cost = rarityCost x.b.rarity ∧ x.cost ≤ ai.currency := by
  simp only [affordable, List.mem_filter, List.mem_map, decide_eq_true_eq]
  constructor
  · rintro ⟨⟨⟨i, b⟩, hmem, rfl⟩, hc⟩
    exact ⟨List.mk_mem_enum_iff_getElem?.1 hmem, rfl, hc⟩
  · rintro ⟨h1, h2, h3⟩
    refine ⟨⟨(x.i, x.b), List.mk_mem_enum_iff_getElem?.2 h1, ?_⟩, h3⟩
    cases x
    simp_all

theorem rarestOf_foldl_mem (offers : List Offer) (init r : Option Offer)
    (h : offers.foldl (fun best x =>
      match best with
      | none => some x
      | some bst =>
        if jsGt (rarityOrder x.b.rarity) (rarityOrder bst.b.rarity) then some x else some bst)
      init = r) :
    r = init ∨ ∃ x ∈ offers, r = some x := by
  induction offers generalizing init with
  | nil => left; simpa using h.symm
  | cons y ys ih =>
    rw [List.foldl_cons] at h
    rcases ih _ h with h1 | ⟨x, hx, h1⟩
    · cases init with
      | none => exact Or.inr ⟨y, List.mem_cons_self _ _, h1⟩
      | some bst =>
        simp only at h1
        split at h1
        · exact Or.inr ⟨y, List.mem_cons_self _ _, h1⟩
        · exact Or.inl h1
    · exact Or.inr ⟨x, List.mem_cons_of_mem _ hx, h1⟩

theorem rarestOf_mem (offers : List Offer) (r : Offer) (h : rarestOf offers = some r) :
    r ∈ offers := by
  rcases rarestOf_foldl_mem offers none (some r) h with h1 | ⟨x, hx, h1⟩
  · cases h1
  · cases h1; exact hx

theorem bestIdxOf_mem (offers : List Offer) (rarest : Offer) (i : Nat)
    (hr : rarest ∈ offers) (h : bestIdxOf rarest (candidatesOf offers rarest) = some i) :
    ∃ x ∈ offers, x.i = i := by
  unfold bestIdxOf at h
  split at h
  · split at h
    · cases h
    · rw [Option.map_eq_some'] at h
      obtain ⟨x, hx, rfl⟩ := h
      have hmem := List.mem_of_find?_eq_some hx
      exact ⟨x, (List.mem_filter.1 hmem).1, rfl⟩
  · cases h
    exact ⟨rarest, hr, rfl⟩
theorem findTripleIdx_some (ai : AI) (i : Nat) (h : findTripleIdx ai = some i) :
    ∃ bird, ai.shop[i]? = some bird
      ∧ (ai.board.filter (fun b => b.id = bird.id)).length = 2
      ∧ rarityCost bird.rarity ≤ ai.currency := by
  unfold findTripleIdx at h
  obtain ⟨hi, hp, -⟩ := List.findIdx?_eq_some_iff_getElem.1 h
  refine ⟨ai.shop[i], List.getElem?_eq_getElem hi, ?_⟩
  simpa using hp

/-- Every iteration that stays in the loop buys one affordable offer, either
by the upgrade of step 1 or by the purchase of step 2. -/
theorem aiBuyStep_next (ai ai1 : AI) (h : aiBuyStep ai = AiStep.next ai1) :
    0 < ai.currency ∧ ai.board.length < MAX_BOARD_SIZE ∧
    ∃ i bird, ai.shop[i]? = some bird ∧ rarityCost bird.rarity ≤ ai.currency ∧
      ((findTripleIdx ai = some i ∧ ai1 = upgradeTriple ai i bird
          ∧ (ai.board.filter (fun b => b.id = bird.id)).length = 2)
        ∨ (findTripleIdx ai = none ∧ ai1 = buyRarest ai i bird)) := by
  unfold aiBuyStep at h
  split at h
  · rename_i hg
    refine ⟨hg.1, hg.2.1, ?_⟩
    split at h
    · rename_i tripleIdx ht
      obtain ⟨bird, hb, h2, hc⟩ := findTripleIdx_some ai tripleIdx ht
      rw [hb] at h
      simp only [AiStep.next.injEq] at h
      exact ⟨tripleIdx, bird, hb, hc, Or.inl ⟨ht, h.symm, h2⟩⟩
    · rename_i ht
      simp only at h
      split at h
      · cases h
      · split at h
        · cases h
        · rename_i rarest hr
          split at h
          · cases h
          · rename_i bestIdx hbest
            split at h
            · rename_i bird hb
              simp only [AiStep.next.injEq] at h
              obtain ⟨x, hx, hxi⟩ := bestIdxOf_mem (affordable ai) rarest bestIdx
                (rarestOf_mem _ _ hr) hbest
              obtain ⟨h1, h2, h3⟩ := (mem_affordable ai x).1 hx
              rw [hxi, hb] at h1
              cases h1
              rw [h2] at h3
              exact ⟨bestIdx, x.b, hb, h3, Or.inr ⟨ht, h.symm⟩⟩
            · cases h
  · cases h

theorem rarityCost_pos (rarity : String) : 0 < rarityCost rarity := by
  unfold rarityCost RARITY_COST
  split_ifs <;> simp

theorem shopCost_eraseIdx (shop : List Bird) (i : Nat) (bird : Bird)
    (h : shop[i]? = some bird) :
    shopCost (shop.eraseIdx i) = shopCost shop - rarityCost bird.rarity := by
  induction shop generalizing i with
  | nil => simp at h
  | cons b bs ih =>
    cases i with
    | zero =>
      simp only [List.getElem?_cons_zero, Option.some.injEq] at h
      subst h
      simp [shopCost]
    | succ j =>
      simp only [List.getElem?_cons_succ] at h
      have := ih j h
      simp only [shopCost, List.eraseIdx_cons_succ, List.map_cons, List.sum_cons] at this ⊢
      omega

theorem aiBuyStep_next_economy (ai ai1 : AI) (h : aiBuyStep ai = AiStep.next ai1) :
    ∃ i bird, ai.shop[i]? = some bird ∧ rarityCost bird.rarity ≤ ai.currency
      ∧ ai1.currency = ai.currency - rarityCost bird.rarity
      ∧ ai1.shop = ai.shop.eraseIdx i ∧ ai1.health = ai.health := by
  obtain ⟨-, -, i, bird, hb, hc, h1 | h1⟩ := aiBuyStep_next ai ai1 h
  · exact ⟨i, bird, hb, hc, by rw [h1.2.1]; rfl, by rw [h1.2.1]; rfl, by rw [h1.2.1]; rfl⟩
  · exact ⟨i, bird, hb, hc, by rw [h1.2]; rfl, by rw [h1.2]; rfl, by rw [h1.2]; rfl⟩

theorem aiBuyLoop_economy (n : Nat) (ai : AI) (h0 : 0 ≤ ai.currency) :
    0 ≤ (aiBuyLoop n ai).1.currency
      ∧ (aiBuyLoop n ai).1.currency
          = ai.currency - (shopCost ai.shop - shopCost (aiBuyLoop n ai).1.shop)
      ∧ (aiBuyLoop n ai).1.shop.Sublist ai.shop := by
  induction n generalizing ai with
  | zero => simp [aiBuyLoop, h0]
  | succ n ih =>
    simp only [aiBuyLoop]
    split
    · rename_i ai1 hstep
      obtain ⟨i, bird, hb, hc, hcur, hshop, -⟩ := aiBuyStep_next_economy ai ai1 hstep
      obtain ⟨h1, h2, h3⟩ := ih ai1 (by omega)
      refine ⟨h1, ?_, ?_⟩
      · rw [h2, hcur, hshop, shopCost_eraseIdx ai.shop i bird hb]; omega
      · rw [hshop] at h3; exact h3.trans (List.eraseIdx_sublist _ _)
    · simp [h0]
    · simp [h0]
/-! ## Purchase invariant and roster cap (C3, C4) -/

theorem buyCost_nonneg (bird : Bird) : 0 ≤ buyCost bird := by
  unfold buyCost
  split
  · exact le_refl 0
  · exact le_of_lt (rarityCost_pos _)

theorem buyBird_currency (s : GameState) (idx : Int) (picks : Picks) (rng : Rng) :
    (buyBird s idx picks rng).state.player.currency = s.player.currency - costPaid s idx
      ∧ (0 ≤ s.player.currency → 0 ≤ (buyBird s idx picks rng).state.player.currency) := by
  unfold buyBird costPaid
  split
  · simp
  · split
    · simp
    · rename_i bird _
      split
      · simp
      · split
        · simp
        · obtain ⟨pB, aB, added, addedAi, h, -⟩ :=
            combineTriples_frame (applyPurchase s idx bird) true picks rng
          rw [h]
          simp only [applyPurchase]
          refine ⟨?_, fun _ => ?_⟩
          · trivial
          · omega

theorem buyMany_nonneg (s : GameState) (clicks : List Click) (h : 0 ≤ s.player.currency) :
    0 ≤ (buyMany s clicks).player.currency := by
  induction clicks generalizing s with
  | nil => exact h
  | cons c rest ih => exact ih _ ((buyBird_currency s c.idx c.picks c.rng).2 h)

theorem buyMany_currency (s : GameState) (clicks : List Click) :
    (buyMany s clicks).player.currency = s.player.currency - paidTotal s clicks := by
  induction clicks generalizing s with
  | nil => simp [buyMany, paidTotal]
  | cons c rest ih =>
    simp only [buyMany, paidTotal]
    rw [ih, (buyBird_currency s c.idx c.picks c.rng).1]
    omega

/-- C3. Purchase invariant.  Starting from a currency that is not negative,
after every prefix of any sequence of `buyBird` calls (any indices, picks and
draws) the player's currency is not negative, and the final currency is the
starting currency minus the sum of the costs of the purchases that succeeded.
Likewise for the AI: after any number of iterations of the loop of
`aiBuyPhase`, and after `aiBuyPhase` itself, the AI's currency is not
negative and equals the starting currency minus the total cost of the offers
bought, which are exactly the offers that left its shop. -/
theorem purchase_invariant (s : GameState) (clicks : List Click) (ai : AI) (n : Nat)
    (hp : 0 ≤ s.player.currency) (ha : 0 ≤ ai.currency) :
    (∀ k, 0 ≤ (buyMany s (clicks.take k)).player.currency)
      ∧ (buyMany s clicks).player.currency = s.player.currency - paidTotal s clicks
      ∧ 0 ≤ (aiBuyLoop n ai).1.currency
      ∧ (aiBuyLoop n ai).1.currency
          = ai.currency - (shopCost ai.shop - shopCost (aiBuyLoop n ai).1.shop)
      ∧ (aiBuyLoop n ai).1.shop.Sublist ai.shop
      ∧ 0 ≤ (aiBuyPhase ai).1.currency
      ∧ (aiBuyPhase ai).1.currency
          = ai.currency - (shopCost ai.shop - shopCost (aiBuyPhase ai).1.shop)
      ∧ (aiBuyPhase ai).1.shop.Sublist ai.shop :=
  ⟨fun _ => buyMany_nonneg s _ hp, buyMany_currency s clicks,
    (aiBuyLoop_economy n ai ha).1, (aiBuyLoop_economy n ai ha).2.1,
    (aiBuyLoop_economy n ai ha).2.2,
    (aiBuyLoop_economy ai.shop.length ai ha).1, (aiBuyLoop_economy ai.shop.length ai ha).2.1,
    (aiBuyLoop_economy ai.shop.length ai ha).2.2⟩

/-- Instance of the invariant: two clicks on the first card, and an AI with
three coins. -/
theorem purchase_invariant_witness :
    (buyMany exampleState exampleClicks).player.currency
        = exampleState.player.currency - paidTotal exampleState exampleClicks
      ∧ 0 ≤ (aiBuyPhase exampleAi).1.currency :=
  ⟨(purchase_invariant exampleState exampleClicks exampleAi 0 (by decide) (by decide)).2.1,
   (purchase_invariant exampleState exampleClicks exampleAi 0 (by decide) (by decide)).2.2.2.2.2.1⟩
theorem aiBuyStep_board_length (ai ai1 : AI) (h : aiBuyStep ai = AiStep.next ai1) :
    ai1.board.length ≤ ai.board.length + 1 ∧ ai1.board.length ≤ MAX_BOARD_SIZE := by
  obtain ⟨-, hlen, i, bird, -, -, h1 | h1⟩ := aiBuyStep_next ai ai1 h
  · have hf := List.length_filter_le (fun b : Bird => decide (b.id ≠ bird.id)) ai.board
    have : ai1.board.length ≤ ai.board.length + 1 := by
      rw [h1.2.1]; simp only [upgradeTriple, List.length_append, List.length_singleton]; omega
    exact ⟨this, by omega⟩
  · have hf := List.length_filter_le (fun b : Bird => decide (b.id ≠ bird.id)) ai.board
    have : ai1.board.length ≤ ai.board.length + 1 := by
      rw [h1.2]; simp only [buyRarest]
      split
      · simp only [List.length_append, List.length_singleton]; omega
      · simp
    exact ⟨this, by omega⟩

/-- C4. Roster cap.  After a successful `buyBird` (in-range affordable offer,
guards passed) whose id did not already have exactly two copies on the roster,
the player's roster has at most 5 units both right after the unit is appended
and when `buyBird` is done.  After any iteration of the loop of `aiBuyPhase`
that buys an offer, the AI's roster has at most 5 units. -/
theorem roster_cap (s : GameState) (i : Nat) (bird : Bird) (picks : Picks) (rng : Rng)
    (ai ai1 : AI)
    (hphase : s.phase = Phase.shop) (hbird : s.shopBirds[i]? = some bird)
    (hafford : (if bird.freeReward then 0 else rarityCost bird.rarity) ≤ s.player.currency)
    (hroom : s.player.board.length < 5
      ∨ (s.player.board.filter (fun b => b.id = bird.id)).length = 2)
    (hnot : (s.player.board.filter (fun b => b.id = bird.id)).length ≠ 2)
    (hstep : aiBuyStep ai = AiStep.next ai1) :
    (applyPurchase s (i : Int) bird).player.board = s.player.board ++ [bird]
      ∧ (applyPurchase s (i : Int) bird).player.board.length ≤ 5
      ∧ (buyBird s (i : Int) picks rng).state.player.board.length ≤ 5
      ∧ ai1.board.length ≤ 5 := by
  have hlen : s.player.board.length < 5 := by
    rcases hroom with h | h
    · exact h
    · exact absurd h hnot
  have hmid : (applyPurchase s (i : Int) bird).player.board.length ≤ 5 := by
    simp only [applyPurchase, List.length_append, List.length_singleton]; omega
  refine ⟨rfl, hmid, ?_, (aiBuyStep_board_length ai ai1 hstep).2⟩
  obtain ⟨pB, aB, added, addedAi, h, hsub, -⟩ :=
    combineTriples_frame (applyPurchase s (i : Int) bird) true picks rng
  have hc : ¬ s.player.currency < buyCost bird := by
    have : buyCost bird ≤ s.player.currency := hafford
    omega
  have hg : ¬ (s.player.board.length ≥ MAX_BOARD_SIZE ∧ ¬ willTriple s.player.board bird) := by
    rintro ⟨h5, -⟩
    have h5' : 5 ≤ s.player.board.length := h5
    omega
  rw [buyBird_guarded s i bird picks rng hphase hbird, if_neg hc, if_neg hg, h]
  exact le_trans hsub.length_le hmid

/-- Instance of the cap: the player buys a second sparrow, the AI buys the owl. -/
theorem roster_cap_witness :
    (buyBird exampleState (0 : Nat) (fun _ => 0) (fun _ => 0)).state.player.board.length ≤ 5
      ∧ (buyRarest exampleAi 2 owl).board.length ≤ 5 :=
  ⟨(roster_cap exampleState 0 sparrow (fun _ => 0) (fun _ => 0) exampleAi
      (buyRarest exampleAi 2 owl) rfl rfl (by decide) (Or.inl (by decide)) (by decide)
      (by decide)).2.2.1,
   (roster_cap exampleState 0 sparrow (fun _ => 0) (fun _ => 0) exampleAi
      (buyRarest exampleAi 2 owl) rfl rfl (by decide) (Or.inl (by decide)) (by decide)
      (by decide)).2.2.2⟩
/-! ## Merge escalation (C5) -/

theorem rngHead_lt (rng : Rng) : rngHead rng < RANDOM_DEN :=
  Nat.mod_lt _ (by decide)

theorem floorRandom_lt (k n : Nat) (hk : k < RANDOM_DEN) (hn : 0 < n) : floorRandom k n < n := by
  unfold floorRandom
  rw [Nat.div_lt_iff_lt_mul (by decide : 0 < RANDOM_DEN)]
  exact Nat.mul_lt_mul_of_pos_right hk hn |>.trans_le (by rw [Nat.mul_comm])

theorem getRandomBirdOfRarity_some (rarity : String) (rng : Rng)
    (hpool : allBirds.filter (fun b => b.rarity = rarity) ≠ []) :
    ∃ b : Bird, (getRandomBirdOfRarity rarity rng).1 = some b ∧ b.rarity = rarity := by
  unfold getRandomBirdOfRarity
  have hlen : 0 < (allBirds.filter (fun b => b.rarity = rarity)).length :=
    List.length_pos.2 hpool
  have hidx := floorRandom_lt (rngHead rng) _ (rngHead_lt rng) hlen
  simp only [Nat.ne_of_gt hlen, if_false]
  rw [List.getElem?_eq_getElem hidx]
  refine ⟨_, rfl, ?_⟩
  have hmem := List.getElem_mem hidx
  have := (List.mem_filter.1 hmem).2
  simpa [Template.instantiate] using this

theorem nextRarity_pool (base : Template)
    (hrar : base.rarity = "common" ∨ base.rarity = "uncommon") :
    allBirds.filter (fun b => b.rarity = getNextRarity base.rarity) ≠ [] := by
  rcases hrar with h | h <;> rw [h] <;> decide

theorem mergeOnce_found (isPlayer : Bool) (key : String) (sc : Scan) (base : Template)
    (hbase : allBirds.find? (fun b => b.id = key) = some base)
    (hrar : base.rarity = "common" ∨ base.rarity = "uncommon") :
    (mergeOnce isPlayer key sc).fault = false
      ∧ ∃ reward, (mergeOnce isPlayer key sc).rewards = sc.rewards ++ [reward]
          ∧ reward.allOfRarity (getNextRarity base.rarity) ∧ reward.isPlayer = isPlayer := by
  unfold mergeOnce
  rw [hbase]
  refine ⟨rfl, _, rfl, ⟨rfl, ?_⟩, rfl⟩
  have hpool := nextRarity_pool base hrar
  intro o ho
  simp only [List.mem_cons, List.mem_singleton, List.not_mem_nil, or_false] at ho
  rcases ho with rfl | rfl | rfl
  · exact getRandomBirdOfRarity_some _ _ hpool
  · exact getRandomBirdOfRarity_some _ _ hpool
  · exact getRandomBirdOfRarity_some _ _ hpool
theorem mergeOnce_rewards (isPlayer : Bool) (key : String) (sc : Scan) :
    ∃ extra, (mergeOnce isPlayer key sc).rewards = sc.rewards ++ extra := by
  unfold mergeOnce
  split
  · exact ⟨[], by simp⟩
  · exact ⟨_, rfl⟩

theorem mergeOnce_fault (isPlayer : Bool) (key : String) (sc : Scan)
    (hbase : (allBirds.find? (fun b => b.id = key)).isSome) :
    (mergeOnce isPlayer key sc).fault = false := by
  unfold mergeOnce
  split
  · rename_i h; rw [h] at hbase; cases hbase
  · rfl

theorem mergeWhile_rewards (isPlayer : Bool) (key : String) (n : Nat) (sc : Scan) :
    ∃ extra, (mergeWhile isPlayer key n sc).rewards = sc.rewards ++ extra := by
  induction n using Nat.strong_induction_on generalizing sc with
  | _ n ih =>
    match n with
    | 0 => exact ⟨[], by simp [mergeWhile]⟩
    | 1 => exact ⟨[], by simp [mergeWhile]⟩
    | 2 => exact ⟨[], by simp [mergeWhile]⟩
    | m + 3 =>
      obtain ⟨e1, h1⟩ := mergeOnce_rewards isPlayer key sc
      simp only [mergeWhile]
      split
      · exact ⟨e1, h1⟩
      · obtain ⟨e2, h2⟩ := ih m (by omega) (mergeOnce isPlayer key sc)
        exact ⟨e1 ++ e2, by rw [h2, h1, List.append_assoc]⟩

theorem mergeWhile_fault (isPlayer : Bool) (key : String) (n : Nat) (sc : Scan)
    (hsc : sc.fault = false)
    (hbase : 3 ≤ n → (allBirds.find? (fun b => b.id = key)).isSome) :
    (mergeWhile isPlayer key n sc).fault = false := by
  induction n using Nat.strong_induction_on generalizing sc with
  | _ n ih =>
    match n with
    | 0 => exact hsc
    | 1 => exact hsc
    | 2 => exact hsc
    | m + 3 =>
      have hb := hbase (by omega)
      have h1 := mergeOnce_fault isPlayer key sc hb
      simp only [mergeWhile, h1]
      exact ih m (by omega) _ h1 (fun _ => hb)

theorem mergeWhile_merges (isPlayer : Bool) (key : String) (n : Nat) (sc : Scan)
    (base : Template) (hn : 3 ≤ n)
    (hbase : allBirds.find? (fun b => b.id = key) = some base)
    (hrar : base.rarity = "common" ∨ base.rarity = "uncommon") :
    (∀ b ∈ (mergeWhile isPlayer key n sc).board, b.id ≠ key)
      ∧ ∃ reward ∈ (mergeWhile isPlayer key n sc).rewards,
          reward.allOfRarity (getNextRarity base.rarity) ∧ reward.isPlayer = isPlayer := by
  obtain ⟨m, rfl⟩ : ∃ m, n = m + 3 := ⟨n - 3, by omega⟩
  obtain ⟨hf, reward, hr, hgood⟩ := mergeOnce_found isPlayer key sc base hbase hrar
  simp only [mergeWhile, hf, Bool.false_eq_true, if_false]
  constructor
  · intro b hb
    have hsub := (mergeWhile_sublist isPlayer key m (mergeOnce isPlayer key sc)).subset hb
    rw [mergeOnce_board] at hsub
    simpa using (List.mem_filter.1 hsub).2
  · obtain ⟨extra, he⟩ := mergeWhile_rewards isPlayer key m (mergeOnce isPlayer key sc)
    refine ⟨reward, ?_, hgood⟩
    rw [he, hr]
    simp

theorem scanKeys_rewards (isPlayer : Bool) (counts : List (String × Nat)) (sc : Scan) :
    ∃ extra, (scanKeys isPlayer counts sc).rewards = sc.rewards ++ extra := by
  induction counts generalizing sc with
  | nil => exact ⟨[], by simp [scanKeys]⟩
  | cons p rest ih =>
    obtain ⟨key, n⟩ := p
    obtain ⟨e1, h1⟩ := mergeWhile_rewards isPlayer key n sc
    simp only [scanKeys]
    split
    · exact ⟨e1, h1⟩
    · obtain ⟨e2, h2⟩ := ih (mergeWhile isPlayer key n sc)
      exact ⟨e1 ++ e2, by rw [h2, h1, List.append_assoc]⟩

theorem scanKeys_fault (isPlayer : Bool) (counts : List (String × Nat)) (sc : Scan)
    (hsc : sc.fault = false)
    (hbase : ∀ p ∈ counts, 3 ≤ p.2 → (allBirds.find? (fun b => b.id = p.1)).isSome) :
    (scanKeys isPlayer counts sc).fault = false := by
  induction counts generalizing sc with
  | nil => exact hsc
  | cons p rest ih =>
    obtain ⟨key, n⟩ := p
    have h1 := mergeWhile_fault isPlayer key n sc hsc (hbase (key, n) (List.mem_cons_self _ _))
    simp only [scanKeys, h1]
    exact ih _ h1 (fun q hq => hbase q (List.mem_cons_of_mem _ hq))

theorem scanKeys_merges (isPlayer : Bool) (counts : List (String × Nat)) (sc : Scan)
    (key : String) (n : Nat) (base : Template) (hsc : sc.fault = false)
    (hall : ∀ p ∈ counts, 3 ≤ p.2 → (allBirds.find? (fun b => b.id = p.1)).isSome)
    (hmem : (key, n) ∈ counts) (hn : 3 ≤ n)
    (hbase : allBirds.find? (fun b => b.id = key) = some base)
    (hrar : base.rarity = "common" ∨ base.rarity = "uncommon") :
    (∀ b ∈ (scanKeys isPlayer counts sc).board, b.id ≠ key)
      ∧ ∃ reward ∈ (scanKeys isPlayer counts sc).rewards,
          reward.allOfRarity (getNextRarity base.rarity) ∧ reward.isPlayer = isPlayer := by
  induction counts generalizing sc with
  | nil => cases hmem
  | cons p rest ih =>
    obtain ⟨k, m⟩ := p
    have h1 := mergeWhile_fault isPlayer k m sc hsc (hall (k, m) (List.mem_cons_self _ _))
    have hrest : ∀ q ∈ rest, 3 ≤ q.2 → (allBirds.find? (fun b => b.id = q.1)).isSome :=
      fun q hq => hall q (List.mem_cons_of_mem _ hq)
    simp only [scanKeys, h1, Bool.false_eq_true, if_false]
    rcases List.mem_cons.1 hmem with heq | hin
    · cases heq
      obtain ⟨hb, reward, hr, hgood⟩ :=
        mergeWhile_merges isPlayer key n sc base hn hbase hrar
      constructor
      · intro b hmb
        exact hb b ((scanKeys_sublist isPlayer rest _).subset hmb)
      · obtain ⟨extra, he⟩ := scanKeys_rewards isPlayer rest (mergeWhile isPlayer key n sc)
        exact ⟨reward, by rw [he]; exact List.mem_append_left _ hr, hgood⟩
    · exact ih _ h1 hrest hin
theorem keys_foldl_mem (board : List Bird) (acc : List String) :
    (∀ k ∈ acc, k ∈ board.foldl (fun ks b => if b.id ∈ ks then ks else ks ++ [b.id]) acc)
      ∧ ∀ b ∈ board, b.id ∈ board.foldl (fun ks b => if b.id ∈ ks then ks else ks ++ [b.id]) acc := by
  induction board generalizing acc with
  | nil => exact ⟨fun k hk => hk, fun b hb => by cases hb⟩
  | cons c rest ih =>
    rw [List.foldl_cons]
    obtain ⟨h1, h2⟩ := ih (if c.id ∈ acc then acc else acc ++ [c.id])
    have hacc : ∀ k ∈ acc, k ∈ (if c.id ∈ acc then acc else acc ++ [c.id]) := by
      intro k hk
      split
      · exact hk
      · exact List.mem_append_left _ hk
    have hc : c.id ∈ (if c.id ∈ acc then acc else acc ++ [c.id]) := by
      split
      · assumption
      · simp
    refine ⟨fun k hk => h1 k (hacc k hk), ?_⟩
    intro b hb
    rcases List.mem_cons.1 hb with rfl | hb
    · exact h1 _ hc
    · exact h2 b hb

theorem countsOf_mem (board : List Bird) (b : Bird) (hb : b ∈ board) :
    (b.id, (board.filter (fun c => c.id = b.id)).length) ∈ countsOf board := by
  simp only [countsOf, List.mem_map]
  exact ⟨b.id, (keys_foldl_mem board []).2 b hb, rfl⟩

theorem countsOf_template (board : List Bird) (hcat : fromCatalog board) :
    ∀ p ∈ countsOf board, 3 ≤ p.2 → (allBirds.find? (fun b => b.id = p.1)).isSome := by
  intro p hp h3
  rw [countsOf_snd board p hp] at h3
  have hne : board.filter (fun b => b.id = p.1) ≠ [] := by
    intro h; rw [h] at h3; simp at h3
  obtain ⟨b, hb⟩ := List.exists_mem_of_ne_nil _ hne
  obtain ⟨hb1, hb2⟩ := List.mem_filter.1 hb
  obtain ⟨t, ht, hid⟩ := hcat b hb1
  rw [List.find?_isSome]
  exact ⟨t, ht, by simpa using hid.trans (by simpa using hb2)⟩

theorem combineTriples_board (s : GameState) (isPlayer : Bool) (picks : Picks) (rng : Rng) :
    (if isPlayer then (combineTriples s isPlayer picks rng).state.player.board
      else (combineTriples s isPlayer picks rng).state.ai.board)
      = (scanTriples (if isPlayer then s.player.board else s.ai.board) isPlayer rng).board := by
  unfold combineTriples
  cases isPlayer with
  | true =>
    simp only [if_true]
    split
    · rfl
    · obtain ⟨added, addedAi, h, -⟩ := handleReward_frame picks
        (scanTriples s.player.board true rng).rewards 0
        { s with player := { s.player with board := (scanTriples s.player.board true rng).board } }
        (scanTriples s.player.board true rng).rng
      rw [h]
  | false =>
    simp only [Bool.false_eq_true, if_false]
    split
    · rfl
    · obtain ⟨added, addedAi, h, -⟩ := handleReward_frame picks
        (scanTriples s.ai.board false rng).rewards 0
        { s with ai := { s.ai with board := (scanTriples s.ai.board false rng).board } }
        (scanTriples s.ai.board false rng).rng
      rw [h]

/-- C5. Merge escalation.  On a roster of catalog units, for every id that
occurs at least 3 times and whose template is common or uncommon, and for every
outcome of the random draws, the removal loops of `combineTriples` finish
without a fault, leave no unit with that id on the roster (also in the state
`combineTriples` returns), and queue a reward of exactly three actual units
whose rarity is `getNextRarity` of the template rarity: uncommon for a common
template, rare for an uncommon one. -/
theorem merge_escalation (s : GameState) (isPlayer : Bool) (picks : Picks) (rng : Rng)
    (key : String) (base : Template)
    (hcat : fromCatalog (if isPlayer then s.player.board else s.ai.board))
    (hcount : 3 ≤ ((if isPlayer then s.player.board else s.ai.board).filter
      (fun b => b.id = key)).length)
    (hbase : allBirds.find? (fun b => b.id = key) = some base)
    (hrar : base.rarity = "common" ∨ base.rarity = "uncommon") :
    (scanTriples (if isPlayer then s.player.board else s.ai.board) isPlayer rng).fault = false
      ∧ (∀ b ∈ (scanTriples (if isPlayer then s.player.board else s.ai.board) isPlayer rng).board,
          b.id ≠ key)
      ∧ (∀ b ∈ (if isPlayer then (combineTriples s isPlayer picks rng).state.player.board
            else (combineTriples s isPlayer picks rng).state.ai.board), b.id ≠ key)
      ∧ (∃ reward ∈
            (scanTriples (if isPlayer then s.player.board else s.ai.board) isPlayer rng).rewards,
          reward.allOfRarity (getNextRarity base.rarity))
      ∧ (base.rarity = "common" → getNextRarity base.rarity = "uncommon")
      ∧ (base.rarity = "uncommon" → getNextRarity base.rarity = "rare") := by
  have hne : (if isPlayer then s.player.board else s.ai.board).filter (fun b => b.id = key) ≠ [] := by
    intro h; rw [h] at hcount; simp at hcount
  obtain ⟨b, hb⟩ := List.exists_mem_of_ne_nil _ hne
  obtain ⟨hb1, hb2⟩ := List.mem_filter.1 hb
  have hid : b.id = key := by simpa using hb2
  have hmem := countsOf_mem _ b hb1
  rw [hid] at hmem
  have hall := countsOf_template _ hcat
  obtain ⟨h1, reward, hr, hgood, -⟩ := scanKeys_merges isPlayer _
    { board := (if isPlayer then s.player.board else s.ai.board), rewards := [], rng := rng,
      fault := false } key _ base rfl hall hmem hcount hbase hrar
  refine ⟨scanKeys_fault isPlayer _ _ rfl hall, h1, ?_, ⟨reward, hr, hgood⟩, ?_, ?_⟩
  · rw [combineTriples_board]; exact h1
  · intro h; rw [h]; rfl
  · intro h; rw [h]; rfl

/-- Instance of the escalation: three sparrows leave an empty roster and a
reward of three uncommon units. -/
theorem merge_escalation_witness :
    (scanTriples [sparrow, sparrow, sparrow] true (fun _ => 0)).board = []
      ∧ ∃ reward ∈ (scanTriples [sparrow, sparrow, sparrow] true (fun _ => 0)).rewards,
          reward.allOfRarity "uncommon" :=
  ⟨by decide,
   (merge_escalation
      { exampleState with player := { exampleState.player with board := [sparrow, sparrow, sparrow] } }
      true (fun _ => 0) (fun _ => 0) "sparrow"
      ⟨"sparrow", "House Sparrow", "Passer domesticus", "common", 2, 5⟩
      (by intro b hb; exact ⟨⟨"sparrow", "House Sparrow", "Passer domesticus", "common", 2, 5⟩,
            by decide, by
              simp only [exampleState, if_true, List.mem_cons, List.mem_singleton,
                List.not_mem_nil, or_false, or_self] at hb
              rw [hb]; rfl⟩)
      (by decide) (by decide) (Or.inl rfl)).2.2.2.1⟩
/-! ## The AI upgrade (C6) -/

theorem find_after_filter (board : List Bird) (key : String) :
    (board.filter (fun b => b.id ≠ key)).find? (fun b => b.id = key) = none := by
  rw [List.find?_eq_none]
  intro b hb
  simpa using (List.mem_filter.1 hb).2

/-- The tier written by step 1 is always 2: the copies are filtered out of the
board before the tier is looked up. -/
theorem upgradeTriple_eq (ai : AI) (tripleIdx : Nat) (bird : Bird) :
    upgradeTriple ai tripleIdx bird =
      { ai with
        currency := ai.currency - rarityCost bird.rarity,
        board := ai.board.filter (fun b => b.id ≠ bird.id) ++ [upgraded bird 2],
        shop := ai.shop.eraseIdx tripleIdx } := by
  simp only [upgradeTriple, find_after_filter, Option.none_bind, orOne]
  rfl

theorem filter_same_upgraded (board : List Bird) (bird : Bird) (t : Int) :
    (board.filter (fun b => b.id ≠ bird.id) ++ [upgraded bird t]).filter
        (fun b => b.id = bird.id) = [upgraded bird t]
      ∧ (board.filter (fun b => b.id ≠ bird.id) ++ [upgraded bird t]).filter
        (fun b => b.id ≠ bird.id) = board.filter (fun b => b.id ≠ bird.id) := by
  constructor
  · rw [List.filter_append, List.filter_filter]
    have : List.filter (fun a => decide (a.id = bird.id) && decide (a.id ≠ bird.id)) board = [] := by
      rw [List.filter_eq_nil_iff]; intro a _; simp
    rw [this]
    simp [upgraded]
  · rw [List.filter_append, List.filter_filter]
    simp [upgraded]

/-- C6. AI upgrade transform.  With fewer than 5 units on the AI roster,
exactly two of them of id X, and a shop holding the single offer of X at a
cost the AI can pay, `aiBuyPhase` returns normally with: the cost paid, the
shop empty, and the roster equal to the old roster without its units of id X
followed by one new unit of id X.  That unit is the offer with tier 2,
attack + 1, health + 2 and maxHealth + 2; it is the only unit of id X, and
the units of other ids are the old ones in their old order. -/
theorem ai_upgrade_transform (ai : AI) (offer : Bird)
    (hlen : ai.board.length < 5)
    (htwo : (ai.board.filter (fun b => b.id = offer.id)).length = 2)
    (hshop : ai.shop = [offer])
    (hcost : rarityCost offer.rarity ≤ ai.currency) :
    aiBuyPhase ai =
        ({ ai with
            currency := ai.currency - rarityCost offer.rarity,
            board := ai.board.filter (fun b => b.id ≠ offer.id)
              ++ [{ offer with attack := offer.attack + 1, health := offer.health + 2,
                               maxHealth := offer.maxHealth + 2, tier := some 2 }],
            shop := [] }, Completion.normal)
      ∧ (aiBuyPhase ai).1.board.filter (fun b => b.id = offer.id)
          = [{ offer with attack := offer.attack + 1, health := offer.health + 2,
                          maxHealth := offer.maxHealth + 2, tier := some 2 }]
      ∧ (aiBuyPhase ai).1.board.filter (fun b => b.id ≠ offer.id)
          = ai.board.filter (fun b => b.id ≠ offer.id)
      ∧ (aiBuyPhase ai).1.shop = [] := by
  have hpos := rarityCost_pos offer.rarity
  have hguard : ai.currency > 0 ∧ ai.board.length < MAX_BOARD_SIZE ∧ ai.shop.length > 0 :=
    ⟨by omega, hlen, by rw [hshop]; simp⟩
  have hfind : findTripleIdx ai = some 0 := by
    simp [findTripleIdx, hshop, List.findIdx?_cons, htwo, hcost]
  have hstep : aiBuyStep ai = AiStep.next (upgradeTriple ai 0 offer) := by
    unfold aiBuyStep
    rw [if_pos hguard, hfind]
    simp [hshop]
  have hrun : aiBuyPhase ai = (upgradeTriple ai 0 offer, Completion.normal) := by
    unfold aiBuyPhase
    rw [hshop]
    simp only [List.length_singleton, aiBuyLoop, hstep]
  have hup : upgradeTriple ai 0 offer =
      { ai with
        currency := ai.currency - rarityCost offer.rarity,
        board := ai.board.filter (fun b => b.id ≠ offer.id) ++ [upgraded offer 2],
        shop := [] } := by
    rw [upgradeTriple_eq, hshop]; rfl
  rw [hrun, hup]
  exact ⟨rfl, (filter_same_upgraded ai.board offer 2).1, (filter_same_upgraded ai.board offer 2).2,
    rfl⟩

/-- Instance of the upgrade: two jays (3/8/8) and a jay offer give one jay with
tier 2, attack 4, health 10 and maxHealth 10, behind the robin. -/
theorem ai_upgrade_transform_witness :
    (aiBuyPhase { health := 30, board := [jay, robin, jay], shop := [jay], currency := 2 }).1.board
        = [robin, { jay with attack := 4, health := 10, maxHealth := 10, tier := some 2 }] :=
  (congrArg (fun r : AI × Completion => r.1.board)
    (ai_upgrade_transform { health := 30, board := [jay, robin, jay], shop := [jay], currency := 2 }
      jay (by decide) (by decide) rfl (by decide)).1).trans (by decide)
/-- The fuel of `aiBuyPhase` is enough: more iterations change nothing. -/
theorem aiBuyLoop_fuel (n : Nat) (ai : AI) (h : ai.shop.length ≤ n) :
    aiBuyLoop n ai = aiBuyPhase ai := by
  unfold aiBuyPhase
  induction n generalizing ai with
  | zero =>
    have : ai.shop.length = 0 := by omega
    rw [this]
  | succ n ih =>
    cases hstep : aiBuyStep ai with
    | next ai1 =>
      obtain ⟨i, bird, hb, -, -, hshop, -⟩ := aiBuyStep_next_economy ai ai1 hstep
      have hi : i < ai.shop.length := by
        rcases Nat.lt_or_ge i ai.shop.length with h1 | h1
        · exact h1
        · rw [List.getElem?_eq_none h1] at hb; cases hb
      have hlen : ai1.shop.length = ai.shop.length - 1 := by
        rw [hshop, List.length_eraseIdx, if_pos hi]
      obtain ⟨m, hm⟩ : ∃ m, ai.shop.length = m + 1 := ⟨ai.shop.length - 1, by omega⟩
      rw [hm]
      simp only [aiBuyLoop, hstep]
      have hm1 : ai1.shop.length = m := by omega
      rw [ih ai1 (by omega), hm1]
    | exit =>
      cases hl : ai.shop.length with
      | zero => simp [aiBuyLoop, hstep]
      | succ m => simp [aiBuyLoop, hstep]
    | fault =>
      have hpos : 0 < ai.shop.length := by
        unfold aiBuyStep at hstep
        split at hstep
        · rename_i hg; exact hg.2.2
        · cases hstep
      obtain ⟨m, hm⟩ : ∃ m, ai.shop.length = m + 1 := ⟨ai.shop.length - 1, by omega⟩
      rw [hm]
      simp [aiBuyLoop, hstep]

/-! ## The rarity-maximizing selection (C7) -/

theorem foldl_max_spec (l : List Int) (a : Int) :
    a ≤ l.foldl max a ∧ (∀ x ∈ l, x ≤ l.foldl max a) ∧ (l.foldl max a = a ∨ l.foldl max a ∈ l) := by
  induction l generalizing a with
  | nil => simp
  | cons y ys ih =>
    rw [List.foldl_cons]
    obtain ⟨h1, h2, h3⟩ := ih (max a y)
    refine ⟨le_trans (le_max_left a y) h1, ?_, ?_⟩
    · intro x hx
      rcases List.mem_cons.1 hx with rfl | hx
      · exact le_trans (le_max_right a x) h1
      · exact h2 x hx
    · rcases h3 with h3 | h3
      · rcases max_choice a y with h | h
        · left; rw [h3, h]
        · right; rw [h3, h]; exact List.mem_cons_self _ _
      · right; exact List.mem_cons_of_mem _ h3

theorem mathMax_spec (l : List Int) (hl : l ≠ []) :
    ∃ m, mathMax l = some m ∧ m ∈ l ∧ ∀ x ∈ l, x ≤ m := by
  cases l with
  | nil => exact absurd rfl hl
  | cons a as =>
    obtain ⟨h1, h2, h3⟩ := foldl_max_spec as a
    refine ⟨as.foldl max a, rfl, ?_, ?_⟩
    · rcases h3 with h | h
      · rw [h]; exact List.mem_cons_self _ _
      · exact List.mem_cons_of_mem _ h
    · intro x hx
      rcases List.mem_cons.1 hx with rfl | hx
      · exact h1
      · exact h2 x hx

theorem affordable_pairwise (ai : AI) :
    (affordable ai).Pairwise (fun x y => x.i < y.i) := by
  unfold affordable
  apply List.Pairwise.filter
  rw [List.pairwise_map]
  have h := List.pairwise_lt_range ai.shop.length
  rw [← List.enum_map_fst, List.pairwise_map] at h
  exact h
theorem jsGt_iff (a b : Option Int) (ha : a.isSome) (hb : b.isSome) :
    jsGt a b = true ↔ b.getD 0 < a.getD 0 := by
  cases a with
  | none => cases ha
  | some x =>
    cases b with
    | none => cases hb
    | some y => simp [jsGt]

theorem rarest_foldl_max (offers : List Offer) (b : Offer)
    (hb : (rarityOrder b.b.rarity).isSome)
    (hvalid : ∀ x ∈ offers, (rarityOrder x.b.rarity).isSome) :
    ∃ r, offers.foldl (fun best x =>
        match best with
        | none => some x
        | some bst =>
          if jsGt (rarityOrder x.b.rarity) (rarityOrder bst.b.rarity) then some x else some bst)
        (some b) = some r
      ∧ (rarityOrder b.b.rarity).getD 0 ≤ (rarityOrder r.b.rarity).getD 0
      ∧ ∀ x ∈ offers, (rarityOrder x.b.rarity).getD 0 ≤ (rarityOrder r.b.rarity).getD 0 := by
  induction offers generalizing b with
  | nil => exact ⟨b, rfl, le_refl _, fun x hx => by cases hx⟩
  | cons y ys ih =>
    have hy := hvalid y (List.mem_cons_self _ _)
    have hys : ∀ x ∈ ys, (rarityOrder x.b.rarity).isSome :=
      fun x hx => hvalid x (List.mem_cons_of_mem _ hx)
    rw [List.foldl_cons]
    by_cases hgt : jsGt (rarityOrder y.b.rarity) (rarityOrder b.b.rarity) = true
    · simp only [hgt, if_true]
      obtain ⟨r, h1, h2, h3⟩ := ih y hy hys
      have hlt := (jsGt_iff _ _ hy hb).1 hgt
      refine ⟨r, h1, by omega, ?_⟩
      intro x hx
      rcases List.mem_cons.1 hx with rfl | hx
      · exact h2
      · exact h3 x hx
    · simp only [hgt]
      obtain ⟨r, h1, h2, h3⟩ := ih b hb hys
      have hle : ¬ (rarityOrder b.b.rarity).getD 0 < (rarityOrder y.b.rarity).getD 0 :=
        fun h => hgt ((jsGt_iff _ _ hy hb).2 h)
      refine ⟨r, h1, h2, ?_⟩
      intro x hx
      rcases List.mem_cons.1 hx with rfl | hx
      · omega
      · exact h3 x hx

theorem rarestOf_max (offers : List Offer) (hne : offers ≠ [])
    (hvalid : ∀ x ∈ offers, (rarityOrder x.b.rarity).isSome) :
    ∃ r, rarestOf offers = some r ∧ r ∈ offers
      ∧ ∀ x ∈ offers, (rarityOrder x.b.rarity).getD 0 ≤ (rarityOrder r.b.rarity).getD 0 := by
  cases offers with
  | nil => exact absurd rfl hne
  | cons y ys =>
    obtain ⟨r, h1, h2, h3⟩ := rarest_foldl_max ys y (hvalid y (List.mem_cons_self _ _))
      (fun x hx => hvalid x (List.mem_cons_of_mem _ hx))
    have hr : rarestOf (y :: ys) = some r := by
      unfold rarestOf
      rw [List.foldl_cons]
      exact h1
    refine ⟨r, hr, rarestOf_mem _ _ hr, ?_⟩
    intro x hx
    rcases List.mem_cons.1 hx with rfl | hx
    · exact h2
    · exact h3 x hx

/-- The offer chosen among the candidates: it has the highest attack, and no
candidate before it in the list has the same attack. -/
theorem bestIdxOf_spec (rarest : Offer) (candidates : List Offer) (hr : rarest ∈ candidates) :
    ∃ x pre post, bestIdxOf rarest candidates = some x.i ∧ candidates = pre ++ x :: post
      ∧ (∀ c ∈ candidates, c.b.attack ≤ x.b.attack)
      ∧ ∀ c ∈ pre, c.b.attack ≠ x.b.attack := by
  unfold bestIdxOf
  by_cases hlen : candidates.length > 1
  · simp only [hlen, if_true]
    have hne : candidates.map (fun x => x.b.attack) ≠ [] := by
      intro h
      rw [List.map_eq_nil_iff] at h
      rw [h] at hr; cases hr
    obtain ⟨m, hm, hmem, hmax⟩ := mathMax_spec _ hne
    rw [hm]
    obtain ⟨c0, hc0, hatk⟩ := List.mem_map.1 hmem
    cases hfind : candidates.find? (fun x => decide (x.b.attack = m)) with
    | none =>
      rw [List.find?_eq_none] at hfind
      exact absurd (by simpa using hatk) (hfind c0 hc0)
    | some x =>
      obtain ⟨hx, pre, post, hsplit, hpre⟩ := List.find?_eq_some.1 hfind
      have hxm : x.b.attack = m := by simpa using hx
      refine ⟨x, pre, post, by simp only [hfind, Option.map_some'], hsplit, ?_, ?_⟩
      · intro c hc
        rw [hxm]
        exact hmax _ (List.mem_map.2 ⟨c, hc, rfl⟩)
      · intro c hc
        rw [hxm]
        simpa using hpre c hc
  · simp only [hlen, if_false]
    have hone : candidates = [rarest] := by
      cases candidates with
      | nil => cases hr
      | cons a as =>
        cases as with
        | nil =>
          rcases List.mem_cons.1 hr with h | h
          · rw [h]
          · cases h
        | cons a2 as2 => simp at hlen
    refine ⟨rarest, [], [], rfl, by rw [hone]; rfl, ?_, fun c hc => by cases hc⟩
    intro c hc
    rw [hone] at hc
    rw [List.mem_singleton.1 hc]
theorem rarityOrder_isSome (rarity : String)
    (h : rarity = "common" ∨ rarity = "uncommon" ∨ rarity = "rare") :
    (rarityOrder rarity).isSome := by
  rcases h with h | h | h <;> rw [h] <;> decide

theorem rarityOrder_inj (r1 r2 : String)
    (h1 : r1 = "common" ∨ r1 = "uncommon" ∨ r1 = "rare")
    (h2 : r2 = "common" ∨ r2 = "uncommon" ∨ r2 = "rare")
    (h : (rarityOrder r1).getD 0 = (rarityOrder r2).getD 0) : r1 = r2 := by
  rcases h1 with h1 | h1 | h1 <;> rcases h2 with h2 | h2 | h2 <;> subst h1 <;> subst h2 <;>
    first | rfl | (exact absurd h (by decide))

/-- The code's table `rarityOrder` realises the spec's order on the three
rarities of the draft. -/
theorem rarer_iff_rarityOrder (r1 r2 : String)
    (h1 : r1 = "common" ∨ r1 = "uncommon" ∨ r1 = "rare")
    (h2 : r2 = "common" ∨ r2 = "uncommon" ∨ r2 = "rare") :
    rarer r1 r2 ↔ (rarityOrder r2).getD 0 < (rarityOrder r1).getD 0 := by
  unfold rarer
  rcases h1 with h1 | h1 | h1 <;> rcases h2 with h2 | h2 | h2 <;> subst h1 <;> subst h2 <;>
    decide

theorem findTripleIdx_none (ai : AI)
    (h : ∀ (i : Nat) (bird : Bird), ai.shop[i]? = some bird → rarityCost bird.rarity ≤ ai.currency →
      (ai.board.filter (fun b => b.id = bird.id)).length ≠ 2) :
    findTripleIdx ai = none := by
  unfold findTripleIdx
  rw [List.findIdx?_eq_none_iff]
  intro bird hb
  obtain ⟨i, hi⟩ := List.mem_iff_getElem?.1 hb
  have := h i bird hi
  simp only [decide_eq_false_iff_not, not_and]
  intro h2 hc
  exact this hc h2

theorem aiBuyStep_step2 (ai : AI) (rarest : Offer) (bestIdx : Nat) (bird : Bird)
    (hguard : ai.currency > 0 ∧ ai.board.length < MAX_BOARD_SIZE ∧ ai.shop.length > 0)
    (hnone : findTripleIdx ai = none) (hne : affordable ai ≠ [])
    (hr : rarestOf (affordable ai) = some rarest)
    (hbest : bestIdxOf rarest (candidatesOf (affordable ai) rarest) = some bestIdx)
    (hbird : ai.shop[bestIdx]? = some bird) :
    aiBuyStep ai = AiStep.next (buyRarest ai bestIdx bird) := by
  unfold aiBuyStep
  rw [if_pos hguard, hnone]
  have hl : ¬ (affordable ai).length = 0 := fun h => hne (List.length_eq_zero.1 h)
  simp only [hl, if_false, hr, hbest, hbird]
theorem mem_of_getElem_some {α : Type} {l : List α} {i : Nat} {a : α} (h : l[i]? = some a) :
    a ∈ l :=
  List.mem_iff_getElem?.2 ⟨i, h⟩

/-- C7. AI rarity-maximizing selection.  In an iteration of the loop of
`aiBuyPhase` (the loop guard holds) where no affordable offer completes a
triple, every offer's rarity is common, uncommon or rare, and some offer is
affordable, the iteration buys by step 2 the offer at the smallest shop index
`i` such that offer `i` is affordable, has the highest rarity among the
affordable offers (rare > uncommon > common) and has the highest attack among
the affordable offers of that rarity. -/
theorem ai_rarest_selection (ai : AI)
    (hguard : ai.currency > 0 ∧ ai.board.length < 5 ∧ ai.shop.length > 0)
    (hnotriple : ∀ (i : Nat) (bird : Bird), ai.shop[i]? = some bird →
      rarityCost bird.rarity ≤ ai.currency →
      (ai.board.filter (fun b => b.id = bird.id)).length ≠ 2)
    (hrar : ∀ b ∈ ai.shop, b.rarity = "common" ∨ b.rarity = "uncommon" ∨ b.rarity = "rare")
    (hsome : ∃ b ∈ ai.shop, rarityCost b.rarity ≤ ai.currency) :
    ∃ (i : Nat) (bird : Bird), ai.shop[i]? = some bird
      ∧ aiBuyStep ai = AiStep.next (buyRarest ai i bird)
      ∧ (buyRarest ai i bird).shop = ai.shop.eraseIdx i
      ∧ isBestOffer ai i
      ∧ ∀ j, j < i → ¬ isBestOffer ai j := by
  -- every affordable entry carries a rarity of the table
  have hvalid : ∀ x ∈ affordable ai, (rarityOrder x.b.rarity).isSome := by
    intro x hx
    exact rarityOrder_isSome _ (hrar _ (mem_of_getElem_some ((mem_affordable ai x).1 hx).1))
  -- an offer of the shop that can be paid is an entry of `affordable`
  have hentry : ∀ (j : Nat) (other : Bird), ai.shop[j]? = some other →
      rarityCost other.rarity ≤ ai.currency →
      ({ b := other, i := j, cost := rarityCost other.rarity } : Offer) ∈ affordable ai :=
    fun j other hj hc => (mem_affordable ai _).2 ⟨hj, rfl, hc⟩
  obtain ⟨b0, hb0, hc0⟩ := hsome
  obtain ⟨i0, hi0⟩ := List.mem_iff_getElem?.1 hb0
  have hne : affordable ai ≠ [] := List.ne_nil_of_mem (hentry i0 b0 hi0 hc0)
  obtain ⟨r, hrare, hrmem, hrmax⟩ := rarestOf_max (affordable ai) hne hvalid
  have hrcand : r ∈ candidatesOf (affordable ai) r := by
    simp [candidatesOf, hrmem]
  obtain ⟨x, pre, post, hbest, hsplit, hatk, hpre⟩ :=
    bestIdxOf_spec r (candidatesOf (affordable ai) r) hrcand
  have hxcand : x ∈ candidatesOf (affordable ai) r := by
    rw [hsplit]; simp
  obtain ⟨hxmem, hxr⟩ := List.mem_filter.1 hxcand
  have hxr : rarityOrder x.b.rarity = rarityOrder r.b.rarity := by simpa using hxr
  obtain ⟨hxshop, hxcost, hxaff⟩ := (mem_affordable ai x).1 hxmem
  rw [hxcost] at hxaff
  have hxrar := hrar _ (mem_of_getElem_some hxshop)
  have hpair : (candidatesOf (affordable ai) r).Pairwise (fun a b => a.i < b.i) :=
    List.Pairwise.filter _ (affordable_pairwise ai)
  rw [hsplit, List.pairwise_append] at hpair
  obtain ⟨-, hpost, hprepost⟩ := hpair
  refine ⟨x.i, x.b, hxshop, ?_, rfl, ?_, ?_⟩
  · exact aiBuyStep_step2 ai r x.i x.b hguard (findTripleIdx_none ai hnotriple) hne hrare hbest
      hxshop
  · refine ⟨x.b, hxshop, hxaff, ?_, ?_⟩
    · intro other ho hc hrarer
      obtain ⟨j, hj⟩ := List.mem_iff_getElem?.1 ho
      have hle := hrmax _ (hentry j other hj hc)
      rw [← hxr] at hle
      have hlt := (rarer_iff_rarityOrder _ _ (hrar _ ho) hxrar).1 hrarer
      simp only at hle
      omega
    · intro other ho hc hsame
      obtain ⟨j, hj⟩ := List.mem_iff_getElem?.1 ho
      have hy : ({ b := other, i := j, cost := rarityCost other.rarity } : Offer)
          ∈ candidatesOf (affordable ai) r := by
        refine List.mem_filter.2 ⟨hentry j other hj hc, ?_⟩
        simp only [decide_eq_true_eq]
        rw [hsame, hxr]
      exact hatk _ hy
  · rintro j hj ⟨bj, hbj, hcj, hmaxj, hatkj⟩
    have hbjrar := hrar _ (mem_of_getElem_some hbj)
    have h1 : (rarityOrder x.b.rarity).getD 0 ≤ (rarityOrder bj.rarity).getD 0 := by
      have hnot := hmaxj x.b (mem_of_getElem_some hxshop) hxaff
      rw [rarer_iff_rarityOrder _ _ hxrar hbjrar] at hnot
      omega
    have h2 := hrmax _ (hentry j bj hbj hcj)
    rw [← hxr] at h2
    have hsame : bj.rarity = x.b.rarity :=
      rarityOrder_inj _ _ hbjrar hxrar (le_antisymm h2 h1)
    have hy : ({ b := bj, i := j, cost := rarityCost bj.rarity } : Offer)
        ∈ candidatesOf (affordable ai) r := by
      refine List.mem_filter.2 ⟨hentry j bj hbj hcj, ?_⟩
      simp only [decide_eq_true_eq]
      rw [hsame, hxr]
    have hle1 : bj.attack ≤ x.b.attack := hatk _ hy
    have hle2 : x.b.attack ≤ bj.attack :=
      hatkj x.b (mem_of_getElem_some hxshop) hxaff hsame.symm
    rw [hsplit] at hy
    rcases List.mem_append.1 hy with hin | hin
    · exact hpre _ hin (le_antisymm hle1 hle2)
    · rcases List.mem_cons.1 hin with heq | hin
      · have : j = x.i := congrArg Offer.i heq
        omega
      · have := (List.pairwise_cons.1 hpost).1 _ hin
        simp only at this
        omega

/-- Instance of the selection: with three coins and the offers sparrow, jay,
owl, the iteration buys the owl at index 2, the rare offer; the sparrow and
the jay are not best offers, the owl being rarer. -/
theorem ai_rarest_selection_witness :
    aiBuyStep exampleAi = AiStep.next (buyRarest exampleAi 2 owl)
      ∧ isBestOffer exampleAi 2
      ∧ ¬ isBestOffer exampleAi 0 ∧ ¬ isBestOffer exampleAi 1 := by
  have hn0 : ¬ isBestOffer exampleAi 0 := by
    rintro ⟨bird, hb, -, hmax, -⟩
    have hbird : sparrow = bird := Option.some.inj hb
    subst hbird
    exact hmax owl (by decide) (by decide) (Or.inl ⟨rfl, Or.inr rfl⟩)
  have hn1 : ¬ isBestOffer exampleAi 1 := by
    rintro ⟨bird, hb, -, hmax, -⟩
    have hbird : jay = bird := Option.some.inj hb
    subst hbird
    exact hmax owl (by decide) (by decide) (Or.inl ⟨rfl, Or.inl rfl⟩)
  obtain ⟨i, bird, hb, hstep, -, hbest, -⟩ := ai_rarest_selection exampleAi (by decide)
    (by
      intro i bird hb _
      have hmem := mem_of_getElem_some hb
      simp only [exampleAi, List.mem_cons, List.mem_singleton, List.not_mem_nil, or_false] at hmem
      rcases hmem with h | h | h <;> rw [h] <;> decide)
    (by
      intro b hb
      simp only [exampleAi, List.mem_cons, List.mem_singleton, List.not_mem_nil, or_false] at hb
      rcases hb with h | h | h <;> rw [h] <;> decide)
    ⟨owl, by decide, by decide⟩
  have hi : i < 3 := by
    rcases Nat.lt_or_ge i 3 with h | h
    · exact h
    · have hnone : exampleAi.shop[i]? = none := List.getElem?_eq_none h
      rw [hnone] at hb
      cases hb
  have hi2 : i = 2 := by
    rcases Nat.lt_or_ge i 2 with h | h
    · rcases Nat.lt_or_ge i 1 with h0 | h1
      · have : i = 0 := by omega
        subst this
        exact absurd hbest hn0
      · have : i = 1 := by omega
        subst this
        exact absurd hbest hn1
    · omega
  subst hi2
  have hbird : owl = bird := Option.some.inj hb
  subst hbird
  exact ⟨hstep, hbest, hn0, hn1⟩

/-! ## Battle and round outcome (C8, C9, C10) -/

theorem sameScore_refl (s : GameState) : sameScore s s :=
  ⟨rfl, rfl, rfl, rfl, rfl, rfl, rfl⟩

theorem sameScore_trans {s t u : GameState} (h1 : sameScore s t) (h2 : sameScore t u) :
    sameScore s u := by
  obtain ⟨a1, a2, a3, a4, a5, a6, a7⟩ := h1
  obtain ⟨b1, b2, b3, b4, b5, b6, b7⟩ := h2
  exact ⟨b1.trans a1, b2.trans a2, b3.trans a3, b4.trans a4, b5.trans a5, b6.trans a6,
    b7.trans a7⟩

theorem combineTriples_sameScore (s : GameState) (isPlayer : Bool) (picks : Picks) (rng : Rng) :
    sameScore s (combineTriples s isPlayer picks rng).state := by
  obtain ⟨pB, aB, added, addedAi, h, -⟩ := combineTriples_frame s isPlayer picks rng
  rw [h]
  exact ⟨rfl, rfl, rfl, rfl, rfl, rfl, rfl⟩

theorem aiBuyLoop_health (n : Nat) (ai : AI) : (aiBuyLoop n ai).1.health = ai.health := by
  induction n generalizing ai with
  | zero => rfl
  | succ n ih =>
    simp only [aiBuyLoop]
    split
    · rename_i ai1 hstep
      obtain ⟨i, bird, -, -, -, -, hh⟩ := aiBuyStep_next_economy ai ai1 hstep
      rw [ih ai1, hh]
    · rfl
    · rfl

theorem refreshShops_sameScore (s : GameState) (rng : Rng) :
    sameScore s (refreshShops s rng).state := by
  unfold refreshShops
  generalize generateShop rng = g
  obtain ⟨aiShop, rng3, c3⟩ := g
  simp only
  split
  · exact ⟨rfl, rfl, rfl, rfl, rfl, rfl, rfl⟩
  · have hh := aiBuyLoop_health
      ({ s.ai with shop := aiShop, currency := s.player.currency } : AI).shop.length
      { s.ai with shop := aiShop, currency := s.player.currency }
    generalize generateShop rng3 = g6
    obtain ⟨shop, rng6, c6⟩ := g6
    have hp : aiBuyLoop ({ s.ai with shop := aiShop, currency := s.player.currency } : AI).shop.length
        { s.ai with shop := aiShop, currency := s.player.currency }
        = aiBuyPhase { s.ai with shop := aiShop, currency := s.player.currency } := rfl
    rw [hp] at hh
    generalize aiBuyPhase { s.ai with shop := aiShop, currency := s.player.currency } = p at hh ⊢
    obtain ⟨ai5, c5⟩ := p
    simp only at hh ⊢
    split
    · exact ⟨rfl, hh, rfl, rfl, rfl, rfl, rfl⟩
    · split
      · exact ⟨rfl, hh, rfl, rfl, rfl, rfl, rfl⟩
      · exact ⟨rfl, hh, rfl, rfl, rfl, rfl, rfl⟩

theorem startShopPhase_sameScore (s : GameState) (picks : Picks) (rng : Rng) :
    sameScore s (startShopPhase s picks rng).state := by
  have h1 := combineTriples_sameScore s true picks rng
  have h2 := combineTriples_sameScore (combineTriples s true picks rng).state false picks
    (combineTriples s true picks rng).rng
  have h12 := sameScore_trans h1 h2
  unfold startShopPhase
  simp only
  split
  · exact h1
  · split
    · exact h12
    · exact sameScore_trans h12 (refreshShops_sameScore _ _)
theorem nextRound_score (s : GameState) (picks : Picks) (rng : Rng) :
    (nextRound s picks rng).state.player.health = s.player.health
      ∧ (nextRound s picks rng).state.ai.health = s.ai.health
      ∧ (nextRound s picks rng).state.round = s.round + 1
      ∧ (nextRound s picks rng).state.message = "Next round!" := by
  obtain ⟨a1, a2, a3, -⟩ := startShopPhase_sameScore
    { s with
      round := s.round + 1,
      player := { s.player with currency := s.round + 1, board := s.playerSavedBoard },
      ai := { s.ai with currency := s.round + 1, board := s.aiSavedBoard } } picks rng
  exact ⟨a1, a2, a3, rfl⟩

theorem checkGameEnd_health (s : GameState) (picks : Picks) (rng : Rng) :
    (checkGameEnd s picks rng).state.player.health = (overflowDamage s).player.health
      ∧ (checkGameEnd s picks rng).state.ai.health = (overflowDamage s).ai.health := by
  unfold checkGameEnd
  simp only
  split
  · exact ⟨rfl, rfl⟩
  · split
    · exact ⟨rfl, rfl⟩
    · split
      · exact ⟨rfl, rfl⟩
      · exact ⟨(nextRound_score _ picks rng).1, (nextRound_score _ picks rng).2.1⟩

theorem totalAtk_eq_sum (board : List Bird) :
    totalAtk board = (board.map (fun b => b.attack)).sum := by
  unfold totalAtk
  have h : ∀ (l : List Bird) (acc : Int),
      l.foldl (fun sum b => sum + b.attack) acc = acc + (l.map (fun b => b.attack)).sum := by
    intro l
    induction l with
    | nil => intro acc; simp
    | cons b bs ih => intro acc; rw [List.foldl_cons, ih]; simp [add_assoc]
  rw [h]; simp

theorem attack_mutual (p a : Bird) (rng : Rng)
    (hpa : a.health ≤ p.attack) (hap : p.health ≤ a.attack) :
    attack [p] [a] rng = ([], [], rngTail rng, Completion.normal) := by
  have hidx : floorRandom (rngHead rng) 1 = 0 := by
    have := floorRandom_lt (rngHead rng) 1 (rngHead_lt rng) (by decide)
    omega
  have h1 : p.health - a.attack ≤ 0 := by omega
  have h2 : a.health - p.attack ≤ 0 := by omega
  simp [attack, hidx, h1, h2]

/-- C8. Mutual wipe.  When each side has a single unit whose attack is at
least the other unit's health, then for either first attacker and any draws
the first call of `doBattleStep` performs one attack that empties both rosters
and changes neither health value, the next call goes straight to
`checkGameEnd`, and `checkGameEnd` applies no overflow damage: both actors'
health values stay what they were before the battle.  So `battleRound`, given
fuel for two calls or more, resolves with both rosters empty and both health
values unchanged. -/
theorem mutual_wipe (s : GameState) (p a : Bird) (turn : Side) (rng : Rng) (picks : Picks)
    (fuel : Nat)
    (hp : s.player.board = [p]) (ha : s.ai.board = [a])
    (hpa : a.health ≤ p.attack) (hap : p.health ≤ a.attack) :
    (∃ b1, doBattleStep { state := s, playerTurn := turn, rng := rng } = BattleStep.next b1
      ∧ b1.state.player.board = [] ∧ b1.state.ai.board = []
      ∧ b1.state.player.health = s.player.health ∧ b1.state.ai.health = s.ai.health
      ∧ doBattleStep b1 = BattleStep.resolved
      ∧ overflowDamage b1.state = b1.state
      ∧ (checkGameEnd b1.state picks b1.rng).state.player.health = s.player.health
      ∧ (checkGameEnd b1.state picks b1.rng).state.ai.health = s.ai.health)
    ∧ (∃ b1, battleLoop (fuel + 2) (battleStart s rng) = some b1
      ∧ b1.state.player.board = [] ∧ b1.state.ai.board = [])
    ∧ (∃ r, battleRound (fuel + 2) s picks rng = some r
      ∧ r.state.player.health = s.player.health ∧ r.state.ai.health = s.ai.health) := by
  have hstep : ∀ (turn : Side) (rng : Rng),
      ∃ b1, doBattleStep { state := s, playerTurn := turn, rng := rng }
      = BattleStep.next b1 ∧ b1.state.player.board = [] ∧ b1.state.ai.board = []
      ∧ b1.state.player.health = s.player.health ∧ b1.state.ai.health = s.ai.health := by
    intro turn rng
    cases turn with
    | player =>
      refine ⟨{ state := { s with player := { s.player with board := [] },
                                  ai := { s.ai with board := [] } },
                playerTurn := Side.ai, rng := rngTail rng }, ?_, rfl, rfl, rfl, rfl⟩
      simp [doBattleStep, hp, ha, attack_mutual p a rng hpa hap]
    | ai =>
      refine ⟨{ state := { s with player := { s.player with board := [] },
                                  ai := { s.ai with board := [] } },
                playerTurn := Side.player, rng := rngTail rng }, ?_, rfl, rfl, rfl, rfl⟩
      simp [doBattleStep, hp, ha, attack_mutual a p rng hap hpa]
  have hrest : ∀ b1 : Battle, b1.state.player.board = [] → b1.state.ai.board = [] →
      b1.state.player.health = s.player.health → b1.state.ai.health = s.ai.health →
      doBattleStep b1 = BattleStep.resolved ∧ overflowDamage b1.state = b1.state
        ∧ (checkGameEnd b1.state picks b1.rng).state.player.health = s.player.health
        ∧ (checkGameEnd b1.state picks b1.rng).state.ai.health = s.ai.health := by
    intro b1 hpb hab hph1 hah1
    have hover : overflowDamage b1.state = b1.state := by
      simp [overflowDamage, hpb, hab]
    have hend := checkGameEnd_health b1.state picks b1.rng
    rw [hover] at hend
    exact ⟨by simp [doBattleStep, hpb], hover, hend.1.trans hph1, hend.2.trans hah1⟩
  obtain ⟨b1, h1, hpb, hab, hph1, hah1⟩ := hstep turn rng
  obtain ⟨h2, h3, h4, h5⟩ := hrest b1 hpb hab hph1 hah1
  obtain ⟨c1, g1, gpb, gab, gph1, gah1⟩ :=
    hstep (battleStart s rng).playerTurn (battleStart s rng).rng
  obtain ⟨g2, -, g4, g5⟩ := hrest c1 gpb gab gph1 gah1
  have hloop : battleLoop (fuel + 2) (battleStart s rng) = some c1 := by
    show battleLoop (fuel + 2)
      ⟨s, (battleStart s rng).playerTurn, (battleStart s rng).rng⟩ = some c1
    simp only [battleLoop, g1, g2]
  refine ⟨⟨b1, h1, hpb, hab, hph1, hah1, h2, h3, h4, h5⟩, ⟨c1, hloop, gpb, gab⟩, ?_⟩
  refine ⟨checkGameEnd c1.state picks c1.rng, ?_, g4, g5⟩
  simp only [battleRound, hloop, Option.map_some']

/-- Instance of the wipe: attack 5 / health 5 against attack 5 / health 5. -/
theorem mutual_wipe_witness :
    (∃ b1, battleLoop 2 (battleStart exampleDuel (fun _ => 0)) = some b1
      ∧ b1.state.player.board = [] ∧ b1.state.ai.board = [])
    ∧ (∃ r, battleRound 2 exampleDuel (fun _ => 0) (fun _ => 0) = some r
      ∧ r.state.player.health = exampleDuel.player.health
      ∧ r.state.ai.health = exampleDuel.ai.health) :=
  (mutual_wipe exampleDuel fiveFive fiveFive Side.ai (fun _ => 0) (fun _ => 0) 0 rfl rfl
    (by decide) (by decide)).2

/-- C9. Overflow damage.  In `checkGameEnd`, when exactly one roster is empty
the health of the actor with the empty roster goes down by exactly the sum of
the attack values of the units on the other roster, once, and the other
actor's health is unchanged; when both rosters are empty, or neither is,
neither health changes.  This holds for the state after the overflow step and
for the state `checkGameEnd` finally leaves. -/
theorem overflow_damage (s : GameState) (picks : Picks) (rng : Rng) :
    (s.player.board ≠ [] ∧ s.ai.board = [] →
        (checkGameEnd s picks rng).state.ai.health
            = s.ai.health - (s.player.board.map (fun b => b.attack)).sum
          ∧ (checkGameEnd s picks rng).state.player.health = s.player.health)
      ∧ (s.ai.board ≠ [] ∧ s.player.board = [] →
        (checkGameEnd s picks rng).state.player.health
            = s.player.health - (s.ai.board.map (fun b => b.attack)).sum
          ∧ (checkGameEnd s picks rng).state.ai.health = s.ai.health)
      ∧ ((s.player.board = [] ∧ s.ai.board = []) ∨ (s.player.board ≠ [] ∧ s.ai.board ≠ []) →
        (checkGameEnd s picks rng).state.player.health = s.player.health
          ∧ (checkGameEnd s picks rng).state.ai.health = s.ai.health)
      ∧ (checkGameEnd s picks rng).state.player.health = (overflowDamage s).player.health
      ∧ (checkGameEnd s picks rng).state.ai.health = (overflowDamage s).ai.health := by
  obtain ⟨h1, h2⟩ := checkGameEnd_health s picks rng
  refine ⟨?_, ?_, ?_, h1, h2⟩
  · rintro ⟨hp, ha⟩
    have hlen : s.player.board.length > 0 := List.length_pos.2 hp
    rw [h1, h2]
    simp [overflowDamage, hlen, ha, totalAtk_eq_sum]
  · rintro ⟨ha, hp⟩
    have hlen : s.ai.board.length > 0 := List.length_pos.2 ha
    rw [h1, h2]
    simp [overflowDamage, hlen, hp, totalAtk_eq_sum]
  · rintro (⟨hp, ha⟩ | ⟨hp, ha⟩)
    · rw [h1, h2]
      simp [overflowDamage, hp, ha]
    · have hlp : s.player.board.length ≠ 0 := fun h => hp (List.length_eq_zero.1 h)
      have hla : s.ai.board.length ≠ 0 := fun h => ha (List.length_eq_zero.1 h)
      rw [h1, h2]
      simp [overflowDamage, hlp, hla]

/-- Instance of the overflow: the surviving robin (attack 1) hits the AI once. -/
theorem overflow_damage_witness :
    (checkGameEnd exampleResolved (fun _ => 0) (fun _ => 0)).state.ai.health = 1 - 1
      ∧ (checkGameEnd exampleResolved (fun _ => 0) (fun _ => 0)).state.player.health = 30 :=
  (overflow_damage exampleResolved (fun _ => 0) (fun _ => 0)).1 ⟨by decide, rfl⟩
theorem overflowDamage_frame (s : GameState) :
    (overflowDamage s).round = s.round
      ∧ (overflowDamage s).player.currency = s.player.currency
      ∧ (overflowDamage s).ai.currency = s.ai.currency
      ∧ (overflowDamage s).player.board = s.player.board
      ∧ (overflowDamage s).ai.board = s.ai.board := by
  unfold overflowDamage
  split
  · exact ⟨rfl, rfl, rfl, rfl, rfl⟩
  · split
    · exact ⟨rfl, rfl, rfl, rfl, rfl⟩
    · exact ⟨rfl, rfl, rfl, rfl, rfl⟩

/-- C10. Terminal conditions.  With the health values after overflow damage,
`checkGameEnd` announces a draw exactly when both are at most 0, a player loss
exactly when only the player's is, an AI loss exactly when only the AI's is,
and advances the round (the counter goes up by one, "Next round!") exactly
when both are positive.  On every terminal outcome it returns normally with
the round counter, both currencies and both rosters unchanged and the end-shop
button disabled. -/
theorem terminal_conditions (s : GameState) (picks : Picks) (rng : Rng) :
    ((checkGameEnd s picks rng).state.message = "Draw! Both players lost all health."
        ↔ (overflowDamage s).player.health ≤ 0 ∧ (overflowDamage s).ai.health ≤ 0)
      ∧ ((checkGameEnd s picks rng).state.message = "You lost!"
        ↔ (overflowDamage s).player.health ≤ 0 ∧ 0 < (overflowDamage s).ai.health)
      ∧ ((checkGameEnd s picks rng).state.message = "You win!"
        ↔ 0 < (overflowDamage s).player.health ∧ (overflowDamage s).ai.health ≤ 0)
      ∧ ((checkGameEnd s picks rng).state.message = "Next round!"
        ↔ 0 < (overflowDamage s).player.health ∧ 0 < (overflowDamage s).ai.health)
      ∧ ((checkGameEnd s picks rng).state.round = s.round + 1
        ↔ 0 < (overflowDamage s).player.health ∧ 0 < (overflowDamage s).ai.health)
      ∧ (¬ (0 < (overflowDamage s).player.health ∧ 0 < (overflowDamage s).ai.health) →
          (checkGameEnd s picks rng).completion = Completion.normal
          ∧ (checkGameEnd s picks rng).state.round = s.round
          ∧ (checkGameEnd s picks rng).state.player.currency = s.player.currency
          ∧ (checkGameEnd s picks rng).state.ai.currency = s.ai.currency
          ∧ (checkGameEnd s picks rng).state.player.board = s.player.board
          ∧ (checkGameEnd s picks rng).state.ai.board = s.ai.board
          ∧ (checkGameEnd s picks rng).state.endShopDisabled = true) := by
  obtain ⟨f1, f2, f3, f4, f5⟩ := overflowDamage_frame s
  by_cases hp : (overflowDamage s).player.health ≤ 0
  · by_cases ha : (overflowDamage s).ai.health ≤ 0
    · have hrun : checkGameEnd s picks rng =
          { state := { overflowDamage s with message := "Draw! Both players lost all health.",
                                             endShopDisabled := true },
            rng := rng, completion := Completion.normal } := by
        simp [checkGameEnd, hp, ha]
      rw [hrun]
      have hp' : ¬ 0 < (overflowDamage s).player.health := not_lt.2 hp
      have ha' : ¬ 0 < (overflowDamage s).ai.health := not_lt.2 ha
      refine ⟨?_, ?_, ?_, ?_, ?_, ?_⟩
      · simp [hp, ha]
      · simp [hp, ha']
      · simp [hp', ha]
      · simp [hp', ha']
      · simp only [f1, hp', false_and, iff_false]; omega
      · intro _; exact ⟨rfl, f1, f2, f3, f4, f5, rfl⟩
    · have hrun : checkGameEnd s picks rng =
          { state := { overflowDamage s with message := "You lost!", endShopDisabled := true },
            rng := rng, completion := Completion.normal } := by
        simp [checkGameEnd, hp, ha]
      rw [hrun]
      have hp' : ¬ 0 < (overflowDamage s).player.health := not_lt.2 hp
      have ha' : 0 < (overflowDamage s).ai.health := not_le.1 ha
      refine ⟨?_, ?_, ?_, ?_, ?_, ?_⟩
      · simp [hp, ha]
      · simp [hp, ha']
      · simp [hp', ha]
      · simp [hp', ha']
      · simp only [f1, hp', false_and, iff_false]; omega
      · intro _; exact ⟨rfl, f1, f2, f3, f4, f5, rfl⟩
  · by_cases ha : (overflowDamage s).ai.health ≤ 0
    · have hrun : checkGameEnd s picks rng =
          { state := { overflowDamage s with message := "You win!", endShopDisabled := true },
            rng := rng, completion := Completion.normal } := by
        simp [checkGameEnd, hp, ha]
      rw [hrun]
      have hp' : 0 < (overflowDamage s).player.health := not_le.1 hp
      have ha' : ¬ 0 < (overflowDamage s).ai.health := not_lt.2 ha
      refine ⟨?_, ?_, ?_, ?_, ?_, ?_⟩
      · simp [hp, ha]
      · simp [hp, ha']
      · simp [hp', ha]
      · simp [hp', ha']
      · simp only [f1, ha', and_false, iff_false]; omega
      · intro _; exact ⟨rfl, f1, f2, f3, f4, f5, rfl⟩
    · have hrun : checkGameEnd s picks rng = nextRound (overflowDamage s) picks rng := by
        simp [checkGameEnd, hp, ha]
      rw [hrun]
      have hp' : 0 < (overflowDamage s).player.health := not_le.1 hp
      have ha' : 0 < (overflowDamage s).ai.health := not_le.1 ha
      obtain ⟨-, -, n3, n4⟩ := nextRound_score (overflowDamage s) picks rng
      refine ⟨?_, ?_, ?_, ?_, ?_, ?_⟩
      · simp [hp, ha, n4]
      · simp [hp, ha', n4]
      · simp [hp', ha, n4]
      · simp [hp', ha', n4]
      · simp [hp', ha', n3, f1]
      · intro h; exact absurd ⟨hp', ha'⟩ h

/-- Instance of the outcome: the AI's health reaches 0 after overflow, the
player wins and the round counter stays at 3. -/
theorem terminal_conditions_witness :
    (checkGameEnd exampleResolved (fun _ => 0) (fun _ => 0)).state.message = "You win!"
      ∧ (checkGameEnd exampleResolved (fun _ => 0) (fun _ => 0)).state.round = 3 :=
  ⟨(terminal_conditions exampleResolved (fun _ => 0) (fun _ => 0)).2.2.1.2 (by decide),
   ((terminal_conditions exampleResolved (fun _ => 0) (fun _ => 0)).2.2.2.2.2 (by decide)).2.1⟩
/-! ## Snapshot rollback and round advance (C11, C12) -/

theorem nextRound_eq (s : GameState) (picks : Picks) (rng : Rng) :
    nextRound s picks rng =
      { startShopPhase (advanceRound s) picks rng with
        state := { (startShopPhase (advanceRound s) picks rng).state with
                   message := "Next round!" } } :=
  rfl

/-- A battle step writes nothing but the two boards. -/
theorem doBattleStep_frame (b b1 : Battle) (h : doBattleStep b = BattleStep.next b1) :
    b1.state = { b.state with player := { b.state.player with board := b1.state.player.board },
                              ai := { b.state.ai with board := b1.state.ai.board } } := by
  unfold doBattleStep at h
  simp only at h
  split at h
  · cases h
  · split at h
    · split at h
      · cases h; rfl
      · cases h
    · split at h
      · cases h; rfl
      · cases h

theorem battleLoop_frame (fuel : Nat) (b b1 : Battle) (h : battleLoop fuel b = some b1) :
    b1.state = { b.state with player := { b.state.player with board := b1.state.player.board },
                              ai := { b.state.ai with board := b1.state.ai.board } } := by
  induction fuel generalizing b with
  | zero => cases h
  | succ n ih =>
    simp only [battleLoop] at h
    split at h
    · cases h; rfl
    · rename_i b2 hstep
      have h1 := doBattleStep_frame b b2 hstep
      have h2 := ih b2 h
      rw [h2, h1]
    · cases h

theorem combineTriples_ai_keeps_player (s : GameState) (picks : Picks) (rng : Rng) :
    (combineTriples s false picks rng).state.player = s.player := by
  unfold combineTriples
  simp only [Bool.false_eq_true, if_false]
  split
  · rfl
  · obtain ⟨added, addedAi, h, -⟩ := handleReward_frame picks
      (scanTriples s.ai.board false rng).rewards 0
      { s with ai := { s.ai with board := (scanTriples s.ai.board false rng).board } }
      (scanTriples s.ai.board false rng).rng
    rw [h]

theorem refreshShops_player (s : GameState) (rng : Rng) :
    (refreshShops s rng).state.player = s.player := by
  unfold refreshShops
  split
  simp only
  repeat' split
  all_goals rfl

theorem startShopPhase_player_board (s : GameState) (picks : Picks) (rng : Rng) :
    (startShopPhase s picks rng).state.player.board = (scanTriples s.player.board true rng).board := by
  have h1 := combineTriples_board s true picks rng
  simp only [if_true] at h1
  have h2 := combineTriples_ai_keeps_player (combineTriples s true picks rng).state picks
    (combineTriples s true picks rng).rng
  unfold startShopPhase
  simp only
  split
  · exact h1
  · split
    · rw [h2]; exact h1
    · rw [refreshShops_player, h2]; exact h1

/-- C11. Snapshot rollback.  Take any state in the shop phase, end the shop,
and let any battle run to its resolution (any draws, any number of attack
steps, any damage and removals).  When `checkGameEnd` then advances the round,
the rosters it restores are the rosters held when the shop phase ended, unit
for unit and in order, whatever survived the battle.  The player's roster is
still that roster when `checkGameEnd` is done, up to the merge that
`startShopPhase` runs on it (which changes nothing when no id occurs three
times). -/
theorem snapshot_rollback (s : GameState) (rng : Rng) (picks : Picks) (fuel : Nat) (b : Battle)
    (hphase : s.phase = Phase.shop)
    (hloop : battleLoop fuel (battleStart (endShop s) rng) = some b)
    (hp : 0 < (overflowDamage b.state).player.health)
    (ha : 0 < (overflowDamage b.state).ai.health) :
    checkGameEnd b.state picks b.rng = nextRound (overflowDamage b.state) picks b.rng
      ∧ (advanceRound (overflowDamage b.state)).player.board = s.player.board
      ∧ (advanceRound (overflowDamage b.state)).ai.board = s.ai.board
      ∧ (checkGameEnd b.state picks b.rng).state.player.board
          = (scanTriples s.player.board true b.rng).board
      ∧ ((∀ key, (s.player.board.filter (fun u => u.id = key)).length < 3) →
          (checkGameEnd b.state picks b.rng).state.player.board = s.player.board) := by
  have hframe := battleLoop_frame fuel _ b hloop
  have hsaved : b.state.playerSavedBoard = s.player.board
      ∧ b.state.aiSavedBoard = s.ai.board := by
    rw [hframe]
    simp [battleStart, endShop, hphase]
  have hover : (overflowDamage b.state).playerSavedBoard = b.state.playerSavedBoard
      ∧ (overflowDamage b.state).aiSavedBoard = b.state.aiSavedBoard := by
    unfold overflowDamage
    split
    · exact ⟨rfl, rfl⟩
    · split <;> exact ⟨rfl, rfl⟩
  have hrun : checkGameEnd b.state picks b.rng = nextRound (overflowDamage b.state) picks b.rng := by
    have h1 : ¬ (overflowDamage b.state).player.health ≤ 0 := not_le.2 hp
    have h2 : ¬ (overflowDamage b.state).ai.health ≤ 0 := not_le.2 ha
    simp [checkGameEnd, h1, h2]
  have hpl : (advanceRound (overflowDamage b.state)).player.board = s.player.board :=
    hover.1.trans hsaved.1
  have hfinal : (checkGameEnd b.state picks b.rng).state.player.board
      = (scanTriples s.player.board true b.rng).board := by
    rw [hrun, nextRound_eq]
    show (startShopPhase (advanceRound (overflowDamage b.state)) picks b.rng).state.player.board = _
    rw [startShopPhase_player_board, hpl]
  refine ⟨hrun, hpl, hover.2.trans hsaved.2, hfinal, ?_⟩
  intro hno
  rw [hfinal, scanTriples_no_triple _ _ _ hno]

/-- Instance of the rollback: the two 5/5 units wipe each other out, and the
round advance restores both. -/
theorem snapshot_rollback_witness :
    (advanceRound (overflowDamage
        { exampleDuel with player := { exampleDuel.player with board := [] },
                           ai := { exampleDuel.ai with board := [] } })).player.board = [fiveFive]
      ∧ (advanceRound (overflowDamage
        { exampleDuel with player := { exampleDuel.player with board := [] },
                           ai := { exampleDuel.ai with board := [] } })).ai.board = [fiveFive] :=
  ⟨(snapshot_rollback exampleBeforeBattle (fun _ => 0) (fun _ => 0) 2
      { state := { exampleDuel with player := { exampleDuel.player with board := [] },
                                    ai := { exampleDuel.ai with board := [] } },
        playerTurn := Side.ai, rng := fun _ => 0 }
      rfl rfl (by decide) (by decide)).2.1,
   (snapshot_rollback exampleBeforeBattle (fun _ => 0) (fun _ => 0) 2
      { state := { exampleDuel with player := { exampleDuel.player with board := [] },
                                    ai := { exampleDuel.ai with board := [] } },
        playerTurn := Side.ai, rng := fun _ => 0 }
      rfl rfl (by decide) (by decide)).2.2.1⟩
theorem aiBuyLoop_currency_le (n : Nat) (ai : AI) : (aiBuyLoop n ai).1.currency ≤ ai.currency := by
  induction n generalizing ai with
  | zero => exact le_refl _
  | succ n ih =>
    simp only [aiBuyLoop]
    split
    · rename_i ai1 hstep
      obtain ⟨i, bird, -, -, hcur, -, -⟩ := aiBuyStep_next_economy ai ai1 hstep
      have := ih ai1
      have hpos := rarityCost_pos bird.rarity
      omega
    · exact le_refl _
    · exact le_refl _

theorem refreshShops_ai_currency (s : GameState) (rng : Rng)
    (h : s.ai.currency = s.player.currency) :
    (refreshShops s rng).state.ai.currency ≤ s.player.currency := by
  have hle := fun shop => aiBuyLoop_currency_le
    ({ s.ai with shop := shop, currency := s.player.currency } : AI).shop.length
    { s.ai with shop := shop, currency := s.player.currency }
  unfold refreshShops
  split
  simp only
  repeat' split
  all_goals first
    | exact le_of_eq h
    | exact hle _

theorem startShopPhase_ai_currency (s : GameState) (picks : Picks) (rng : Rng)
    (h : s.ai.currency = s.player.currency) :
    (startShopPhase s picks rng).state.ai.currency ≤ s.player.currency := by
  obtain ⟨pB1, aB1, added1, addedAi1, e1, -⟩ := combineTriples_frame s true picks rng
  obtain ⟨pB2, aB2, added2, addedAi2, e2, -⟩ := combineTriples_frame
    (combineTriples s true picks rng).state false picks (combineTriples s true picks rng).rng
  have c1 : (combineTriples s true picks rng).state.ai.currency = s.ai.currency
      ∧ (combineTriples s true picks rng).state.player.currency = s.player.currency := by
    rw [e1]; exact ⟨rfl, rfl⟩
  have c2 : (combineTriples (combineTriples s true picks rng).state false picks
        (combineTriples s true picks rng).rng).state.ai.currency = s.ai.currency
      ∧ (combineTriples (combineTriples s true picks rng).state false picks
        (combineTriples s true picks rng).rng).state.player.currency = s.player.currency := by
    rw [e2]; exact ⟨c1.1, c1.2⟩
  unfold startShopPhase
  simp only
  split
  · rw [c1.1]; exact le_of_eq h
  · split
    · rw [c2.1]; exact le_of_eq h
    · have := refreshShops_ai_currency _ (combineTriples (combineTriples s true picks rng).state
        false picks (combineTriples s true picks rng).rng).rng (c2.1.trans (h.trans c2.2.symm))
      rw [c2.2] at this
      exact this

/-- C12. Round advance.  Whenever both health values are positive after
overflow damage, `checkGameEnd` raises the round counter by exactly 1 and sets
the player's and the AI's currency to the new round number, whatever either had
left, without touching either health value; it then runs `startShopPhase` from
that state.  When it is done the round counter and the player's currency are
still the new round number and both health values are those after overflow;
the AI's currency is at most the new round number (its draft spends from it). -/
theorem round_advance (s : GameState) (picks : Picks) (rng : Rng)
    (hp : 0 < (overflowDamage s).player.health) (ha : 0 < (overflowDamage s).ai.health) :
    (advanceRound (overflowDamage s)).round = s.round + 1
      ∧ (advanceRound (overflowDamage s)).player.currency = s.round + 1
      ∧ (advanceRound (overflowDamage s)).ai.currency = s.round + 1
      ∧ (advanceRound (overflowDamage s)).player.health = (overflowDamage s).player.health
      ∧ (advanceRound (overflowDamage s)).ai.health = (overflowDamage s).ai.health
      ∧ (checkGameEnd s picks rng).state =
          { (startShopPhase (advanceRound (overflowDamage s)) picks rng).state with
            message := "Next round!" }
      ∧ (checkGameEnd s picks rng).state.round = s.round + 1
      ∧ (checkGameEnd s picks rng).state.player.currency = s.round + 1
      ∧ (checkGameEnd s picks rng).state.ai.currency ≤ s.round + 1
      ∧ (checkGameEnd s picks rng).state.player.health = (overflowDamage s).player.health
      ∧ (checkGameEnd s picks rng).state.ai.health = (overflowDamage s).ai.health := by
  obtain ⟨f1, -⟩ := overflowDamage_frame s
  have hrun : checkGameEnd s picks rng = nextRound (overflowDamage s) picks rng := by
    have h1 : ¬ (overflowDamage s).player.health ≤ 0 := not_le.2 hp
    have h2 : ¬ (overflowDamage s).ai.health ≤ 0 := not_le.2 ha
    simp [checkGameEnd, h1, h2]
  obtain ⟨a1, a2, a3, a4, -⟩ :=
    startShopPhase_sameScore (advanceRound (overflowDamage s)) picks rng
  have hai := startShopPhase_ai_currency (advanceRound (overflowDamage s)) picks rng rfl
  have hr : (advanceRound (overflowDamage s)).round = s.round + 1 := by
    simp [advanceRound, f1]
  have hpc : (advanceRound (overflowDamage s)).player.currency = s.round + 1 := by
    simp [advanceRound, f1]
  have hac : (advanceRound (overflowDamage s)).ai.currency = s.round + 1 := by
    simp [advanceRound, f1]
  rw [hrun, nextRound_eq]
  refine ⟨hr, hpc, hac, rfl, rfl, rfl, a3.trans hr, a4.trans hpc, ?_, a1, a2⟩
  rw [hpc] at hai
  exact hai

/-- Instance of the advance: round 1 ends with both sides at 30 health and
two coins each for round 2. -/
theorem round_advance_witness :
    (advanceRound (overflowDamage exampleDuel)).round = 1 + 1
      ∧ (advanceRound (overflowDamage exampleDuel)).player.currency = 1 + 1
      ∧ (advanceRound (overflowDamage exampleDuel)).ai.currency = 1 + 1 :=
  ⟨(round_advance exampleDuel (fun _ => 0) (fun _ => 0) (by decide) (by decide)).1,
   (round_advance exampleDuel (fun _ => 0) (fun _ => 0) (by decide) (by decide)).2.1,
   (round_advance exampleDuel (fun _ => 0) (fun _ => 0) (by decide) (by decide)).2.2.1⟩
/-! ## The weighted rarity walk (C13) -/

theorem getRandomBird_some (rarity : String) (rng : Rng)
    (hpool : allBirds.filter (fun b => b.rarity = rarity) ≠ []) :
    ∃ b : Bird, (getRandomBird rarity rng).1 = some b ∧ b.rarity = rarity := by
  unfold getRandomBird
  have hlen : 0 < (allBirds.filter (fun b => b.rarity = rarity)).length :=
    List.length_pos.2 hpool
  have hidx := floorRandom_lt (rngHead rng) _ (rngHead_lt rng) hlen
  simp only
  rw [List.getElem?_eq_getElem hidx]
  refine ⟨_, rfl, ?_⟩
  have hmem := List.getElem_mem hidx
  have := (List.mem_filter.1 hmem).2
  simpa [Template.instantiate] using this

theorem walkTiers_table (r : Nat) :
    walkTiers BIRD_TIERS r =
      if r < 6 * RANDOM_DEN then some "common"
      else if r - 6 * RANDOM_DEN < 3 * RANDOM_DEN then some "uncommon"
      else if r - 6 * RANDOM_DEN - 3 * RANDOM_DEN < 1 * RANDOM_DEN then some "rare"
      else none :=
  rfl

/-- C13. Weighted rarity walk.  With the weights common 6, uncommon 3, rare 1
and a draw `r` (in units of `1 / RANDOM_DEN`) with `0 ≤ r < 10`, the walk of
`getRandomShopBird` selects common iff `r < 6`, uncommon iff `6 ≤ r < 9` and
rare iff `9 ≤ r`; it never runs off the table.  So for every stream of draws
the total weight is 10, the scaled draw is below 10, and `getRandomShopBird`
returns an actual unit whose rarity is the one the walk selected, one of
common, uncommon and rare: the trailing fallback is not reached. -/
theorem weighted_rarity_walk (r : Nat) (rng : Rng) (hr : r < 10 * RANDOM_DEN) :
    (walkTiers BIRD_TIERS r = some "common" ↔ r < 6 * RANDOM_DEN)
      ∧ (walkTiers BIRD_TIERS r = some "uncommon" ↔ 6 * RANDOM_DEN ≤ r ∧ r < 9 * RANDOM_DEN)
      ∧ (walkTiers BIRD_TIERS r = some "rare" ↔ 9 * RANDOM_DEN ≤ r ∧ r < 10 * RANDOM_DEN)
      ∧ walkTiers BIRD_TIERS r ≠ none
      ∧ BIRD_TIERS.foldl (fun sum t => sum + t.2) 0 = 10
      ∧ rngHead rng * 10 < 10 * RANDOM_DEN
      ∧ ∃ bird rarity, walkTiers BIRD_TIERS (rngHead rng * 10) = some rarity
          ∧ (getRandomShopBird rng).1 = some bird ∧ bird.rarity = rarity
          ∧ (rarity = "common" ∨ rarity = "uncommon" ∨ rarity = "rare") := by
  have hwalk : ∀ x : Nat, x < 10 * RANDOM_DEN →
      (walkTiers BIRD_TIERS x = some "common" ↔ x < 6 * RANDOM_DEN)
      ∧ (walkTiers BIRD_TIERS x = some "uncommon" ↔ 6 * RANDOM_DEN ≤ x ∧ x < 9 * RANDOM_DEN)
      ∧ (walkTiers BIRD_TIERS x = some "rare" ↔ 9 * RANDOM_DEN ≤ x ∧ x < 10 * RANDOM_DEN)
      ∧ walkTiers BIRD_TIERS x ≠ none := by
    intro x hx
    rw [walkTiers_table]
    generalize RANDOM_DEN = D at hx ⊢
    by_cases h1 : x < 6 * D
    · rw [if_pos h1]
      refine ⟨⟨fun _ => h1, fun _ => rfl⟩, ⟨fun h => absurd h (by decide), fun h => by omega⟩,
        ⟨fun h => absurd h (by decide), fun h => by omega⟩, fun h => by cases h⟩
    · by_cases h2 : x - 6 * D < 3 * D
      · rw [if_neg h1, if_pos h2]
        refine ⟨⟨fun h => absurd h (by decide), fun h => absurd h h1⟩,
          ⟨fun _ => ⟨by omega, by omega⟩, fun _ => rfl⟩,
          ⟨fun h => absurd h (by decide), fun h => by omega⟩, fun h => by cases h⟩
      · have h3 : x - 6 * D - 3 * D < 1 * D := by omega
        rw [if_neg h1, if_neg h2, if_pos h3]
        refine ⟨⟨fun h => absurd h (by decide), fun h => absurd h h1⟩,
          ⟨fun h => absurd h (by decide), fun h => by omega⟩,
          ⟨fun _ => ⟨by omega, by omega⟩, fun _ => rfl⟩, fun h => by cases h⟩
  have hdraw : rngHead rng * 10 < 10 * RANDOM_DEN := by
    have := rngHead_lt rng
    omega
  obtain ⟨w1, w2, w3, w4⟩ := hwalk r hr
  refine ⟨w1, w2, w3, w4, rfl, hdraw, ?_⟩
  obtain ⟨d1, d2, d3, d4⟩ := hwalk (rngHead rng * 10) hdraw
  have hshop : getRandomShopBird rng =
      match walkTiers BIRD_TIERS (rngHead rng * 10) with
      | some rarity => getRandomBird rarity (rngTail rng)
      | none => getRandomBird "common" (rngTail rng) := rfl
  cases hw : walkTiers BIRD_TIERS (rngHead rng * 10) with
  | none => exact absurd hw d4
  | some rarity =>
    have hthree : rarity = "common" ∨ rarity = "uncommon" ∨ rarity = "rare" := by
      rw [walkTiers_table] at hw
      split_ifs at hw
      · left; exact (Option.some.inj hw).symm
      · right; left; exact (Option.some.inj hw).symm
      · right; right; exact (Option.some.inj hw).symm
    have hpool : allBirds.filter (fun b => b.rarity = rarity) ≠ [] := by
      rcases hthree with h | h | h <;> rw [h] <;> decide
    obtain ⟨bird, hb, hbr⟩ := getRandomBird_some rarity (rngTail rng) hpool
    refine ⟨bird, rarity, rfl, ?_, hbr, hthree⟩
    rw [hshop, hw]
    exact hb

/-- Instance of the walk: a draw of 0.7 (scaled: 7) selects uncommon. -/
theorem weighted_rarity_walk_witness :
    walkTiers BIRD_TIERS (7 * RANDOM_DEN) = some "uncommon" :=
  (weighted_rarity_walk (7 * RANDOM_DEN) (fun _ => 0) (by decide)).2.1.2 (by decide)

/-! ## Prices and the free-reward flag (C14) -/

/-- The player's price: 0 for a flagged offer, the rarity table otherwise
(1 for a rarity that is not in the table). -/
theorem buyCost_table (bird : Bird) :
    (bird.freeReward = true → buyCost bird = 0)
      ∧ (bird.freeReward = false →
          buyCost bird = rarityCost bird.rarity
          ∧ (bird.rarity = "common" → buyCost bird = 1)
          ∧ (bird.rarity = "uncommon" → buyCost bird = 2)
          ∧ (bird.rarity = "rare" → buyCost bird = 3)
          ∧ (bird.rarity = "extremely rare" → buyCost bird = 4)
          ∧ (RARITY_COST bird.rarity = none → buyCost bird = 1)) := by
  constructor
  · intro h; simp [buyCost, h]
  · intro h
    have hc : buyCost bird = rarityCost bird.rarity := by simp [buyCost, h]
    refine ⟨hc, ?_, ?_, ?_, ?_, ?_⟩
    · intro hr; rw [hc, hr]; rfl
    · intro hr; rw [hc, hr]; rfl
    · intro hr; rw [hc, hr]; rfl
    · intro hr; rw [hc, hr]; rfl
    · intro hr; rw [hc]; simp [rarityCost, hr]

/-- Every purchase of the AI lowers its currency, flagged offer or not. -/
theorem aiBuyStep_pays (ai ai1 : AI) (h : aiBuyStep ai = AiStep.next ai1) :
    ai1.currency < ai.currency := by
  obtain ⟨i, bird, -, -, hcur, -, -⟩ := aiBuyStep_next_economy ai ai1 h
  have := rarityCost_pos bird.rarity
  omega

/-- The price of `aiBuyPhase` is `RARITY_COST[bird.rarity] || 1` in all of its
three places and never reads the free-reward flag: called on a shop that held
the flagged sparrow, with one coin, it would pay 1 where `buyBird` charges 0.
No run of the program calls it on such a shop, since `startShopPhase` calls it
on the shop that `generateShop` has just built. -/
theorem ai_pays_for_free_reward :
    freeSparrow.freeReward = true ∧ buyCost freeSparrow = 0 ∧ exampleFreeAi.currency = 1
      ∧ aiBuyPhase exampleFreeAi =
          ({ health := 30, board := [freeSparrow], shop := [], currency := 0 },
            Completion.normal) := by
  decide

/-- The shop that `generateShop` builds holds no flagged offer, so the AI never
meets one in `startShopPhase`: a reward put into `ai.shop` is dropped when the
shop is regenerated. -/
theorem generateShopLoop_no_flag (n : Nat) (target : List Bird) (rng : Rng)
    (h : ∀ b ∈ target, b.freeReward = false) :
    ∀ b ∈ (generateShopLoop n target rng).1, b.freeReward = false := by
  induction n generalizing target rng with
  | zero => exact h
  | succ n ih =>
    simp only [generateShopLoop]
    split
    · rename_i bird rng1 hg
      apply ih
      intro b hb
      rcases List.mem_append.1 hb with hb | hb
      · exact h b hb
      · have hb' : b = bird := by simpa using hb
        subst hb'
        have hshop : (getRandomShopBird rng).1 = some b := by rw [hg]
        unfold getRandomShopBird getRandomBird at hshop
        simp only at hshop
        split at hshop
        all_goals
          simp only [Option.map_eq_some'] at hshop
          obtain ⟨t, -, rfl⟩ := hshop
          rfl
    · exact h

/-- In `startShopPhase` the AI drafts from the shop that `generateShop` has just
built, with the player's currency: whenever that `generateShop` completes, the
AI that `refreshShops` leaves is the one `aiBuyPhase` leaves on that shop. -/
theorem refreshShops_ai (s : GameState) (rng : Rng)
    (h : (generateShop rng).2.2 = Completion.normal) :
    (refreshShops s rng).state.ai
      = (aiBuyPhase { s.ai with shop := (generateShop rng).1,
                                currency := s.player.currency }).1 := by
  unfold refreshShops
  generalize generateShop rng = g at h ⊢
  obtain ⟨aiShop, rng3, c3⟩ := g
  simp only at h
  subst h
  simp only
  generalize aiBuyPhase _ = r
  obtain ⟨ai5, c5⟩ := r
  generalize generateShop rng3 = g2
  obtain ⟨shop, rng6, c6⟩ := g2
  simp only
  repeat' split
  all_goals first | rfl | (rename_i hc; cases hc)

/-- C14. Free-reward cost.  Player: a successful `buyBird` (shop phase, offer in
range, cost covered, room on the roster or a triple completed) of an offer
carrying the free-reward flag leaves the player's currency unchanged, and of an
offer without the flag lowers it by the rarity-table value, which is 1 for
common, 2 for uncommon, 3 for rare, 4 for extremely rare and 1 for a rarity
outside the table.  AI: the draft of `startShopPhase` runs `aiBuyPhase` on the
shop that `generateShop` has just built, that shop holds no flagged offer, and
an iteration of `aiBuyPhase` on a shop without flagged offers buys an offer
without the flag at the rarity-table value and leaves a shop without flagged
offers; so no purchase of the AI is of a flagged offer, and every purchase of
the AI costs the rarity-table value of an unflagged offer. -/
theorem free_reward_cost (s : GameState) (i : Nat) (bird : Bird) (picks : Picks) (rng : Rng)
    (hphase : s.phase = Phase.shop) (hbird : s.shopBirds[i]? = some bird)
    (hafford : buyCost bird ≤ s.player.currency)
    (hroom : s.player.board.length < MAX_BOARD_SIZE ∨ willTriple s.player.board bird = true) :
    buyBird s (i : Int) picks rng = combineTriples (applyPurchase s (i : Int) bird) true picks rng
      ∧ (bird.freeReward = true →
          (buyBird s (i : Int) picks rng).state.player.currency = s.player.currency)
      ∧ (bird.freeReward = false →
          (buyBird s (i : Int) picks rng).state.player.currency
            = s.player.currency - rarityCost bird.rarity)
      ∧ (rarityCost "common" = 1 ∧ rarityCost "uncommon" = 2 ∧ rarityCost "rare" = 3
          ∧ rarityCost "extremely rare" = 4
          ∧ ∀ rarity, RARITY_COST rarity = none → rarityCost rarity = 1)
      ∧ (∀ (g : GameState) (draws : Rng), (generateShop draws).2.2 = Completion.normal →
          (refreshShops g draws).state.ai
            = (aiBuyPhase { g.ai with shop := (generateShop draws).1,
                                      currency := g.player.currency }).1)
      ∧ (∀ (draws : Rng), ∀ b ∈ (generateShop draws).1, b.freeReward = false)
      ∧ (∀ ai ai1 : AI, (∀ b ∈ ai.shop, b.freeReward = false) →
          aiBuyStep ai = AiStep.next ai1 →
          ∃ j bought, ai.shop[j]? = some bought ∧ bought.freeReward = false
            ∧ ai1.currency = ai.currency - rarityCost bought.rarity
            ∧ ai1.shop = ai.shop.eraseIdx j
            ∧ ∀ b ∈ ai1.shop, b.freeReward = false) := by
  have hrun : buyBird s (i : Int) picks rng
      = combineTriples (applyPurchase s (i : Int) bird) true picks rng := by
    rw [buyBird_guarded s i bird picks rng hphase hbird]
    have h1 : ¬ s.player.currency < buyCost bird := by omega
    have h2 : ¬ (s.player.board.length ≥ MAX_BOARD_SIZE ∧ ¬ willTriple s.player.board bird) := by
      rintro ⟨hfull, hnot⟩
      rcases hroom with h | h
      · omega
      · exact hnot h
    rw [if_neg h1, if_neg h2]
  have hcur : (buyBird s (i : Int) picks rng).state.player.currency
      = s.player.currency - buyCost bird := by
    rw [hrun]
    obtain ⟨pBoard, aBoard, added, addedAi, hst, -⟩ :=
      combineTriples_frame (applyPurchase s (i : Int) bird) true picks rng
    rw [hst]
    rfl
  refine ⟨hrun, ?_, ?_, ?_, ?_, ?_, ?_⟩
  · intro hflag
    rw [hcur, (buyCost_table bird).1 hflag]
    omega
  · intro hflag
    rw [hcur, ((buyCost_table bird).2 hflag).1]
  · refine ⟨rfl, rfl, rfl, rfl, ?_⟩
    intro rarity hr
    simp [rarityCost, hr]
  · intro g draws hg
    exact refreshShops_ai g draws hg
  · intro draws b hb
    exact generateShopLoop_no_flag SHOP_SIZE [] draws (by simp) b hb
  · intro ai ai1 hshop hstep
    obtain ⟨j, bought, hb, -, hc, hs, -⟩ := aiBuyStep_next_economy ai ai1 hstep
    refine ⟨j, bought, hb, hshop bought (mem_of_getElem_some hb), hc, hs, ?_⟩
    intro b hmem
    rw [hs] at hmem
    exact hshop b ((List.eraseIdx_sublist _ _).subset hmem)

/-- Instance of the free-reward cost: with one coin the player buys the flagged
sparrow and keeps the coin, buys the plain sparrow and has no coin left; the AI
of the example buys the owl, an offer without the flag, for 3. -/
theorem free_reward_cost_witness :
    freeSparrow.freeReward = true
      ∧ (buyBird exampleFreeState (0 : Nat) (fun _ => 0) (fun _ => 0)).state.player.currency = 1
      ∧ sparrow.freeReward = false
      ∧ (buyBird exampleFreeState (1 : Nat) (fun _ => 0) (fun _ => 0)).state.player.currency = 0
      ∧ (∃ j bought, exampleAi.shop[j]? = some bought ∧ bought.freeReward = false
          ∧ (buyRarest exampleAi 2 owl).currency = exampleAi.currency - rarityCost bought.rarity
          ∧ (buyRarest exampleAi 2 owl).shop = exampleAi.shop.eraseIdx j
          ∧ ∀ b ∈ (buyRarest exampleAi 2 owl).shop, b.freeReward = false) :=
  ⟨rfl,
   (free_reward_cost exampleFreeState 0 freeSparrow (fun _ => 0) (fun _ => 0) rfl rfl
      (by decide) (Or.inl (by decide))).2.1 rfl,
   rfl,
   (free_reward_cost exampleFreeState 1 sparrow (fun _ => 0) (fun _ => 0) rfl rfl
      (by decide) (Or.inl (by decide))).2.2.1 rfl,
   (free_reward_cost exampleFreeState 0 freeSparrow (fun _ => 0) (fun _ => 0) rfl rfl
      (by decide) (Or.inl (by decide))).2.2.2.2.2.2 exampleAi (buyRarest exampleAi 2 owl)
      (by decide) (by decide)⟩

/-! ## The tier written by the AI upgrade (C15) -/

/-- C15, at the failing input.  The AI holds a jay of tier 2 and a plain jay
and buys a third jay: the replacement has tier 2, not 3.  Step 1 filters the
copies out of the board before it looks the tier up, so the lookup finds
nothing and the tier is always 1 + 1. -/
theorem ai_upgrade_tier_stays_two :
    jayTier2.tier = some 2
      ∧ (exampleTierAi.board.find? (fun b => b.id = jay.id)).bind (fun b => b.tier) = some 2
      ∧ aiBuyPhase exampleTierAi =
          ({ health := 30, board := [upgraded jay 2], shop := [], currency := 0 },
            Completion.normal)
      ∧ (upgraded jay 2).tier = some 2
      ∧ (upgraded jay 2).tier ≠ some 3 := by
  decide

/-! ## The AI draft on a full roster (C16) -/

/-- C16 fails on the code: with 5 units, two of them jays, a jay on offer and
the coins to pay for it, `aiBuyPhase` buys nothing: the roster keeps its 5
units and the offer stays in the shop. -/
theorem ai_full_roster_counterexample :
    exampleFullAi.board.length = 5
      ∧ (exampleFullAi.board.filter (fun b => b.id = jay.id)).length = 2
      ∧ exampleFullAi.shop = [jay]
      ∧ rarityCost jay.rarity ≤ exampleFullAi.currency
      ∧ aiBuyPhase exampleFullAi = (exampleFullAi, Completion.normal)
      ∧ (aiBuyPhase exampleFullAi).1.board.length ≠ 4
      ∧ (aiBuyPhase exampleFullAi).1.shop = [jay] := by
  decide

/-- C16 as amended.  On every AI roster of 5 or more units the loop of
`aiBuyPhase` does not run: nothing is bought and the AI is returned unchanged,
whatever the shop offers, a triple-completing offer included.  An iteration
that buys, the in-place upgrade among them, needs fewer than 5 units. -/
theorem ai_full_roster_stops (ai : AI) (hfull : 5 ≤ ai.board.length) :
    aiBuyStep ai = AiStep.exit
      ∧ aiBuyPhase ai = (ai, Completion.normal)
      ∧ ∀ other next : AI, aiBuyStep other = AiStep.next next → other.board.length < 5 := by
  have hstep : aiBuyStep ai = AiStep.exit := by
    unfold aiBuyStep
    have hg : ¬ (ai.currency > 0 ∧ ai.board.length < MAX_BOARD_SIZE ∧ ai.shop.length > 0) := by
      rintro ⟨-, h, -⟩
      have h' : ai.board.length < 5 := h
      omega
    rw [if_neg hg]
  refine ⟨hstep, ?_, fun other next h => (aiBuyStep_next other next h).2.1⟩
  unfold aiBuyPhase
  cases hl : ai.shop.length with
  | zero => rfl
  | succ n => simp only [aiBuyLoop, hstep]

/-- Instance of the stop: the full roster with two jays is returned as it is. -/
theorem ai_full_roster_stops_witness :
    aiBuyStep exampleFullAi = AiStep.exit
      ∧ aiBuyPhase exampleFullAi = (exampleFullAi, Completion.normal) :=
  ⟨(ai_full_roster_stops exampleFullAi (by decide)).1,
   (ai_full_roster_stops exampleFullAi (by decide)).2.1⟩
/-! ## The top of the rarity ladder (C17) -/

/-- No catalog entry is extremely rare, so the generator returns `null` for
the rarity above rare, without reading a draw. -/
theorem extremely_rare_is_null (rng : Rng) :
    getRandomBirdOfRarity "extremely rare" rng = (none, rng) :=
  rfl

theorem null_options_join (i : Nat) :
    (([none, none, none] : List (Option Bird))[i]?).join = none := by
  match i with
  | 0 => rfl
  | 1 => rfl
  | 2 => rfl
  | n + 3 => rfl

theorem ai_null_reward_faults (picks : Picks) (rest : List Reward) (idx : Nat) (s : GameState)
    (rng : Rng) :
    handleReward picks ({ options := [none, none, none], isPlayer := false } :: rest) idx s rng
      = { state := s, rng := rngTail rng, completion := Completion.fault } := by
  simp only [handleReward, Bool.false_eq_true, if_false, null_options_join]

/-- C17, at the failing input.  The player holds two owls and buys a third:
the merge removes the three owls and queues a reward of three `null`
candidates, the reward modal throws on the first of them, and `buyBird` ends
in a fault with the cost paid, the roster empty and no unit placed in the
shop.  The same reward on the AI's side throws too. -/
theorem rare_triple_faults (picks : Picks) (rng : Rng) :
    allBirds.find? (fun b => b.id = "owl") = some ⟨"owl", "Barn Owl", "Tyto alba", "rare", 6, 10⟩
      ∧ getNextRarity "rare" = "extremely rare"
      ∧ (scanTriples [owl, owl, owl] true rng).rewards
          = [{ options := [none, none, none], isPlayer := true }]
      ∧ (buyBird exampleOwlState 0 picks rng).completion = Completion.fault
      ∧ (buyBird exampleOwlState 0 picks rng).state =
          { exampleOwlState with
            player := { health := 30, currency := 0, board := [] }, shopBirds := [] }
      ∧ (combineTriples
            { exampleOwlState with ai := { exampleOwlState.ai with board := [owl, owl, owl] } }
            false picks rng).completion = Completion.fault
      ∧ (combineTriples
            { exampleOwlState with ai := { exampleOwlState.ai with board := [owl, owl, owl] } }
            false picks rng).state.ai.shop = [] := by
  have hai : combineTriples
      { exampleOwlState with ai := { exampleOwlState.ai with board := [owl, owl, owl] } }
      false picks rng
      = handleReward picks [{ options := [none, none, none], isPlayer := false }] 0
          { exampleOwlState with ai := { exampleOwlState.ai with board := [] } } rng := rfl
  rw [hai, ai_null_reward_faults]
  exact ⟨rfl, rfl, rfl, rfl, rfl, rfl, rfl⟩

/-! ## An offer index outside the shop (C18) -/

theorem offerAt_outside (shop : List Bird) (idx : Int)
    (h : idx < 0 ∨ (shop.length : Int) ≤ idx) : offerAt shop idx = none := by
  unfold offerAt
  rcases h with h | h
  · rw [if_neg (by omega)]
  · have h0 : 0 ≤ idx := le_trans (Int.ofNat_nonneg _) h
    rw [if_pos h0]
    apply List.getElem?_eq_none
    omega

/-- C18 fails on the code: in the shop phase `buyBird(7)` on a shop of three
offers, and `buyBird(-1)`, end in a fault (the `TypeError` of reading
`bird.freeReward` on `undefined`). -/
theorem buyBird_invalid_index_counterexample :
    exampleState.phase = Phase.shop ∧ exampleState.shopBirds.length = 3
      ∧ (buyBird exampleState 7 (fun _ => 0) (fun _ => 0)).completion = Completion.fault
      ∧ (buyBird exampleState (-1) (fun _ => 0) (fun _ => 0)).completion = Completion.fault := by
  decide

/-- C18 as amended.  For every state and every offer index outside the range
of the shop list (negative, or at least its length), `buyBird` leaves the whole
state unchanged, currency, roster and shop included.  Outside the shop phase
it returns normally; in the shop phase it ends in a fault, the `TypeError` of
reading a property of `undefined`. -/
theorem buyBird_invalid_index (s : GameState) (idx : Int) (picks : Picks) (rng : Rng)
    (hout : idx < 0 ∨ (s.shopBirds.length : Int) ≤ idx) :
    (buyBird s idx picks rng).state = s
      ∧ (buyBird s idx picks rng).state.player.currency = s.player.currency
      ∧ (buyBird s idx picks rng).state.player.board = s.player.board
      ∧ (buyBird s idx picks rng).state.shopBirds = s.shopBirds
      ∧ (s.phase = Phase.shop → (buyBird s idx picks rng).completion = Completion.fault)
      ∧ (s.phase ≠ Phase.shop → (buyBird s idx picks rng).completion = Completion.normal) := by
  have hnone := offerAt_outside s.shopBirds idx hout
  by_cases hphase : s.phase = Phase.shop
  · have hrun : buyBird s idx picks rng
        = { state := s, rng := rng, completion := Completion.fault } := by
      unfold buyBird
      rw [hnone]
      simp [hphase]
    rw [hrun]
    exact ⟨rfl, rfl, rfl, rfl, fun _ => rfl, fun h => absurd hphase h⟩
  · have hrun : buyBird s idx picks rng
        = { state := s, rng := rng, completion := Completion.normal } := by
      unfold buyBird
      simp [hphase]
    rw [hrun]
    exact ⟨rfl, rfl, rfl, rfl, fun h => absurd h hphase, fun _ => rfl⟩

/-- Instance of the invalid index: index 7 on the shop of three offers. -/
theorem buyBird_invalid_index_witness :
    (buyBird exampleState 7 (fun _ => 0) (fun _ => 0)).state = exampleState :=
  (buyBird_invalid_index exampleState 7 (fun _ => 0) (fun _ => 0) (Or.inr (by decide))).1
/-! ## Reward placement (C19) -/

/-- C19. Reward placement.  Resolving the first pending reward with the chosen
candidate `c` (the card the player clicks, or the AI's random candidate) puts a
copy of `c` with the free-reward flag set at the front of the resolving actor's
shop list (`shopBirds` for the player, `ai.shop` for the AI) with all previous
offers behind it in their order, and then resolves the remaining rewards from
that state, one at a time in the order they were queued.  With a single
pending reward that is the whole effect.  No roster changes, and at the end
both shops are their earlier content behind the units put in front. -/
theorem reward_placement (picks : Picks) (reward : Reward) (rest : List Reward) (idx : Nat)
    (s : GameState) (rng : Rng) (c : Bird)
    (hmodal : reward.isPlayer = true → reward.options.all Option.isSome = true)
    (hchosen : reward.options[if reward.isPlayer then (picks idx).val
        else floorRandom (rngHead rng) reward.options.length]? = some (some c)) :
    handleReward picks (reward :: rest) idx s rng =
        handleReward picks rest (idx + 1)
          (if reward.isPlayer then
            { s with shopBirds := { c with freeReward := true } :: s.shopBirds }
           else
            { s with ai := { s.ai with shop := { c with freeReward := true } :: s.ai.shop } })
          (if reward.isPlayer then rng else rngTail rng)
      ∧ (handleReward picks [reward] idx s rng).state =
          (if reward.isPlayer then
            { s with shopBirds := { c with freeReward := true } :: s.shopBirds }
           else
            { s with ai := { s.ai with shop := { c with freeReward := true } :: s.ai.shop } })
      ∧ (handleReward picks [reward] idx s rng).completion = Completion.normal
      ∧ (handleReward picks (reward :: rest) idx s rng).state.player.board = s.player.board
      ∧ (handleReward picks (reward :: rest) idx s rng).state.ai.board = s.ai.board
      ∧ (∃ front, (handleReward picks (reward :: rest) idx s rng).state.shopBirds
            = front ++ s.shopBirds ∧ ∀ b ∈ front, b.freeReward = true)
      ∧ (∃ front, (handleReward picks (reward :: rest) idx s rng).state.ai.shop
            = front ++ s.ai.shop ∧ ∀ b ∈ front, b.freeReward = true) := by
  have hstep : ∀ tail : List Reward, handleReward picks (reward :: tail) idx s rng =
      handleReward picks tail (idx + 1)
        (if reward.isPlayer then
          { s with shopBirds := { c with freeReward := true } :: s.shopBirds }
         else
          { s with ai := { s.ai with shop := { c with freeReward := true } :: s.ai.shop } })
        (if reward.isPlayer then rng else rngTail rng) := by
    intro tail
    cases hp : reward.isPlayer with
    | true =>
      simp only [hp, if_true] at hchosen
      simp only [handleReward, hp, if_true, hmodal hp, hchosen, Option.join]
      rfl
    | false =>
      simp only [hp, Bool.false_eq_true, if_false] at hchosen
      simp only [handleReward, hp, Bool.false_eq_true, if_false, hchosen, Option.join]
      rfl
  obtain ⟨added, addedAi, hf, hfree, hfreeAi⟩ := handleReward_frame picks (reward :: rest) idx s rng
  refine ⟨hstep rest, ?_, ?_, ?_, ?_, ⟨added, ?_, hfree⟩, ⟨addedAi, ?_, hfreeAi⟩⟩
  · rw [hstep []]; rfl
  · rw [hstep []]; rfl
  · rw [hf]
  · rw [hf]
  · rw [hf]
  · rw [hf]

/-- Instance of the placement: the player clicks the second card of a reward
of three jays. -/
theorem reward_placement_witness :
    (handleReward (fun _ => 1)
        [{ options := [some jay, some jay, some jay], isPlayer := true }] 0 exampleState
        (fun _ => 0)).state
      = { exampleState with
          shopBirds := { jay with freeReward := true } :: exampleState.shopBirds } :=
  (reward_placement (fun _ => 1) { options := [some jay, some jay, some jay], isPlayer := true }
    [] 0 exampleState (fun _ => 0) jay (fun _ => rfl) rfl).2.1
/-! ## Simultaneous damage (C20) -/

/-- C20. Simultaneous damage.  In an attack step on two non-empty rosters the
attacker `a` is the first unit of the attacker roster and the defender `d` is
the unit at the drawn index.  After the damage `d` has health
`d.health - a.attack` and `a` has health `a.health - d.attack`, both from the
attack values held before the step; no other field of `a` or `d` changes (the
attack values included), the rest of the attacker roster is untouched and so
is every defender at another index.  The boards `attack` returns are these
boards with the units at health 0 or less removed. -/
theorem simultaneous_damage (a : Bird) (rest defenderBoard : List Bird) (rng : Rng)
    (hne : defenderBoard ≠ []) :
    ∃ d, defenderBoard[floorRandom (rngHead rng) defenderBoard.length]? = some d
      ∧ damageBoards (a :: rest) defenderBoard (floorRandom (rngHead rng) defenderBoard.length)
          = ({ a with health := a.health - d.attack } :: rest,
             defenderBoard.set (floorRandom (rngHead rng) defenderBoard.length)
               { d with health := d.health - a.attack })
      ∧ (damageBoards (a :: rest) defenderBoard
            (floorRandom (rngHead rng) defenderBoard.length)).2[
              floorRandom (rngHead rng) defenderBoard.length]?
          = some { d with health := d.health - a.attack }
      ∧ (∀ j, j ≠ floorRandom (rngHead rng) defenderBoard.length →
          (damageBoards (a :: rest) defenderBoard
            (floorRandom (rngHead rng) defenderBoard.length)).2[j]? = defenderBoard[j]?)
      ∧ ({ a with health := a.health - d.attack } : Bird).attack = a.attack
      ∧ ({ d with health := d.health - a.attack } : Bird).attack = d.attack
      ∧ attack (a :: rest) defenderBoard rng =
          (if a.health - d.attack ≤ 0 then rest
            else (damageBoards (a :: rest) defenderBoard
              (floorRandom (rngHead rng) defenderBoard.length)).1,
           if d.health - a.attack ≤ 0 then
              (damageBoards (a :: rest) defenderBoard
                (floorRandom (rngHead rng) defenderBoard.length)).2.eraseIdx
                  (floorRandom (rngHead rng) defenderBoard.length)
            else (damageBoards (a :: rest) defenderBoard
              (floorRandom (rngHead rng) defenderBoard.length)).2,
           rngTail rng, Completion.normal) := by
  have hlen : 0 < defenderBoard.length := List.length_pos.2 hne
  have hidx := floorRandom_lt (rngHead rng) defenderBoard.length (rngHead_lt rng) hlen
  obtain ⟨d, hd⟩ : ∃ d, defenderBoard[floorRandom (rngHead rng) defenderBoard.length]? = some d :=
    ⟨_, List.getElem?_eq_getElem hidx⟩
  have hdmg : damageBoards (a :: rest) defenderBoard
      (floorRandom (rngHead rng) defenderBoard.length)
      = ({ a with health := a.health - d.attack } :: rest,
         defenderBoard.set (floorRandom (rngHead rng) defenderBoard.length)
           { d with health := d.health - a.attack }) := by
    simp only [damageBoards, hd]
  refine ⟨d, hd, hdmg, ?_, ?_, rfl, rfl, ?_⟩
  · rw [hdmg]
    simp [List.getElem?_set, hidx]
  · intro j hj
    rw [hdmg]
    simp only
    rw [List.getElem?_set_ne (Ne.symm hj)]
  · rw [hdmg]
    have hl : ¬ defenderBoard.length = 0 := by omega
    simp only [attack, hl, if_false, hd]
    by_cases h1 : a.health - d.attack ≤ 0 <;> by_cases h2 : d.health - a.attack ≤ 0 <;>
      simp [h1, h2]

/-- Instance of the damage: a sparrow (2/5) attacks a board led by a robin
(1/6); the robin drops to 4 health, the sparrow to 4, nobody is removed. -/
theorem simultaneous_damage_witness :
    ∃ d, exampleDefenders[floorRandom (rngHead (fun _ => 0)) exampleDefenders.length]? = some d
      ∧ damageBoards exampleAttackers exampleDefenders
            (floorRandom (rngHead (fun _ => 0)) exampleDefenders.length)
          = ({ sparrow with health := sparrow.health - d.attack } :: [owl],
             exampleDefenders.set (floorRandom (rngHead (fun _ => 0)) exampleDefenders.length)
               { d with health := d.health - sparrow.attack }) :=
  let ⟨d, h1, h2, _⟩ := simultaneous_damage sparrow [owl] exampleDefenders (fun _ => 0)
    (by decide)
  ⟨d, h1, h2⟩
/-! ## The AI roster and triples (C23, C24) -/

theorem findTripleIdx_none_count (ai : AI) (h : findTripleIdx ai = none) (bird : Bird)
    (hb : bird ∈ ai.shop) (hc : rarityCost bird.rarity ≤ ai.currency) :
    (ai.board.filter (fun b => b.id = bird.id)).length ≠ 2 := by
  unfold findTripleIdx at h
  rw [List.findIdx?_eq_none_iff] at h
  have := h bird hb
  simp only [decide_eq_false_iff_not, not_and] at this
  intro h2
  exact this h2 hc

theorem buyRarest_plain (ai : AI) (bestIdx : Nat) (bird : Bird)
    (h : (ai.board.filter (fun b => b.id = bird.id)).length ≠ 2) :
    buyRarest ai bestIdx bird =
      { ai with
        currency := ai.currency - rarityCost bird.rarity,
        board := ai.board ++ [bird],
        shop := ai.shop.eraseIdx bestIdx } := by
  simp only [buyRarest, if_neg h]

/-- C24. The upgrade branch of step 2 is dead.  In every iteration of the loop
of `aiBuyPhase` that buys by step 2 (the scan of step 1 found nothing), the
offer selected is affordable and does not have exactly two copies on the AI
roster, so step 2 pays, appends a plain copy of the offer and splices it out
of the shop.  An iteration that buys otherwise is step 1 applying the in-place
upgrade to an offer with exactly two copies: every upgrade is step 1's. -/
theorem step2_upgrade_unreachable (ai ai1 : AI) (hstep : aiBuyStep ai = AiStep.next ai1) :
    (findTripleIdx ai = none →
        ∃ (i : Nat) (bird : Bird), ai.shop[i]? = some bird
          ∧ rarityCost bird.rarity ≤ ai.currency
          ∧ (ai.board.filter (fun b => b.id = bird.id)).length ≠ 2
          ∧ ai1 = buyRarest ai i bird
          ∧ ai1 = { ai with currency := ai.currency - rarityCost bird.rarity,
                            board := ai.board ++ [bird],
                            shop := ai.shop.eraseIdx i })
      ∧ (findTripleIdx ai ≠ none →
        ∃ (i : Nat) (bird : Bird), findTripleIdx ai = some i ∧ ai.shop[i]? = some bird
          ∧ (ai.board.filter (fun b => b.id = bird.id)).length = 2
          ∧ ai1 = upgradeTriple ai i bird) := by
  obtain ⟨-, -, i, bird, hb, hc, h | h⟩ := aiBuyStep_next ai ai1 hstep
  · constructor
    · intro hnone; rw [h.1] at hnone; cases hnone
    · intro _; exact ⟨i, bird, h.1, hb, h.2.2, h.2.1⟩
  · constructor
    · intro hnone
      have hcount := findTripleIdx_none_count ai hnone bird (mem_of_getElem_some hb) hc
      exact ⟨i, bird, hb, hc, hcount, h.2, by rw [h.2, buyRarest_plain ai i bird hcount]⟩
    · intro hne; exact absurd h.1 hne

/-- Instance of the dead branch: the AI with three coins buys the owl by step 2
and appends it as it is. -/
theorem step2_upgrade_unreachable_witness :
    ∃ (i : Nat) (bird : Bird), exampleAi.shop[i]? = some bird
      ∧ rarityCost bird.rarity ≤ exampleAi.currency
      ∧ (exampleAi.board.filter (fun b => b.id = bird.id)).length ≠ 2
      ∧ buyRarest exampleAi 2 owl = buyRarest exampleAi i bird
      ∧ buyRarest exampleAi 2 owl =
          { exampleAi with currency := exampleAi.currency - rarityCost bird.rarity,
                           board := exampleAi.board ++ [bird],
                           shop := exampleAi.shop.eraseIdx i } :=
  (step2_upgrade_unreachable exampleAi (buyRarest exampleAi 2 owl) (by decide)).1 (by decide)
theorem noTriple_upgrade (board : List Bird) (bird : Bird) (t : Int) (h : noTriple board) :
    noTriple (board.filter (fun b => b.id ≠ bird.id) ++ [upgraded bird t]) := by
  intro key
  rw [List.filter_append, List.length_append, List.filter_filter]
  by_cases hk : bird.id = key
  · have h0 : List.filter (fun a => decide (a.id = key) && decide (a.id ≠ bird.id)) board = [] := by
      rw [List.filter_eq_nil_iff]
      intro a _
      simp [hk]
    rw [h0]
    have h1 : ([upgraded bird t].filter (fun b => decide (b.id = key))).length ≤ 1 :=
      List.length_filter_le _ _
    simp only [List.length_nil]
    omega
  · have h1 : [upgraded bird t].filter (fun b => decide (b.id = key)) = [] := by
      rw [List.filter_eq_nil_iff]
      intro a ha
      rw [List.mem_singleton.1 ha]
      simpa [upgraded] using hk
    have h2 : (List.filter (fun a => decide (a.id = key) && decide (a.id ≠ bird.id)) board).length
        ≤ (List.filter (fun a => decide (a.id = key)) board).length := by
      rw [← List.countP_eq_length_filter, ← List.countP_eq_length_filter]
      apply List.countP_mono_left
      intro a _ ha
      simp only [Bool.and_eq_true] at ha
      exact ha.1
    have := h key
    rw [h1]
    simp only [List.length_nil]
    omega

theorem noTriple_append (board : List Bird) (bird : Bird) (h : noTriple board)
    (hcount : (board.filter (fun b => b.id = bird.id)).length ≠ 2) :
    noTriple (board ++ [bird]) := by
  intro key
  rw [List.filter_append, List.length_append]
  have hk := h key
  by_cases hid : bird.id = key
  · have h1 : ([bird].filter (fun b => decide (b.id = key))).length ≤ 1 :=
      List.length_filter_le _ _
    rw [hid] at hcount
    omega
  · have h1 : [bird].filter (fun b => decide (b.id = key)) = [] := by
      rw [List.filter_eq_nil_iff]
      intro a ha
      rw [List.mem_singleton.1 ha]
      simpa using hid
    rw [h1]
    simp only [List.length_nil]
    omega

theorem aiBuyStep_noTriple (ai ai1 : AI) (hstep : aiBuyStep ai = AiStep.next ai1)
    (h : noTriple ai.board) : noTriple ai1.board := by
  obtain ⟨-, -, i, bird, -, -, h1 | h1⟩ := aiBuyStep_next ai ai1 hstep
  · rw [h1.2.1, upgradeTriple_eq]
    exact noTriple_upgrade ai.board bird 2 h
  · rw [h1.2]
    simp only [buyRarest]
    split
    · exact noTriple_upgrade ai.board bird _ h
    · rename_i hc
      exact noTriple_append ai.board bird h hc

theorem aiBuyLoop_noTriple (n : Nat) (ai : AI) (h : noTriple ai.board) :
    noTriple (aiBuyLoop n ai).1.board := by
  induction n generalizing ai with
  | zero => exact h
  | succ n ih =>
    simp only [aiBuyLoop]
    split
    · rename_i ai1 hstep
      exact ih ai1 (aiBuyStep_noTriple ai ai1 hstep h)
    · exact h
    · exact h

theorem combineTriples_noTriple (s : GameState) (isPlayer : Bool) (picks : Picks) (rng : Rng)
    (h : noTriple (if isPlayer then s.player.board else s.ai.board)) :
    combineTriples s isPlayer picks rng
      = { state := s, rng := rng, completion := Completion.normal } := by
  have hscan := scanTriples_no_triple _ isPlayer rng h
  unfold combineTriples
  rw [hscan]
  cases isPlayer <;> simp [handleReward]

/-- C23. The AI roster never holds a triple.  If no id occurs three or more
times on the AI roster before `aiBuyPhase`, then for every shop and currency no
id does after any number of iterations of its loop, nor when `aiBuyPhase` is
done.  So `combineTriples` on the AI roster after a buy pass finds nothing: the
scan leaves the roster as it is and queues no reward, and the call returns
with the state unchanged. -/
theorem ai_never_holds_triple (ai : AI) (n : Nat) (s : GameState) (picks : Picks) (rng : Rng)
    (h : noTriple ai.board) :
    noTriple (aiBuyLoop n ai).1.board
      ∧ noTriple (aiBuyPhase ai).1.board
      ∧ (scanTriples (aiBuyPhase ai).1.board false rng).board = (aiBuyPhase ai).1.board
      ∧ (scanTriples (aiBuyPhase ai).1.board false rng).rewards = []
      ∧ (scanTriples (aiBuyPhase ai).1.board false rng).fault = false
      ∧ combineTriples { s with ai := (aiBuyPhase ai).1 } false picks rng
          = { state := { s with ai := (aiBuyPhase ai).1 }, rng := rng,
              completion := Completion.normal } := by
  have h1 := aiBuyLoop_noTriple n ai h
  have h2 : noTriple (aiBuyPhase ai).1.board := aiBuyLoop_noTriple ai.shop.length ai h
  have hscan := scanTriples_no_triple (aiBuyPhase ai).1.board false rng h2
  refine ⟨h1, h2, by rw [hscan], by rw [hscan], by rw [hscan], ?_⟩
  exact combineTriples_noTriple _ false picks rng h2

/-- Instance of the invariant: the AI holding two jays buys the third; the
roster then holds a single jay and the merge finds nothing. -/
theorem ai_never_holds_triple_witness :
    noTriple (aiBuyPhase exampleTierAi).1.board
      ∧ (scanTriples (aiBuyPhase exampleTierAi).1.board false (fun _ => 0)).rewards = [] :=
  ⟨(ai_never_holds_triple exampleTierAi 0 exampleState (fun _ => 0) (fun _ => 0)
      (by
        intro key
        by_cases hk : "jay" = key <;>
          simp [exampleTierAi, jayTier2, upgraded, jay, Template.instantiate, hk])).2.1,
   (ai_never_holds_triple exampleTierAi 0 exampleState (fun _ => 0) (fun _ => 0)
      (by
        intro key
        by_cases hk : "jay" = key <;>
          simp [exampleTierAi, jayTier2, upgraded, jay, Template.instantiate, hk])).2.2.2.1⟩
/-! ## Merge removal is total and framed (C22) -/

theorem mergeWhile_board (isPlayer : Bool) (key : String) (n : Nat) (sc : Scan) :
    (mergeWhile isPlayer key n sc).board
      = if 3 ≤ n then sc.board.filter (fun b => b.id ≠ key) else sc.board := by
  induction n using Nat.strong_induction_on generalizing sc with
  | _ n ih =>
    match n with
    | 0 => rfl
    | 1 => rfl
    | 2 => rfl
    | m + 3 =>
      have h3 : 3 ≤ m + 3 := by omega
      rw [if_pos h3]
      simp only [mergeWhile]
      split
      · exact mergeOnce_board isPlayer key sc
      · rw [ih m (by omega), mergeOnce_board]
        split
        · rw [List.filter_filter]
          apply List.filter_congr
          intro a _
          simp
        · rfl

theorem scanKeys_board (isPlayer : Bool) (counts : List (String × Nat)) (sc : Scan)
    (hsc : sc.fault = false)
    (hall : ∀ p ∈ counts, 3 ≤ p.2 → (allBirds.find? (fun b => b.id = p.1)).isSome) :
    (scanKeys isPlayer counts sc).board
      = sc.board.filter (fun b => counts.all (fun q => !(decide (3 ≤ q.2)) || decide (b.id ≠ q.1))) := by
  induction counts generalizing sc with
  | nil => simp [scanKeys]
  | cons p rest ih =>
    obtain ⟨key, n⟩ := p
    have h1 := mergeWhile_fault isPlayer key n sc hsc (hall (key, n) (List.mem_cons_self _ _))
    have hrest : ∀ q ∈ rest, 3 ≤ q.2 → (allBirds.find? (fun b => b.id = q.1)).isSome :=
      fun q hq => hall q (List.mem_cons_of_mem _ hq)
    simp only [scanKeys, h1, Bool.false_eq_true, if_false]
    rw [ih _ h1 hrest, mergeWhile_board]
    by_cases h3 : 3 ≤ n
    · rw [if_pos h3, List.filter_filter]
      apply List.filter_congr
      intro a _
      simp only [List.all_cons, h3, decide_True, Bool.not_true, Bool.false_or]
      rw [Bool.and_comm]
    · rw [if_neg h3]
      apply List.filter_congr
      intro a _
      simp [List.all_cons, h3]

theorem scanTriples_board_eq (board : List Bird) (isPlayer : Bool) (rng : Rng)
    (hcat : fromCatalog board) :
    (scanTriples board isPlayer rng).board
      = board.filter (fun b => decide ((board.filter (fun u => u.id = b.id)).length < 3)) := by
  unfold scanTriples
  rw [scanKeys_board isPlayer _ _ rfl (countsOf_template board hcat)]
  apply List.filter_congr
  intro b hb
  by_cases hlt : (board.filter (fun u => u.id = b.id)).length < 3
  · simp only [hlt, decide_True]
    rw [List.all_eq_true]
    intro q hq
    by_cases hid : b.id = q.1
    · have := countsOf_snd board q hq
      rw [← hid] at this
      have h3 : ¬ 3 ≤ q.2 := by omega
      simp [h3]
    · simp [hid]
  · simp only [hlt, decide_False]
    rw [Bool.eq_false_iff]
    intro hall
    rw [List.all_eq_true] at hall
    have := hall _ (countsOf_mem board b hb)
    have h3 : 3 ≤ (board.filter (fun u => u.id = b.id)).length := by omega
    simp [h3] at this

theorem noTriple_filter (board : List Bird) :
    noTriple (board.filter
      (fun b => decide ((board.filter (fun u => u.id = b.id)).length < 3))) := by
  intro key
  rw [List.filter_filter]
  by_cases hlt : (board.filter (fun u => u.id = key)).length < 3
  · have : (List.filter (fun a => decide (a.id = key)
          && decide ((board.filter (fun u => u.id = a.id)).length < 3)) board).length
        ≤ (List.filter (fun a => decide (a.id = key)) board).length := by
      rw [← List.countP_eq_length_filter, ← List.countP_eq_length_filter]
      apply List.countP_mono_left
      intro a _ ha
      simp only [Bool.and_eq_true] at ha
      exact ha.1
    omega
  · have h0 : List.filter (fun a => decide (a.id = key)
        && decide ((board.filter (fun u => u.id = a.id)).length < 3)) board = [] := by
      rw [List.filter_eq_nil_iff]
      intro a _ ha
      simp only [Bool.and_eq_true, decide_eq_true_eq] at ha
      rw [ha.1] at ha
      exact hlt ha.2
    rw [h0]
    simp
/-- C22. Merge removal is total and framed.  On a roster of catalog units, the
roster that `combineTriples` leaves is exactly the original roster without the
units whose id occurs three or more times on it: all copies of such an id go
(also when there are four or more), and the units whose id occurs fewer than
three times stay, unchanged and in their original order.  So no id occurs
three or more times afterwards, and a second `combineTriples` returns normally
with the state unchanged and queues no reward. -/
theorem merge_removal_total (s : GameState) (isPlayer : Bool) (picks picks2 : Picks)
    (rng rng2 : Rng) (board : List Bird)
    (hboard : (if isPlayer then s.player.board else s.ai.board) = board)
    (hcat : fromCatalog board) :
    (scanTriples board isPlayer rng).board
        = board.filter (fun b => decide ((board.filter (fun u => u.id = b.id)).length < 3))
      ∧ (if isPlayer then (combineTriples s isPlayer picks rng).state.player.board
          else (combineTriples s isPlayer picks rng).state.ai.board)
        = board.filter (fun b => decide ((board.filter (fun u => u.id = b.id)).length < 3))
      ∧ noTriple
          (board.filter (fun b => decide ((board.filter (fun u => u.id = b.id)).length < 3)))
      ∧ combineTriples (combineTriples s isPlayer picks rng).state isPlayer picks2 rng2
        = { state := (combineTriples s isPlayer picks rng).state, rng := rng2,
            completion := Completion.normal }
      ∧ (scanTriples (scanTriples board isPlayer rng).board isPlayer rng2).rewards = []
      ∧ (scanTriples (scanTriples board isPlayer rng).board isPlayer rng2).board
        = (scanTriples board isPlayer rng).board := by
  have hscan := scanTriples_board_eq board isPlayer rng hcat
  have hno := noTriple_filter board
  have hfinal := combineTriples_board s isPlayer picks rng
  rw [hboard, hscan] at hfinal
  have hno2 : noTriple (if isPlayer then (combineTriples s isPlayer picks rng).state.player.board
      else (combineTriples s isPlayer picks rng).state.ai.board) := by
    rw [hfinal]; exact hno
  have hagain := scanTriples_no_triple _ isPlayer rng2 (hscan ▸ hno)
  refine ⟨hscan, hfinal, hno, combineTriples_noTriple _ isPlayer picks2 rng2 hno2, ?_, ?_⟩
  · rw [hagain]
  · rw [hagain]

/-- Instance of the removal: four sparrows around a jay leave the jay. -/
theorem merge_removal_total_witness :
    (combineTriples exampleFourSparrows true (fun _ => 0) (fun _ => 0)).state.player.board
        = [jay] :=
  ((merge_removal_total exampleFourSparrows true (fun _ => 0) (fun _ => 0) (fun _ => 0)
      (fun _ => 0) [sparrow, jay, sparrow, sparrow, sparrow] rfl
      (by unfold fromCatalog; decide)).2.1).trans (by decide)
/-! ## Battle termination (C21) -/

theorem eraseIdx_set_same (l : List Bird) (i : Nat) (x : Bird) :
    (l.set i x).eraseIdx i = l.eraseIdx i := by
  induction l generalizing i with
  | nil => rfl
  | cons y ys ih =>
    cases i with
    | zero => rfl
    | succ j => simp [ih]

theorem healthSum_eraseIdx (l : List Bird) (i : Nat) (d : Bird) (h : l[i]? = some d) :
    healthSum (l.eraseIdx i) + d.health.toNat = healthSum l := by
  induction l generalizing i with
  | nil => simp at h
  | cons y ys ih =>
    cases i with
    | zero =>
      simp only [List.getElem?_cons_zero, Option.some.injEq] at h
      subst h
      simp [healthSum]
      omega
    | succ j =>
      simp only [List.getElem?_cons_succ] at h
      have := ih j h
      simp only [healthSum, List.eraseIdx_cons_succ, List.map_cons, List.sum_cons] at this ⊢
      omega

theorem healthSum_set (l : List Bird) (i : Nat) (d x : Bird) (h : l[i]? = some d) :
    healthSum (l.set i x) + d.health.toNat = healthSum l + x.health.toNat := by
  induction l generalizing i with
  | nil => simp at h
  | cons y ys ih =>
    cases i with
    | zero =>
      simp only [List.getElem?_cons_zero, Option.some.injEq] at h
      subst h
      simp [healthSum]
      omega
    | succ j =>
      simp only [List.getElem?_cons_succ] at h
      have := ih j h
      simp only [healthSum, List.set_cons_succ, List.map_cons, List.sum_cons] at this ⊢
      omega

theorem alive_eraseIdx (l : List Bird) (i : Nat) (h : alive l) : alive (l.eraseIdx i) :=
  fun b hb => h b (List.mem_of_mem_eraseIdx hb)

theorem alive_set (l : List Bird) (i : Nat) (x : Bird) (h : alive l)
    (hx : 0 < x.health ∧ 1 ≤ x.attack) : alive (l.set i x) := by
  intro b hb
  rcases List.mem_or_eq_of_mem_set hb with hb | hb
  · exact h b hb
  · rw [hb]; exact hx

theorem attack_closed (a : Bird) (rest defenderBoard : List Bird) (rng : Rng) (d : Bird)
    (hd : defenderBoard[floorRandom (rngHead rng) defenderBoard.length]? = some d) :
    attack (a :: rest) defenderBoard rng =
      (if a.health - d.attack ≤ 0 then rest
        else { a with health := a.health - d.attack } :: rest,
       if d.health - a.attack ≤ 0 then
          defenderBoard.eraseIdx (floorRandom (rngHead rng) defenderBoard.length)
        else defenderBoard.set (floorRandom (rngHead rng) defenderBoard.length)
          { d with health := d.health - a.attack },
       rngTail rng, Completion.normal) := by
  have hl : ¬ defenderBoard.length = 0 := by
    intro h0
    rw [List.length_eq_zero.1 h0] at hd
    simp at hd
  simp only [attack, hl, if_false, hd]
  by_cases h1 : a.health - d.attack ≤ 0 <;> by_cases h2 : d.health - a.attack ≤ 0 <;>
    simp [h1, h2, eraseIdx_set_same]
/-- One attack between two rosters of fighting units returns normally, leaves
fighting units only and lowers the health left on the two rosters. -/
theorem attack_progress (attackerBoard defenderBoard : List Bird) (rng : Rng)
    (ha : alive attackerBoard) (hd : alive defenderBoard)
    (hane : attackerBoard ≠ []) (hdne : defenderBoard ≠ []) :
    (attack attackerBoard defenderBoard rng).2.2.2 = Completion.normal
      ∧ alive (attack attackerBoard defenderBoard rng).1
      ∧ alive (attack attackerBoard defenderBoard rng).2.1
      ∧ healthSum (attack attackerBoard defenderBoard rng).1
          + healthSum (attack attackerBoard defenderBoard rng).2.1
        < healthSum attackerBoard + healthSum defenderBoard := by
  cases attackerBoard with
  | nil => exact absurd rfl hane
  | cons a rest =>
    have hlen : 0 < defenderBoard.length := List.length_pos.2 hdne
    have hidx := floorRandom_lt (rngHead rng) defenderBoard.length (rngHead_lt rng) hlen
    obtain ⟨d, hdef⟩ : ∃ d, defenderBoard[floorRandom (rngHead rng) defenderBoard.length]? = some d :=
      ⟨_, List.getElem?_eq_getElem hidx⟩
    rw [attack_closed a rest defenderBoard rng d hdef]
    obtain ⟨hah, haa⟩ := ha a (List.mem_cons_self _ _)
    obtain ⟨hdh, hda⟩ := hd d (mem_of_getElem_some hdef)
    have hrest : alive rest := fun b hb => ha b (List.mem_cons_of_mem _ hb)
    have hsumA : healthSum (a :: rest) = a.health.toNat + healthSum rest := by
      simp [healthSum]
    have hE := healthSum_eraseIdx defenderBoard _ d hdef
    have hS := healthSum_set defenderBoard _ d { d with health := d.health - a.attack } hdef
    simp only at hS
    refine ⟨rfl, ?_, ?_, ?_⟩
    · simp only
      split
      · exact hrest
      · rename_i h1
        intro b hb
        rcases List.mem_cons.1 hb with rfl | hb
        · exact ⟨by simp only; omega, haa⟩
        · exact hrest b hb
    · simp only
      split
      · exact alive_eraseIdx _ _ hd
      · rename_i h2
        exact alive_set _ _ _ hd ⟨by simp only; omega, hda⟩
    · simp only
      have hA : healthSum (if a.health - d.attack ≤ 0 then rest
          else { a with health := a.health - d.attack } :: rest) < healthSum (a :: rest) := by
        rw [hsumA]
        split
        · omega
        · simp only [healthSum, List.map_cons, List.sum_cons]
          omega
      have hD : healthSum (if d.health - a.attack ≤ 0 then
            defenderBoard.eraseIdx (floorRandom (rngHead rng) defenderBoard.length)
          else defenderBoard.set (floorRandom (rngHead rng) defenderBoard.length)
            { d with health := d.health - a.attack }) < healthSum defenderBoard := by
        split
        · omega
        · omega
      omega
theorem doBattleStep_progress (b : Battle)
    (hp : alive b.state.player.board) (ha : alive b.state.ai.board)
    (hpne : b.state.player.board ≠ []) (hane : b.state.ai.board ≠ []) :
    ∃ b1, doBattleStep b = BattleStep.next b1
      ∧ alive b1.state.player.board ∧ alive b1.state.ai.board
      ∧ healthSum b1.state.player.board + healthSum b1.state.ai.board
          < healthSum b.state.player.board + healthSum b.state.ai.board := by
  have hg : ¬ (b.state.player.board.length = 0 ∨ b.state.ai.board.length = 0) := by
    rintro (h | h)
    · exact hpne (List.length_eq_zero.1 h)
    · exact hane (List.length_eq_zero.1 h)
  unfold doBattleStep
  simp only [hg, if_false]
  cases b.playerTurn with
  | player =>
    have hprog := attack_progress b.state.player.board b.state.ai.board b.rng hp ha hpne hane
    generalize attack b.state.player.board b.state.ai.board b.rng = r at hprog
    obtain ⟨A, D, rng1, c⟩ := r
    simp only at hprog
    obtain ⟨hc, hA, hD, hlt⟩ := hprog
    subst hc
    exact ⟨_, rfl, hA, hD, hlt⟩
  | ai =>
    have hprog := attack_progress b.state.ai.board b.state.player.board b.rng ha hp hane hpne
    generalize attack b.state.ai.board b.state.player.board b.rng = r at hprog
    obtain ⟨A, D, rng1, c⟩ := r
    simp only at hprog
    obtain ⟨hc, hA, hD, hlt⟩ := hprog
    subst hc
    exact ⟨_, rfl, hD, hA, by show healthSum D + healthSum A < _; omega⟩

theorem doBattleStep_resolved_iff (b : Battle) :
    doBattleStep b = BattleStep.resolved
      ↔ (b.state.player.board = [] ∨ b.state.ai.board = []) := by
  constructor
  · intro h
    by_contra hne
    have hg : ¬ (b.state.player.board.length = 0 ∨ b.state.ai.board.length = 0) := by
      rintro (h0 | h0)
      · exact hne (Or.inl (List.length_eq_zero.1 h0))
      · exact hne (Or.inr (List.length_eq_zero.1 h0))
    unfold doBattleStep at h
    simp only [hg, if_false] at h
    split at h
    · split at h <;> cases h
    · split at h <;> cases h
  · intro h
    have hg : b.state.player.board.length = 0 ∨ b.state.ai.board.length = 0 := by
      rcases h with h | h
      · left; rw [h]; rfl
      · right; rw [h]; rfl
    unfold doBattleStep
    simp only [hg, if_true]

theorem battleLoop_terminates (n : Nat) (b : Battle)
    (hp : alive b.state.player.board) (ha : alive b.state.ai.board)
    (hn : healthSum b.state.player.board + healthSum b.state.ai.board < n) :
    ∃ b1, battleLoop n b = some b1
      ∧ (b1.state.player.board = [] ∨ b1.state.ai.board = []) := by
  induction n generalizing b with
  | zero => omega
  | succ n ih =>
    by_cases hres : b.state.player.board = [] ∨ b.state.ai.board = []
    · refine ⟨b, ?_, hres⟩
      simp only [battleLoop, (doBattleStep_resolved_iff b).2 hres]
    · have hpne : b.state.player.board ≠ [] := fun h => hres (Or.inl h)
      have hane : b.state.ai.board ≠ [] := fun h => hres (Or.inr h)
      obtain ⟨b2, hstep, hp2, ha2, hlt⟩ := doBattleStep_progress b hp ha hpne hane
      obtain ⟨b1, hloop, hempty⟩ := ih b2 hp2 ha2 (by omega)
      exact ⟨b1, by simp only [battleLoop, hstep, hloop], hempty⟩

theorem battleLoop_more_fuel (n k : Nat) (b b1 : Battle) (h : battleLoop n b = some b1) :
    battleLoop (n + k) b = some b1 := by
  induction n generalizing b with
  | zero => cases h
  | succ n ih =>
    have hk : n + 1 + k = (n + k) + 1 := by omega
    rw [hk]
    simp only [battleLoop] at h ⊢
    split
    · rename_i hs; rw [hs] at h; exact h
    · rename_i b2 hs; rw [hs] at h; exact ih b2 h
    · rename_i b2 hs; rw [hs] at h; cases h
/-- C21. Battle termination.  When every unit of both rosters has attack at
least 1 and positive health, then for either first attacker and every stream
of draws (so every sequence of defender choices) the chain of `doBattleStep`
calls reaches the call that schedules `checkGameEnd` within
`healthSum player + healthSum ai + 1` calls, and at that point at least one
roster is empty.  More fuel gives the same resolved battle, and `battleRound`
returns the result of `checkGameEnd` on it. -/
theorem battle_terminates (s : GameState) (turn : Side) (rng : Rng) (picks : Picks)
    (extra : Nat) (hp : alive s.player.board) (ha : alive s.ai.board) :
    (∃ b1, battleLoop (healthSum s.player.board + healthSum s.ai.board + 1 + extra)
          { state := s, playerTurn := turn, rng := rng } = some b1
        ∧ (b1.state.player.board = [] ∨ b1.state.ai.board = [])
        ∧ doBattleStep b1 = BattleStep.resolved)
      ∧ (∃ b1, battleLoop (healthSum s.player.board + healthSum s.ai.board + 1 + extra)
          (battleStart s rng) = some b1
        ∧ (b1.state.player.board = [] ∨ b1.state.ai.board = [])
        ∧ battleRound (healthSum s.player.board + healthSum s.ai.board + 1 + extra) s picks rng
            = some (checkGameEnd b1.state picks b1.rng)) := by
  have hgen : ∀ b : Battle, b.state = s →
      ∃ b1, battleLoop (healthSum s.player.board + healthSum s.ai.board + 1 + extra) b = some b1
        ∧ (b1.state.player.board = [] ∨ b1.state.ai.board = []) := by
    intro b hb
    obtain ⟨b1, hloop, hempty⟩ := battleLoop_terminates
      (healthSum s.player.board + healthSum s.ai.board + 1) b
      (by rw [hb]; exact hp) (by rw [hb]; exact ha) (by rw [hb]; omega)
    exact ⟨b1, battleLoop_more_fuel _ extra b b1 hloop, hempty⟩
  obtain ⟨b1, h1, h2⟩ := hgen { state := s, playerTurn := turn, rng := rng } rfl
  obtain ⟨c1, g1, g2⟩ := hgen (battleStart s rng) rfl
  refine ⟨⟨b1, h1, h2, (doBattleStep_resolved_iff b1).2 h2⟩, ⟨c1, g1, g2, ?_⟩⟩
  simp only [battleRound, g1, Option.map_some']

/-- Instance of the termination: the two 5/5 units, the AI attacking first. -/
theorem battle_terminates_witness :
    ∃ b1, battleLoop (healthSum exampleDuel.player.board + healthSum exampleDuel.ai.board + 1 + 0)
          { state := exampleDuel, playerTurn := Side.ai, rng := fun _ => 0 } = some b1
        ∧ (b1.state.player.board = [] ∨ b1.state.ai.board = [])
        ∧ doBattleStep b1 = BattleStep.resolved :=
  (battle_terminates exampleDuel Side.ai (fun _ => 0) (fun _ => 0) 0
    (by unfold alive; decide) (by unfold alive; decide)).1

end AutoBattler
